import Mathlib

/-!
Shallow embedding of the WhatsApp chat-analyzer core (crate `chat-core-wasm`)
and verification of specification claims about it.

Modelling conventions, applied throughout:

* Rust `u32`/`usize`/`i64` counters are modelled by `Nat`/`Int`; none of the
  verified claims depends on machine-integer overflow, and all quantities that
  occur (message counts, day numbers, minute gaps) are far below the wrap
  points of the original types.
* Rust `f32`/`f64` arithmetic that uses only `+ - * / abs min max clamp` is
  modelled exactly over `ℚ`.  The paths that need transcendental functions
  (the PMI `ln`/`log2` scores of `top_phrases`/`salient_phrases`/
  `per_person_phrases`) are outside the executable model and no claim below
  depends on their values.
* Unicode-sensitive predicates of the Rust standard library
  (`char::is_alphanumeric`, `char::to_lowercase`, …) are modelled by their
  ASCII restrictions; `char::is_whitespace` and `char::is_control` are
  modelled by the full (finite) Unicode `White_Space` and `Cc` sets, which
  match Rust exactly.  Every concrete input used in a witness or a
  counterexample is ASCII (plus complete emoji scalars), where the model
  agrees with Rust exactly.
* Rust `HashMap` iteration order is unspecified; it is modelled by
  first-insertion order.  No claim below depends on the iteration order.
* `BTreeMap` is modelled by an association list kept sorted by key.
-/

namespace ChatCore

/-- ASCII decimal digit, the character class accepted by Rust's
`str::parse::<u32>` and by chrono's numeric scanner. -/
def isDigitChar (c : Char) : Bool :=
  ('0' ≤ c && c ≤ '9')

/-- Numeric value of an ASCII digit. -/
def digitVal (c : Char) : Nat := c.toNat - '0'.toNat

/-- Value of a string of ASCII digits, most significant first. -/
def natOfDigits (l : List Char) : Nat :=
  l.foldl (fun acc c => acc * 10 + digitVal c) 0

/-- The Unicode `White_Space` set, the exact semantics of Rust's
`char::is_whitespace` and of the regex class `\s`. -/
def rustWhitespace (c : Char) : Bool :=
  let n := c.toNat
  n = 0x20 || n = 0x9 || n = 0xa || n = 0xb || n = 0xc || n = 0xd ||
  n = 0x85 || n = 0xa0 || n = 0x1680 ||
  (0x2000 <= n && n <= 0x200a) ||
  n = 0x2028 || n = 0x2029 || n = 0x202f || n = 0x205f || n = 0x3000

/-- The Unicode `Cc` category, the exact semantics of Rust's
`char::is_control`. -/
def rustIsControl (c : Char) : Bool :=
  c.toNat < 0x20 || (0x7f ≤ c.toNat && c.toNat ≤ 0x9f)

/-- ASCII model of Rust's Unicode-aware `char::is_alphanumeric`. -/
def rustIsAlphanumeric (c : Char) : Bool :=
  ('a' ≤ c && c ≤ 'z') || ('A' ≤ c && c ≤ 'Z') || isDigitChar c

/-- ASCII model of Rust's `char::to_lowercase` (one-to-one on ASCII). -/
def rustToLowerChar (c : Char) : Char :=
  if 'A' ≤ c && c ≤ 'Z' then Char.ofNat (c.toNat + 32) else c

/-- ASCII model of Rust's `char::to_uppercase`. -/
def rustToUpperChar (c : Char) : Char :=
  if 'a' ≤ c && c ≤ 'z' then Char.ofNat (c.toNat - 32) else c

/-- ASCII model of Rust's `str::to_lowercase`. -/
def rustToLower (s : String) : String :=
  String.mk (s.data.map rustToLowerChar)

/-- ASCII model of Rust's `str::to_uppercase`. -/
def rustToUpper (s : String) : String :=
  String.mk (s.data.map rustToUpperChar)

/-- Rust's `char::eq_ignore_ascii_case`, lifted to characters. -/
def eqIgnoreAsciiCaseChar (a b : Char) : Bool :=
  rustToLowerChar a = rustToLowerChar b

/-- Rust's `str::eq_ignore_ascii_case`. -/
def eqIgnoreAsciiCase (a b : String) : Bool :=
  a.data.length = b.data.length &&
    (List.zip a.data b.data).all (fun p => eqIgnoreAsciiCaseChar p.1 p.2)

/-- Drop leading characters satisfying `p` (Rust `trim_start_matches`). -/
def dropWhileChar (p : Char → Bool) : List Char → List Char
  | [] => []
  | c :: cs => if p c then dropWhileChar p cs else c :: cs

/-- Rust's `str::trim_matches p`: strip characters satisfying `p` from both
ends. -/
def trimMatchesList (p : Char → Bool) (l : List Char) : List Char :=
  ((dropWhileChar p l.reverse).reverse |> dropWhileChar p)

/-- Rust's `str::trim` on strings (Unicode whitespace at both ends). -/
def rustTrim (s : String) : String :=
  String.mk (trimMatchesList rustWhitespace s.data)

/-- Rust's `str::trim_matches` on strings. -/
def rustTrimMatches (p : Char → Bool) (s : String) : String :=
  String.mk (trimMatchesList p s.data)

/-- UTF-8 byte size of one scalar, Rust's `char::len_utf8`. -/
def charUtf8Len (c : Char) : Nat :=
  if c.toNat < 0x80 then 1
  else if c.toNat < 0x800 then 2
  else if c.toNat < 0x10000 then 3
  else 4

/-- UTF-8 byte length of a string, Rust's `str::len`. -/
def strUtf8Len (s : String) : Nat :=
  (s.data.map charUtf8Len).sum

/-- Whether `pat` occurs as a contiguous sublist of `hay`. -/
def listContainsSub [DecidableEq α] (hay pat : List α) : Bool :=
  match hay with
  | [] => pat.isEmpty
  | _ :: tl => pat.isPrefixOf hay || listContainsSub tl pat

/-- Rust's `str::contains` for a literal pattern. -/
def containsSubstr (hay pat : String) : Bool :=
  listContainsSub hay.data pat.data

/-- Rust `char`-pattern `str::split`: split at every separator occurrence,
keeping empty pieces. -/
def splitOnChar (sep : Char) : List Char → List (List Char)
  | [] => [[]]
  | x :: xs =>
    match splitOnChar sep xs with
    | [] => [[]]
    | h :: t => if x = sep then [] :: h :: t else (x :: h) :: t

/-- Lexicographic strict order on character lists by code point; this is the
order of Rust's `str` comparisons (UTF-8 byte order coincides with code-point
order). -/
def strLtChars : List Char → List Char → Bool
  | [], [] => false
  | [], _ :: _ => true
  | _ :: _, [] => false
  | a :: as, b :: bs =>
    if a.toNat < b.toNat then true
    else if a.toNat = b.toNat then strLtChars as bs
    else false

/-- Rust `str` strict order. -/
def rustStrLt (a b : String) : Bool := strLtChars a.data b.data

/-- Rust `str` non-strict order. -/
def rustStrLe (a b : String) : Bool := !(strLtChars b.data a.data)

/-- Split into lines at newline characters (Rust `str::lines` splits on
`\n`, drops a final empty piece, and strips one trailing `\r` from each
line). -/
def rustLines (raw : String) : List String :=
  let parts := splitOnChar (Char.ofNat 10) raw.data
  let parts := if parts.getLast? = some [] then parts.dropLast else parts
  parts.map fun l => String.mk (if l.getLast? = some (Char.ofNat 13) then l.dropLast else l)

/-- Rust's `str::split_whitespace` (Unicode whitespace, empty pieces
discarded), defined over the character list. -/
def splitWhitespaceAux : List Char → List Char → List (List Char)
  | acc, [] => if acc.isEmpty then [] else [acc.reverse]
  | acc, c :: cs =>
    if rustWhitespace c then
      if acc.isEmpty then splitWhitespaceAux [] cs
      else acc.reverse :: splitWhitespaceAux [] cs
    else splitWhitespaceAux (c :: acc) cs

/-- Rust's `str::split_whitespace` on strings. -/
def rustSplitWhitespace (s : String) : List String :=
  (splitWhitespaceAux [] s.data).map String.mk

/-! ## Calendar model

`chrono::NaiveDate` is modelled by its day number in the proleptic Gregorian
calendar (days since 1970-01-01), and `chrono::NaiveDateTime` by a day number
plus seconds-of-day.  The civil-from-days and days-from-civil conversions are
the standard Gregorian calendar algorithms; chrono uses equivalent ones. -/

/-- Gregorian leap-year test. -/
def isLeap (y : Int) : Bool :=
  (y % 4 = 0 && y % 100 ≠ 0) || y % 400 = 0

/-- Number of days in a month of a given year. -/
def daysInMonth (y : Int) (m : Nat) : Nat :=
  if m = 2 then (if isLeap y then 29 else 28)
  else if m = 4 || m = 6 || m = 9 || m = 11 then 30
  else 31

/-- Days since 1970-01-01 of the civil date `y-m-d` (no validity check). -/
def daysFromCivil (y : Int) (m d : Nat) : Int :=
  let yr : Int := if m ≤ 2 then y - 1 else y
  let era : Int := Int.fdiv yr 400
  let yoe : Int := yr - era * 400
  let mp : Int := (Int.ofNat m + 9) % 12
  let doy : Int := Int.fdiv (153 * mp + 2) 5 + Int.ofNat d - 1
  let doe : Int := yoe * 365 + Int.fdiv yoe 4 - Int.fdiv yoe 100 + doy
  era * 146097 + doe - 719468

/-- Civil date `(y, m, d)` of a day number (inverse of `daysFromCivil`). -/
def civilFromDays (z : Int) : Int × Nat × Nat :=
  let z := z + 719468
  let era : Int := Int.fdiv z 146097
  let doe : Int := z - era * 146097
  let yoe : Int := Int.fdiv (doe - Int.fdiv doe 1460 + Int.fdiv doe 36524 - Int.fdiv doe 146096) 365
  let y : Int := yoe + era * 400
  let doy : Int := doe - (365 * yoe + Int.fdiv yoe 4 - Int.fdiv yoe 100)
  let mp : Int := Int.fdiv (5 * doy + 2) 153
  let d : Int := doy - Int.fdiv (153 * mp + 2) 5 + 1
  let m : Int := if mp < 10 then mp + 3 else mp - 9
  (if m ≤ 2 then y + 1 else y, m.toNat, d.toNat)

/-- Day number of a civil date, validated like `chrono::NaiveDate::from_ymd_opt`. -/
def mkDate (y : Int) (m d : Nat) : Option Int :=
  if 1 ≤ m && m ≤ 12 && 1 ≤ d && d ≤ daysInMonth y m then
    some (daysFromCivil y m d)
  else
    none

/-- Model of `chrono::NaiveDateTime`: a civil day number plus the
second-of-day. -/
structure NaiveDateTime where
  days : Int
  secs : Nat
  deriving DecidableEq, Repr

namespace NaiveDateTime

/-- chrono orders naive datetimes by date, then time of day. -/
def le (a b : NaiveDateTime) : Bool :=
  a.days < b.days || (a.days = b.days && a.secs ≤ b.secs)

/-- Total seconds since the epoch; used only for durations. -/
def totalSecs (a : NaiveDateTime) : Int :=
  a.days * 86400 + Int.ofNat a.secs

/-- chrono's `Duration::num_minutes` of `a - b`: whole minutes, truncated
toward zero. -/
def minutesDiff (a b : NaiveDateTime) : Int :=
  Int.tdiv (a.totalSecs - b.totalSecs) 60

/-- The `date()` component (as a day number). -/
def date (a : NaiveDateTime) : Int := a.days

/-- The `hour()` component. -/
def hour (a : NaiveDateTime) : Nat := a.secs / 3600

/-- The civil year. -/
def year (a : NaiveDateTime) : Int := (civilFromDays a.days).1

/-- The civil month (1–12). -/
def month (a : NaiveDateTime) : Nat := (civilFromDays a.days).2.1

/-- The civil day-of-month. -/
def dayOfMonth (a : NaiveDateTime) : Nat := (civilFromDays a.days).2.2

/-- Replace the year, revalidating the date
(`chrono::NaiveDate::with_year`). -/
def withYear (a : NaiveDateTime) (y : Int) : Option NaiveDateTime :=
  let c := civilFromDays a.days
  (mkDate y c.2.1 c.2.2).map (fun ds => { a with days := ds })

end NaiveDateTime

/-- `weekday().num_days_from_sunday()`: 1970-01-01 was a Thursday. -/
def weekdayIndex (days : Int) : Nat :=
  ((days + 4) % 7).toNat

/-- Left-pad a numeral with zeros to the given width. -/
def padNum (width n : Nat) : String :=
  let s := toString n
  if s.length < width then String.mk (List.replicate (width - s.length) '0') ++ s
  else s

/-- chrono's `%Y-%m-%d` formatting of a day number. -/
def formatDateISO (z : Int) : String :=
  let c := civilFromDays z
  padNum 4 c.1.toNat ++ "-" ++ padNum 2 c.2.1 ++ "-" ++ padNum 2 c.2.2

/-- chrono's `%B` month names. -/
def monthName (m : Nat) : String :=
  match m with
  | 1 => "January" | 2 => "February" | 3 => "March" | 4 => "April"
  | 5 => "May" | 6 => "June" | 7 => "July" | 8 => "August"
  | 9 => "September" | 10 => "October" | 11 => "November" | 12 => "December"
  | _ => "?"

/-- chrono's `%B %d, %Y` formatting of a day number. -/
def formatDateLong (z : Int) : String :=
  let c := civilFromDays z
  monthName c.2.1 ++ " " ++ padNum 2 c.2.2 ++ ", " ++ padNum 4 c.1.toNat

/-- chrono's `%Y-%m-%dT%H:%M:%S` formatting. -/
def formatDateTimeISO (dt : NaiveDateTime) : String :=
  formatDateISO dt.days ++ "T" ++ padNum 2 (dt.secs / 3600) ++ ":" ++
    padNum 2 (dt.secs / 60 % 60) ++ ":" ++ padNum 2 (dt.secs % 60)

/-- chrono's `%B %d, %Y at %I:%M %p` formatting (used in journey moment
descriptions). -/
def formatMomentDescription (dt : NaiveDateTime) : String :=
  let h := dt.secs / 3600
  let h12 := if h % 12 = 0 then 12 else h % 12
  let mer := if h < 12 then "AM" else "PM"
  "On " ++ formatDateLong dt.days ++ " at " ++ padNum 2 h12 ++ ":" ++
    padNum 2 (dt.secs / 60 % 60) ++ " " ++ mer

/-! ## Map models

`BTreeMap<K, u32>` is modelled by an association list sorted strictly by key;
`HashMap` accumulators are modelled by association lists in first-insertion
order (iteration order of a Rust `HashMap` is unspecified). -/

/-- Insert-or-add into a key-sorted association list
(`map.entry(k).or_insert(0) += n`). -/
def sortedAdd [LinearOrder K] (k : K) (n : Nat) : List (K × Nat) → List (K × Nat)
  | [] => [(k, n)]
  | (k2, v) :: tl =>
    if k < k2 then (k, n) :: (k2, v) :: tl
    else if k = k2 then (k2, v + n) :: tl
    else (k2, v) :: sortedAdd k n tl

/-- Add to an existing key only (`if let Some(v) = map.get_mut(&k)`). -/
def addIfPresent [DecidableEq K] (k : K) (n : Nat) : List (K × Nat) → List (K × Nat)
  | [] => []
  | (k2, v) :: tl =>
    if k = k2 then (k2, v + n) :: tl else (k2, v) :: addIfPresent k n tl

/-- Insert-or-add into an insertion-ordered association list (`HashMap`
counter). -/
def hashAdd [DecidableEq K] (k : K) (n : Nat) : List (K × Nat) → List (K × Nat)
  | [] => [(k, n)]
  | (k2, v) :: tl =>
    if k = k2 then (k2, v + n) :: tl else (k2, v) :: hashAdd k n tl

/-- Append a value to the group of a key in an insertion-ordered association
list (`HashMap<K, Vec<V>>`). -/
def hashAppend [DecidableEq K] (k : K) (v : V) : List (K × List V) → List (K × List V)
  | [] => [(k, [v])]
  | (k2, vs) :: tl =>
    if k = k2 then (k2, vs ++ [v]) :: tl else (k2, vs) :: hashAppend k v tl

/-- Look up a key in an association list of counters, defaulting to zero. -/
def lookupCount [DecidableEq K] (l : List (K × Nat)) (k : K) : Nat :=
  (l.lookup k).getD 0

/-! ## Header regular expressions

The two WhatsApp header patterns from the source
(`re_bracket`/`re_hyphen`) are compiled by hand into deterministic
character-level matchers.  The regex crate uses leftmost-first (Perl-style)
semantics; because the negated classes `[^:]`/`[^\]]` cannot cross their
terminator characters, every quantifier in these patterns admits exactly one
viable match length except the optional `(?:\s*[AP]M)?` in the hyphen time,
which is modelled by an explicit two-way alternative. -/

/-- Parse `\d{1,2}[/.]\d{1,2}[/.]\d{2,4}` at the head of the list, returning
the matched text and the remainder. -/
def matchDateToken (l : List Char) : Option (String × List Char) :=
  let (d1, r1) := l.span isDigitChar
  if d1.length < 1 || 2 < d1.length then none else
  match r1 with
  | s1 :: r2 =>
    if s1 ≠ '/' && s1 ≠ '.' then none else
    let (d2, r3) := r2.span isDigitChar
    if d2.length < 1 || 2 < d2.length then none else
    match r3 with
    | s2 :: r4 =>
      if s2 ≠ '/' && s2 ≠ '.' then none else
      let (dy, r5) := r4.span isDigitChar
      if dy.length < 2 || 4 < dy.length then none else
      some (String.mk (d1 ++ [s1] ++ d2 ++ [s2] ++ dy), r5)
    | [] => none
  | [] => none

/-- Match `\s+([^stop]+)stop`: at least one whitespace, then a capture running
to the first `stop` character.  When everything before `stop` is whitespace,
the greedy `\s+` backtracks by one so the capture is the final whitespace
character. -/
def wsThenCapture (stop : Char) (l : List Char) : Option (String × List Char) :=
  let (seg, rest) := l.span (fun c => c ≠ stop)
  match rest with
  | [] => none
  | _ :: rest2 =>
    match seg with
    | [] => none
    | c0 :: _ =>
      if !rustWhitespace c0 then none
      else
        let cap := dropWhileChar rustWhitespace seg
        if cap.isEmpty then
          match seg.getLast? with
          | some last => if 2 ≤ seg.length then some (String.mk [last], rest2) else none
          | none => none
        else some (String.mk cap, rest2)

/-- Match `\s+(.*)$`: at least one whitespace, then the rest of the line. -/
def wsThenRest (l : List Char) : Option String :=
  match l with
  | c :: _ => if rustWhitespace c then some (String.mk (dropWhileChar rustWhitespace l)) else none
  | [] => none

/-- Captures of a header line: date, time, raw name, message text. -/
structure HeaderCaps where
  date : String
  time : String
  name : String
  msg : String
  deriving DecidableEq, Repr

/-- The bracketed header pattern
`^[﻿‎]?\[(date), \s+ (time)\] \s+ (name): \s+ (msg)$`. -/
def matchBracket (line : List Char) : Option HeaderCaps :=
  let l :=
    match line with
    | c :: tl => if c.toNat = 0xfeff || c.toNat = 0x200e then tl else line
    | [] => line
  match l with
  | '[' :: r0 =>
    (matchDateToken r0).bind fun dr =>
      match dr.2 with
      | ',' :: r2 =>
        (wsThenCapture ']' r2).bind fun tr =>
          (wsThenCapture ':' tr.2).bind fun nr =>
            (wsThenRest nr.2).map fun msg =>
              { date := dr.1, time := tr.1, name := nr.1, msg := msg }
      | _ => none
  | _ => none

/-- Parse the hyphenated time `\d{1,2}:\d{2}(?::\d{2})?` and return the
matched text and remainder. -/
def matchHyphenTimeCore (l : List Char) : Option (List Char × List Char) :=
  let (h, r1) := l.span isDigitChar
  if h.length < 1 || 2 < h.length then none else
  match r1 with
  | ':' :: r2 =>
    match r2 with
    | a :: b :: r3 =>
      if !(isDigitChar a && isDigitChar b) then none else
      match r3 with
      | ':' :: c :: d :: r4 =>
        if isDigitChar c && isDigitChar d then
          some (h ++ [':', a, b, ':', c, d], r4)
        else some (h ++ [':', a, b], r3)
      | _ => some (h ++ [':', a, b], r3)
    | _ => none
  | _ => none

/-- Match `\s+-\s+(name):\s+(msg)$`, the tail of the hyphenated pattern. -/
def hyphenTail (l : List Char) : Option (String × String) :=
  match l with
  | c :: _ =>
    if !rustWhitespace c then none else
    match dropWhileChar rustWhitespace l with
    | '-' :: r1 =>
      (wsThenCapture ':' r1).bind fun nr =>
        (wsThenRest nr.2).map fun msg => (nr.1, msg)
    | _ => none
  | [] => none

/-- The hyphenated header pattern
`^(date), \s+ (time) \s+ - \s+ (name): \s+ (msg)$`, where the time is
`\d{1,2}:\d{2}(?::\d{2})?(?:\s*[AP]M)?`.  The optional meridiem group is
greedy, so the variant that consumes it is tried first. -/
def matchHyphen (line : List Char) : Option HeaderCaps :=
  (matchDateToken line).bind fun dr =>
    match dr.2 with
    | ',' :: r2 =>
      (wsThenRest r2).bind fun afterWs =>
        (matchHyphenTimeCore afterWs.data).bind fun tc =>
          let withMer : Option HeaderCaps :=
            let (wsr, r5) := tc.2.span rustWhitespace
            match r5 with
            | p :: m :: r6 =>
              if (p = 'A' || p = 'P') && m = 'M' then
                (hyphenTail r6).map fun nm =>
                  { date := dr.1, time := String.mk (tc.1 ++ wsr ++ [p, m]),
                    name := nm.1, msg := nm.2 }
              else none
            | _ => none
          withMer <|>
            (hyphenTail tc.2).map fun nm =>
              { date := dr.1, time := String.mk tc.1, name := nm.1, msg := nm.2 }
    | _ => none

/-- Header capture as in `parse_messages`: the bracketed pattern is tried
first, then the hyphenated one. -/
def headerCaptures (line : String) : Option HeaderCaps :=
  matchBracket line.data <|> matchHyphen line.data

/-! ## chrono timestamp parsing

`parse_timestamp` builds a list of chrono format strings and returns the
first successful parse.  The format strings are translated into lists of
items; the item semantics follow `chrono::format::parse`:

* a numeric item skips leading whitespace, then consumes one up to
  `width` ASCII digits;
* a literal must match exactly;
* whitespace in a format string skips any amount of input whitespace;
* `%p` consumes two characters compared case-insensitively to `AM`/`PM`;
* the whole input must be consumed, and the collected fields must resolve to
  a valid calendar date and time (chrono leap-second handling of a parsed
  second `60` is modelled as invalid; no claim touches it). -/

inductive FmtItem where
  | numDay | numMonth | numYear4 | numYear2
  | numHour | numHour12 | numMin | numSec
  | lit (c : Char)
  | sp
  | ampm
  deriving DecidableEq, Repr

/-- Fields collected while running a chrono format. -/
structure ParsedFields where
  day : Nat := 0
  month : Nat := 0
  year4 : Option Nat := none
  year2 : Option Nat := none
  hour : Option Nat := none
  hour12 : Option Nat := none
  minute : Nat := 0
  second : Option Nat := none
  pm : Option Bool := none
  deriving Repr

/-- Consume between one and `width` ASCII digits after optional leading
whitespace (chrono's `scan::number`). -/
def scanNumber (width : Nat) (l : List Char) : Option (Nat × List Char) :=
  let l := dropWhileChar rustWhitespace l
  let (run, rest) := l.span isDigitChar
  if run.isEmpty then none
  else some (natOfDigits (run.take width), run.drop width ++ rest)

/-- Run a list of chrono format items over the input. -/
def runItems : List FmtItem → List Char → ParsedFields → Option ParsedFields
  | [], l, f => if l.isEmpty then some f else none
  | item :: items, l, f =>
    match item with
    | .numDay => (scanNumber 2 l).bind fun p => runItems items p.2 { f with day := p.1 }
    | .numMonth => (scanNumber 2 l).bind fun p => runItems items p.2 { f with month := p.1 }
    | .numYear4 => (scanNumber 4 l).bind fun p => runItems items p.2 { f with year4 := some p.1 }
    | .numYear2 => (scanNumber 2 l).bind fun p => runItems items p.2 { f with year2 := some p.1 }
    | .numHour => (scanNumber 2 l).bind fun p => runItems items p.2 { f with hour := some p.1 }
    | .numHour12 => (scanNumber 2 l).bind fun p => runItems items p.2 { f with hour12 := some p.1 }
    | .numMin => (scanNumber 2 l).bind fun p => runItems items p.2 { f with minute := p.1 }
    | .numSec => (scanNumber 2 l).bind fun p => runItems items p.2 { f with second := some p.1 }
    | .lit c =>
      match l with
      | c2 :: tl => if c2 = c then runItems items tl f else none
      | [] => none
    | .sp => runItems items (dropWhileChar rustWhitespace l) f
    | .ampm =>
      match l with
      | a :: b :: tl =>
        if rustToLowerChar b = 'm' then
          if rustToLowerChar a = 'a' then runItems items tl { f with pm := some false }
          else if rustToLowerChar a = 'p' then runItems items tl { f with pm := some true }
          else none
        else none
      | _ => none

/-- Resolve collected fields to a datetime, with chrono's validations:
month/day must form a real calendar date, a 24-hour value is 0–23, a 12-hour
value is 1–12 and is combined with the meridiem, minutes and seconds are
0–59, and a two-digit year maps to 1969–2068. -/
def resolveFields (f : ParsedFields) : Option NaiveDateTime :=
  let yearOpt : Option Int :=
    match f.year4 with
    | some y => some (Int.ofNat y)
    | none =>
      match f.year2 with
      | some y2 =>
        if y2 ≤ 99 then some (if 69 ≤ y2 then Int.ofNat (1900 + y2) else Int.ofNat (2000 + y2))
        else none
      | none => none
  yearOpt.bind fun y =>
    let hourOpt : Option Nat :=
      match f.hour, f.hour12, f.pm with
      | some h, _, _ => if h ≤ 23 then some h else none
      | none, some h12, some pm =>
        if 1 ≤ h12 && h12 ≤ 12 then some (h12 % 12 + if pm then 12 else 0) else none
      | _, _, _ => none
    hourOpt.bind fun h =>
      if f.minute ≤ 59 && (f.second.getD 0) ≤ 59 then
        (mkDate y f.month f.day).map fun ds =>
          { days := ds, secs := h * 3600 + f.minute * 60 + (f.second.getD 0) }
      else none

/-- Parse the input with one chrono format. -/
def parseWithFmt (items : List FmtItem) (input : List Char) : Option NaiveDateTime :=
  (runItems items input {}).bind resolveFields

/-- Date part of a format string: `%d sep %m sep %Y` or the month-first /
two-digit-year variants. -/
def dateItems (sep : Char) (dayFirst year4 : Bool) : List FmtItem :=
  (if dayFirst then [.numDay, .lit sep, .numMonth] else [.numMonth, .lit sep, .numDay]) ++
    [.lit sep, if year4 then FmtItem.numYear4 else FmtItem.numYear2]

/-- Time part of a format string: `%H:%M[:%S]` or `%I:%M[:%S] %p`. -/
def timeItems (h12 withSec : Bool) : List FmtItem :=
  [if h12 then FmtItem.numHour12 else FmtItem.numHour, .lit ':', .numMin] ++
    (if withSec then [FmtItem.lit ':', .numSec] else []) ++
    (if h12 then [FmtItem.sp, .ampm] else [])

/-- A full format `date, time` as in the source's format strings. -/
def fullFmt (sep : Char) (dayFirst year4 h12 withSec : Bool) : List FmtItem :=
  dateItems sep dayFirst year4 ++ [.lit ',', .sp] ++ timeItems h12 withSec

/-- One source `extend_from_slice` group of four formats:
`%Y` seconds, `%Y` no seconds, `%y` seconds, `%y` no seconds. -/
def fmtGroup (sep : Char) (dayFirst h12 : Bool) : List (List FmtItem) :=
  [fullFmt sep dayFirst true h12 true,
   fullFmt sep dayFirst true h12 false,
   fullFmt sep dayFirst false h12 true,
   fullFmt sep dayFirst false h12 false]

/-- Rust `str::parse::<u32>` on a split piece (digits only; the header regex
guarantees pure ASCII digits here). -/
def parseNatPiece (s : List Char) : Option Nat :=
  if s ≠ [] && s.all isDigitChar then some (natOfDigits s) else none

/-- The `prefer_month_first` disambiguation from `parse_timestamp`: with a
slash separator, a first component above 12 forces day-first, otherwise a
second component above 12 (or no evidence) prefers month-first. -/
def preferMonthFirst (date : String) : Bool :=
  if date.data.contains '/' then
    let parts := splitOnChar '/' date.data
    let first := (parts.get? 0).bind parseNatPiece
    let second := (parts.get? 1).bind parseNatPiece
    match first, second with
    | some a, some _ => if 12 < a then false else true
    | _, _ => true
  else false

/-- The format list built by `parse_timestamp` for a given date token. -/
def formatsFor (date : String) : List (List FmtItem) :=
  if date.data.contains '.' then
    fmtGroup '.' true false ++ fmtGroup '.' true true
  else if preferMonthFirst date then
    fmtGroup '/' false false ++ fmtGroup '/' true false ++
      fmtGroup '/' false true ++ fmtGroup '/' true true
  else
    fmtGroup '/' true false ++ fmtGroup '/' false false ++
      fmtGroup '/' true true ++ fmtGroup '/' false true

/-- The year normalization applied after a successful parse: a year below 100
gets 2000 added (`dt.with_year(dt.year() + 2000)`). -/
def normalizeYear (dt : NaiveDateTime) : Option NaiveDateTime :=
  if dt.year < 100 then dt.withYear (dt.year + 2000) else some dt

/-- `parse_timestamp` from `parsing.rs`: clean the time token, choose the
format order by the separator and the month-first heuristic, and return the
first format that parses, with small years normalized into the 2000s. -/
def parse_timestamp (date time : String) : Option NaiveDateTime :=
  let cleaned := rustToUpper (rustTrim (String.mk (time.data.map fun c =>
    if c.toNat = 0x202f || c.toNat = 0xa0 then ' ' else c)))
  let input := date.data ++ [',', ' '] ++ cleaned.data
  (formatsFor date).findSome? fun fmt => (parseWithFmt fmt input).bind normalizeYear

/-! ## Messages and parsing -/

/-- A parsed chat message (`parsing.rs::Message`). -/
structure Message where
  dt : NaiveDateTime
  sender : String
  text : String
  deriving DecidableEq, Repr

/-- An apostrophe character, written by code point to keep string literals
plain. -/
def apos : String := String.mk [Char.ofNat 39]

/-- Characters trimmed from both ends of a sender name. -/
def isSenderTrimChar (c : Char) : Bool :=
  rustWhitespace c || c.toNat = 0xfeff || c.toNat = 0x200e || c.toNat = 0x200f

/-- Embedded directional-control and isolate characters stripped from sender
names. -/
def isStrippedMark (c : Char) : Bool :=
  let n := c.toNat
  n = 0x202a || n = 0x202b || n = 0x202c || n = 0x202d || n = 0x202e ||
  n = 0x202f || n = 0x2060 || n = 0x2066 || n = 0x2067 || n = 0x2068 || n = 0x2069

/-- `clean_sender` from `parsing.rs`. -/
def clean_sender (name : String) : String :=
  String.mk ((trimMatchesList isSenderTrimChar name.data).filter fun c =>
    !rustIsControl c && !isStrippedMark c)

/-- `is_system_message` from `parsing.rs`. -/
def is_system_message (msg : Message) : Bool :=
  let sender := rustToLower msg.sender
  if sender = "system" then true
  else
    let text := rustToLower (rustTrim msg.text)
    containsSubstr text "messages and calls are end-to-end encrypted" ||
    containsSubstr text "created group" ||
    containsSubstr text ("changed this group" ++ apos ++ "s icon") ||
    (containsSubstr text "security code" && containsSubstr text "tap to learn more")

/-- `filter_system_messages` from `parsing.rs` (the source peels off the
first message and then loops; both parts apply the same predicate). -/
def filter_system_messages : List Message → List Message
  | [] => []
  | first :: rest =>
    (if is_system_message first then [] else [first]) ++
      rest.filter fun m => !is_system_message m

/-- One iteration of the `parse_messages` line loop.  The state is the
accumulated messages plus the in-progress message; a header line flushes the
in-progress message first and starts a new one only if its timestamp parses;
any other line is appended (trimmed, after a newline) to the in-progress
message, or silently dropped when none is in progress. -/
def parseStep (st : List Message × Option Message) (line : String) :
    List Message × Option Message :=
  match headerCaptures line with
  | some caps =>
    let msgs := st.1 ++ st.2.toList
    let name := clean_sender caps.name
    match parse_timestamp caps.date caps.time with
    | some dt => (msgs, some { dt := dt, sender := name, text := caps.msg })
    | none => (msgs, none)
  | none =>
    match st.2 with
    | some m => (st.1, some { m with text := m.text ++ "\n" ++ rustTrim line })
    | none => st

/-- The `parse_messages` loop before system-message filtering: fold the line
step over all lines and flush the final in-progress message. -/
def parseMessagesLoop (lines : List String) : List Message :=
  let st := lines.foldl parseStep ([], none)
  st.1 ++ st.2.toList

/-- `parse_messages` from `parsing.rs`. -/
def parse_messages (raw : String) : List Message :=
  filter_system_messages (parseMessagesLoop (rustLines raw))

/-! ## Daily counts and streaks (`metrics.rs`) -/

/-- The generic `(label, value)` pair of the summary tables. -/
structure Count where
  label : String
  value : Nat
  deriving DecidableEq, Repr

/-- `daily_counts`: per-calendar-day message tallies from a `BTreeMap`,
so sorted chronologically. -/
def daily_counts (messages : List Message) : List Count :=
  (messages.foldl (fun m msg => sortedAdd msg.dt.date 1 m) []).map fun p =>
    { label := formatDateISO p.1, value := p.2 }

/-- `NaiveDate::parse_from_str(s, "%Y-%m-%d")`, via the chrono item model. -/
def parseDayISO (s : String) : Option Int :=
  (runItems [.numYear4, .lit '-', .numMonth, .lit '-', .numDay] s.data {}).bind fun f =>
    match f.year4 with
    | some y => mkDate (Int.ofNat y) f.month f.day
    | none => none

/-- Loop state of `longest_streak`: maximal streak, current streak, maximal
start index, maximal end index, current start index. -/
structure StreakState where
  maxStreak : Nat
  curStreak : Nat
  maxStart : Nat
  maxEnd : Nat
  curStart : Nat
  deriving Repr

/-- One iteration of the `longest_streak` scan at index `i`. -/
def streakStep (sorted : List Count) (st : StreakState) (i : Nat) : StreakState :=
  let prev := (sorted.get? (i - 1)).bind fun c => parseDayISO c.label
  let curr := (sorted.get? i).bind fun c => parseDayISO c.label
  match prev, curr with
  | some p, some c =>
    if c - p = 1 then
      let cur := st.curStreak + 1
      if st.maxStreak < cur then
        { st with curStreak := cur, maxStreak := cur, maxStart := st.curStart, maxEnd := i }
      else { st with curStreak := cur }
    else { st with curStreak := 1, curStart := i }
  | _, _ => { st with curStreak := 1, curStart := i }

/-- `longest_streak` from `metrics.rs`: longest run of consecutive calendar
days in a day-labelled series; ties favor the earliest run. -/
def longest_streak (daily : List Count) : Option (Nat × String × String) :=
  if daily.isEmpty then none
  else
    let sorted := List.insertionSort (fun a b : Count => rustStrLe a.label b.label = true) daily
    let st := (List.range' 1 (sorted.length - 1)).foldl (streakStep sorted)
      { maxStreak := 1, curStreak := 1, maxStart := 0, maxEnd := 0, curStart := 0 }
    (sorted.get? st.maxStart).map fun cs =>
      let start := cs.label
      let stop := ((sorted.get? st.maxEnd).map fun ce => ce.label).getD start
      (st.maxStreak, start, stop)

/-- The per-day tally map built by `longest_streak_from_raw` directly from
header lines, bypassing message assembly and system filtering. -/
def rawDailyMap (raw : String) : List (Int × Nat) :=
  (rustLines raw).foldl (fun m line =>
    match headerCaptures line with
    | some caps =>
      match parse_timestamp caps.date caps.time with
      | some dt => sortedAdd dt.date 1 m
      | none => m
    | none => m) []

/-- `longest_streak_from_raw` from `metrics.rs`: the fast path that scans raw
text for header timestamps and feeds the per-day tallies to
`longest_streak`. -/
def longest_streak_from_raw (raw : String) : Option (Nat × String × String) :=
  let map := rawDailyMap raw
  if map.isEmpty then none
  else
    let daily : List Count := map.map fun p => { label := formatDateISO p.1, value := p.2 }
    longest_streak daily

/-! ## Text utilities (`text.rs`) -/

/-- `WHATSAPP_EXTRAS` from `text.rs`: export-format artifacts added to the
stopword set. -/
def whatsappExtras : List String :=
  ["<media", "<attached:", "audio", "omitted>", "_", "_weggelassen>",
   "_ommited>", "_omesso>", "_omitted", "_attached", "edited>", "<this",
   "message", "missed", "voice", "call.", "location:", "deleted", "ich", "du",
   "wir", "bild", "image", "<medien", "ausgeschlossen>", "weggelassen",
   "omitted"]

/-- The stopword set used by the pipeline.  In the source it is the English
list from the external `stopwords` crate (third-party data, not part of this
repository) plus `WHATSAPP_EXTRAS`; the external list is not modelled, so the
set is the repository's own additions.  Every universal claim below holds for
an arbitrary stopword set. -/
def stopwordsSet : List String := whatsappExtras

/-- `is_media_omitted_message` from `text.rs`. -/
def is_media_omitted_message (text : String) : Bool :=
  eqIgnoreAsciiCase (rustTrim text) "<media omitted>"

/-- Word character of the regex class `\w` (ASCII model). -/
def wordCharB (c : Char) : Bool :=
  rustIsAlphanumeric c || c = '_'

/-- Case-insensitive ASCII literal prefix match. -/
def ciPrefix (pat : List Char) (l : List Char) : Option (List Char) :=
  match pat, l with
  | [], rest => some rest
  | _ :: _, [] => none
  | p :: ps, c :: cs => if rustToLowerChar c = rustToLowerChar p then ciPrefix ps cs else none

/-- Attempt the URL pattern `https?://\S+|www\.[^\s]+` (case-insensitive) at
the current position, returning the remainder after the match. -/
def tryUrlAt (l : List Char) : Option (List Char) :=
  let tail1 : Option (List Char) :=
    (ciPrefix ['h','t','t','p'] l).bind fun r1 =>
      let afterScheme :=
        match ciPrefix ['s',':','/','/'] r1 with
        | some r2 => some r2
        | none => ciPrefix [':','/','/'] r1
      afterScheme.bind fun r2 =>
        let (run, rest) := r2.span fun c => !rustWhitespace c
        if run.isEmpty then none else some rest
  match tail1 with
  | some rest => some rest
  | none =>
    (ciPrefix ['w','w','w','.'] l).bind fun r1 =>
      let (run, rest) := r1.span fun c => !rustWhitespace c
      if run.isEmpty then none else some rest

/-- `url_re().replace_all(text, " ")`: scan left to right, replacing each
word-boundary-anchored URL match by one space.  After a match the remainder
starts with whitespace (the `\S+` is greedy), so no match can start there and
the boundary state is irrelevant. -/
def stripUrlsGo (fuel : Nat) (prevIsWord : Bool) (l : List Char) : List Char :=
  match fuel, l with
  | 0, rest => rest
  | _, [] => []
  | fuel + 1, c :: tl =>
    if !prevIsWord then
      match tryUrlAt (c :: tl) with
      | some rest => ' ' :: stripUrlsGo fuel true rest
      | none => c :: stripUrlsGo fuel (wordCharB c) tl
    else c :: stripUrlsGo fuel (wordCharB c) tl

/-- URL stripping on a string. -/
def stripUrls (s : String) : List Char :=
  stripUrlsGo s.data.length false s.data

/-- `tokenize` from `text.rs`: strip URLs, split on whitespace, lower-case;
the stopword decision uses the token with non-alphanumeric characters trimmed
from both ends, but the emitted token keeps its punctuation. -/
def tokenize (text : String) (filterStop : Bool) (stop : List String) : List String :=
  (splitWhitespaceAux [] (stripUrls text)).filterMap fun raw =>
    let token := String.mk (raw.map rustToLowerChar)
    let canonical := rustTrimMatches (fun c => !rustIsAlphanumeric c) token
    if filterStop && !canonical.isEmpty && stop.contains canonical then none
    else if token.isEmpty then none
    else some token

/-- `tokens_stop_stats` from `text.rs`. -/
def tokens_stop_stats (tokens : List String) (stop : List String) : Nat × Nat :=
  let stopCount := (tokens.filter fun t => stop.contains t).length
  (stopCount, tokens.length - stopCount)

/-- `tokens_alpha_numeric_stats` from `text.rs`: a token of pure ASCII digits
counts as numeric, anything else as alpha-ish. -/
def tokens_alpha_numeric_stats (tokens : List String) : Nat × Nat :=
  let numeric := (tokens.filter fun t => t.data.all isDigitChar).length
  (tokens.length - numeric, numeric)

/-! ## Emoji extraction

The emoji regex of `text.rs` is an alternation of a regional-indicator pair
and a pictographic base with optional skin tone, optional variation selector,
and zero or more greedy ZWJ continuations; it is compiled by hand into a
matcher that is attempted at each scalar position, exactly like
`extract_emojis` checks `m.start() == 0`. -/

/-- Regional indicator symbols (flag halves). -/
def isRegionalIndicator (c : Char) : Bool :=
  0x1f1e6 ≤ c.toNat && c.toNat ≤ 0x1f1ff

/-- The base pictographic class of the emoji regex. -/
def emojiBase (c : Char) : Bool :=
  let n := c.toNat
  (0x1f300 ≤ n && n ≤ 0x1faff) || (0x2600 ≤ n && n ≤ 0x27bf) ||
  (0x2300 ≤ n && n ≤ 0x23ff) || (0x2b50 ≤ n && n ≤ 0x2b55) ||
  n = 0x203c || n = 0x2049 || n = 0x25aa || n = 0x25ab || n = 0x25b6 ||
  n = 0x25c0 || (0x25fb ≤ n && n ≤ 0x25fe) || n = 0xa9 || n = 0xae ||
  n = 0x2122 || n = 0x2139 || (0x2194 ≤ n && n ≤ 0x2199) || n = 0x21a9 ||
  n = 0x21aa || n = 0x231a || n = 0x231b || n = 0x2328 || n = 0x23cf ||
  (0x23e9 ≤ n && n ≤ 0x23f3) || (0x23f8 ≤ n && n ≤ 0x23fa) || n = 0x24c2 ||
  n = 0x2934 || n = 0x2935 || n = 0x3030 || n = 0x303d || n = 0x3297 || n = 0x3299

/-- The ZWJ-continuation class of the emoji regex. -/
def emojiCont (c : Char) : Bool :=
  let n := c.toNat
  (0x1f300 ≤ n && n ≤ 0x1faff) || (0x2600 ≤ n && n ≤ 0x27bf) ||
  n = 0x2640 || n = 0x2642 || n = 0x2695 || n = 0x2696 || n = 0x2708 || n = 0x2764

/-- Skin-tone modifiers. -/
def isSkinTone (c : Char) : Bool :=
  0x1f3fb ≤ c.toNat && c.toNat ≤ 0x1f3ff

/-- Consume an optional skin tone and an optional variation selector. -/
def emojiMods (l : List Char) : List Char × List Char :=
  let (skin, r1) :=
    match l with
    | c :: tl => if isSkinTone c then ([c], tl) else ([], l)
    | [] => ([], l)
  match r1 with
  | c :: tl => if c.toNat = 0xfe0f then (skin ++ [c], tl) else (skin, r1)
  | [] => (skin, r1)

/-- Greedy ZWJ continuation loop of the emoji regex. -/
def emojiZwjGo (fuel : Nat) (l : List Char) : List Char × List Char :=
  match fuel with
  | 0 => ([], l)
  | fuel + 1 =>
    match l with
    | z :: c :: tl =>
      if z.toNat = 0x200d && emojiCont c then
        let (mods, r1) := emojiMods tl
        let (more, rest) := emojiZwjGo fuel r1
        ([z, c] ++ mods ++ more, rest)
      else ([], l)
    | _ => ([], l)

/-- Attempt the emoji pattern at the current position. -/
def matchEmojiAt (l : List Char) : Option (List Char × List Char) :=
  match l with
  | a :: b :: rest =>
    if isRegionalIndicator a && isRegionalIndicator b then some ([a, b], rest)
    else if emojiBase a then
      let (mods, r1) := emojiMods (b :: rest)
      let (zwj, r2) := emojiZwjGo r1.length r1
      some ([a] ++ mods ++ zwj, r2)
    else none
  | [a] => if emojiBase a then some ([a], []) else none
  | [] => none

/-- The scalar-by-scalar scan of `extract_emojis`. -/
def extractEmojisGo (fuel : Nat) (l : List Char) : List String :=
  match fuel with
  | 0 => []
  | fuel + 1 =>
    match l with
    | [] => []
    | _ :: tl =>
      match matchEmojiAt l with
      | some (m, rest) => String.mk m :: extractEmojisGo fuel rest
      | none => extractEmojisGo fuel tl

/-- `extract_emojis` from `text.rs`. -/
def extract_emojis (text : String) : List String :=
  extractEmojisGo text.data.length text.data

/-! ## Color words -/

/-- `COLOR_WORDS` from `text.rs`. -/
def colorWords : List (String × String) :=
  [("blue", "#64d8ff"), ("pink", "#ff7edb"), ("purple", "#8c7bff"),
   ("mint", "#7cf9c0"), ("orange", "#ffb347"), ("red", "#ff6b6b"),
   ("yellow", "#ffd166"), ("green", "#06d6a0"), ("teal", "#118ab2"),
   ("magenta", "#ef476f"), ("gold", "#f2c94c"), ("lavender", "#b39ddb")]

/-- `color_hex_for_word` from `text.rs`. -/
def color_hex_for_word (word : String) : Option String :=
  (colorWords.find? fun p => p.1 = word).map fun p => p.2

/-- `pick_dominant_color` from `text.rs`: highest count first, ties broken
alphabetically by word. -/
def pick_dominant_color (freq : List (String × Nat)) : Option String :=
  if freq.isEmpty then none
  else
    let entries := List.insertionSort (fun a b : String × Nat => b.2 < a.2 ∨ (a.2 = b.2 ∧ rustStrLe a.1 b.1 = true)) freq
    (entries.head?).bind fun best => color_hex_for_word best.1

/-- Maximal alphanumeric runs of a character list. -/
def alnumRunsAux : List Char → List Char → List (List Char)
  | acc, [] => if acc.isEmpty then [] else [acc.reverse]
  | acc, c :: cs =>
    if rustIsAlphanumeric c then alnumRunsAux (c :: acc) cs
    else if acc.isEmpty then alnumRunsAux [] cs
    else acc.reverse :: alnumRunsAux [] cs

/-- Model of `str::unicode_words` from the external `unicode-segmentation`
crate (UAX #29 word segmentation): maximal alphanumeric runs.  This is exact
for ASCII text whose words carry no internal punctuation; the crate is an
external collaborator of the analyzed code, and no claim depends on its finer
segmentation behavior. -/
def unicodeWords (text : String) : List String :=
  (alnumRunsAux [] text.data).map String.mk

/-! ## Metrics (`metrics.rs`) -/

/-- Sort messages chronologically (`sort_by_key(|m| m.dt)`; Rust's sort is
stable, as is insertion sort with a non-strict comparator). -/
def sortByDt (messages : List Message) : List Message :=
  List.insertionSort (fun a b => NaiveDateTime.le a.dt b.dt = true) messages

/-- Sort counts by descending value (`sort_by_key(Reverse(value))`,
stable). -/
def sortCountsDesc (items : List Count) : List Count :=
  List.insertionSort (fun a b : Count => b.value ≤ a.value) items

/-- Loop state of `conversation_initiations_with_gap`. -/
structure InitState where
  inits : List (String × Nat)
  count : Nat
  prevDt : NaiveDateTime
  recorded : Bool

/-- One iteration of the initiation walk. -/
def initStep (gapMinutes : Int) (st : InitState) (m : Message) : InitState :=
  let gap := m.dt.minutesDiff st.prevDt
  let st :=
    if gapMinutes < gap then { st with count := st.count + 1, recorded := false }
    else st
  let st :=
    if !st.recorded then
      { st with inits := hashAdd m.sender 1 st.inits, recorded := true }
    else st
  { st with prevDt := m.dt }

/-- `conversation_initiations_with_gap` from `metrics.rs`: the sender of the
chronologically first message is credited, and after each gap above the
threshold the sender of the next message is credited; the conversation count
starts at 1 and increments per such gap. -/
def conversation_initiations_with_gap (messages : List Message) (gapMinutes : Int) :
    List Count × Nat :=
  match sortByDt messages with
  | [] => ([], 0)
  | first :: rest =>
    let st := rest.foldl (initStep gapMinutes)
      { inits := hashAdd first.sender 1 [], count := 1, prevDt := first.dt, recorded := true }
    (sortCountsDesc (st.inits.map fun p => { label := p.1, value := p.2 }), st.count)

/-- `conversation_initiations` with the fixed 30-minute gap. -/
def conversation_initiations (messages : List Message) : List Count × Nat :=
  conversation_initiations_with_gap messages 30

/-- `count_by_sender` from `metrics.rs`. -/
def count_by_sender (messages : List Message) : List Count :=
  sortCountsDesc ((messages.foldl (fun m msg => hashAdd msg.sender 1 m) []).map fun p =>
    { label := p.1, value := p.2 })

/-- The `(hour, value)` pair of the hourly table. -/
structure HourCount where
  hour : Nat
  value : Nat
  deriving DecidableEq, Repr

/-- `hourly_counts` from `metrics.rs`: a fixed 24-slot array. -/
def hourly_counts (messages : List Message) : List HourCount :=
  let arr := messages.foldl (fun (arr : List Nat) m =>
    let h := m.dt.hour
    if h < 24 then arr.set h (arr.getD h 0 + 1) else arr) (List.replicate 24 0)
  arr.enum.map fun p => { hour := p.1, value := p.2 }

/-- `weekday_label` from `parsing.rs`. -/
def weekday_label (idx : Nat) : String :=
  match idx with
  | 0 => "Sun" | 1 => "Mon" | 2 => "Tue" | 3 => "Wed"
  | 4 => "Thu" | 5 => "Fri" | 6 => "Sat"
  | _ => "?"

/-- `weekly_counts` from `metrics.rs`: a fixed 7-slot array keyed by weekday
starting Sunday. -/
def weekly_counts (messages : List Message) : List Count :=
  let arr := messages.foldl (fun (arr : List Nat) m =>
    let i := weekdayIndex m.dt.days
    arr.set i (arr.getD i 0 + 1)) (List.replicate 7 0)
  arr.enum.map fun p => { label := weekday_label p.1, value := p.2 }

/-- `monthly_counts` from `metrics.rs`: `YYYY-MM`-keyed `BTreeMap`. -/
def monthly_counts (messages : List Message) : List Count :=
  (messages.foldl (fun m msg =>
    let label := padNum 4 msg.dt.year.toNat ++ "-" ++ padNum 2 msg.dt.month
    sortedAdd label 1 m) []).map fun p => { label := p.1, value := p.2 }

/-- `deleted_counts` from `metrics.rs`: exact matches of the two deleted
placeholders, `(you, others)`. -/
def deleted_counts (messages : List Message) : Nat × Nat :=
  ((messages.filter fun m => m.text = "You deleted this message").length,
   (messages.filter fun m => m.text = "This message was deleted").length)

/-- The zero-filled inclusive day range built by `timeline`'s cursor loop;
the fuel bounds the loop and equals the number of days produced. -/
def dateRangeGo (fuel : Nat) (cursor endD : Int) : List (Int × Nat) :=
  match fuel with
  | 0 => []
  | fuel + 1 =>
    if cursor ≤ endD then (cursor, 0) :: dateRangeGo fuel (cursor + 1) endD else []

/-- `timeline` from `metrics.rs`: zero-filled daily series over the full
inclusive span from first to last message date, then counts added for days
that exist in the map. -/
def timeline (messages : List Message) : List Count :=
  match sortByDt messages with
  | [] => []
  | sorted@(first :: _) =>
    let start := first.dt.date
    let stop := (sorted.getLast?.map fun m => m.dt.date).getD start
    let base := dateRangeGo ((stop - start).toNat + 1) start stop
    let map := sorted.foldl (fun m msg => addIfPresent msg.dt.date 1 m) base
    map.map fun p => { label := formatDateISO p.1, value := p.2 }

/-- Update the group of a key in an insertion-ordered association list, using
a default when absent (`map.entry(k).or_default()` then mutation). -/
def hashUpdate [DecidableEq K] (k : K) (f : V → V) (dflt : V) : List (K × V) → List (K × V)
  | [] => [(k, f dflt)]
  | (k2, v) :: tl =>
    if k = k2 then (k2, f v) :: tl else (k2, v) :: hashUpdate k f dflt tl

/-- Per-person hour/weekday/month histograms (`buckets_by_person`). -/
structure PersonBuckets where
  name : String
  messages : Nat
  hourly : List Nat
  daily : List Nat
  monthly : List Nat
  deriving DecidableEq, Repr

/-- `buckets_by_person` from `metrics.rs`, sorted by total message count
descending. -/
def buckets_by_person (messages : List Message) : List PersonBuckets :=
  let grouped := messages.foldl (fun g m => hashAppend m.sender m g) []
  let buckets := grouped.map fun p =>
    let msgs := p.2
    let hourly := msgs.foldl (fun (arr : List Nat) m =>
      arr.set m.dt.hour (arr.getD m.dt.hour 0 + 1)) (List.replicate 24 0)
    let daily := msgs.foldl (fun (arr : List Nat) m =>
      let i := weekdayIndex m.dt.days
      arr.set i (arr.getD i 0 + 1)) (List.replicate 7 0)
    let monthly := msgs.foldl (fun (arr : List Nat) m =>
      arr.set (m.dt.month - 1) (arr.getD (m.dt.month - 1) 0 + 1)) (List.replicate 12 0)
    { name := p.1, messages := msgs.length, hourly := hourly, daily := daily,
      monthly := monthly : PersonBuckets }
  List.insertionSort (fun a b : PersonBuckets => b.messages ≤ a.messages) buckets

/-- Per-person daily series (`per_person_daily`). -/
structure PersonDaily where
  name : String
  daily : List Count
  deriving DecidableEq, Repr

/-- `per_person_daily` from `metrics.rs`, sorted by sender name. -/
def per_person_daily (messages : List Message) : List PersonDaily :=
  let grouped := messages.foldl
    (fun (g : List (String × List (Int × Nat))) m =>
      hashUpdate m.sender (sortedAdd m.dt.date 1) [] g) []
  let result := grouped.map fun p =>
    { name := p.1,
      daily := p.2.map fun q => { label := formatDateISO q.1, value := q.2 } : PersonDaily }
  List.insertionSort (fun a b : PersonDaily => rustStrLe a.name b.name = true) result

/-- Per-sender word/emoji aggregates (`fun_facts`). -/
structure FunFact where
  name : String
  total_words : Nat
  longest_message_words : Nat
  unique_words : Nat
  average_message_length : Nat
  top_emojis : List String
  deriving DecidableEq, Repr

/-- Word/emoji accumulation over one sender's messages, shared between
`fun_facts` and `person_stats`: counted (non-media) messages, total words,
longest message, word frequencies, emoji frequencies, and color-word
frequencies. -/
structure WordAcc where
  counted : Nat := 0
  totalWords : Nat := 0
  longest : Nat := 0
  freq : List (String × Nat) := []
  emojiFreq : List (String × Nat) := []
  colorFreq : List (String × Nat) := []

/-- Process one message into a `WordAcc` (the shared loop body of `fun_facts`
and `person_stats`; `trackColors` enables the color tally of the latter). -/
def wordAccStep (trackColors : Bool) (acc : WordAcc) (m : Message) : WordAcc :=
  if is_media_omitted_message m.text then acc
  else
    let cleanedTokens := (unicodeWords m.text).filterMap fun token =>
      let cleaned := String.mk ((trimMatchesList (fun c => !rustIsAlphanumeric c) token.data).map rustToLowerChar)
      if cleaned.isEmpty then none else some cleaned
    let wordsInMessage := cleanedTokens.length
    let freq := cleanedTokens.foldl (fun f w => hashAdd w 1 f) acc.freq
    let colorFreq :=
      if trackColors then
        cleanedTokens.foldl (fun f w =>
          if (color_hex_for_word w).isSome then hashAdd w 1 f else f) acc.colorFreq
      else acc.colorFreq
    let emojiFreq := (extract_emojis m.text).foldl (fun f e => hashAdd e 1 f) acc.emojiFreq
    { counted := acc.counted + 1,
      totalWords := acc.totalWords + wordsInMessage,
      longest := max acc.longest wordsInMessage,
      freq := freq, emojiFreq := emojiFreq, colorFreq := colorFreq }

/-- `fun_facts` from `metrics.rs`, sorted by total words descending. -/
def fun_facts (messages : List Message) : List FunFact :=
  let grouped := messages.foldl (fun g m => hashAppend m.sender m g) []
  let facts := grouped.map fun p =>
    let acc := p.2.foldl (wordAccStep false) {}
    let uniqueWords := (acc.freq.filter fun q => q.2 = 1).length
    let avgLen : Nat :=
      if acc.counted = 0 then 0
      else (round ((acc.totalWords : ℚ) / (acc.counted : ℚ))).toNat
    let topEmoji := ((List.insertionSort (fun a b : String × Nat => b.2 ≤ a.2) acc.emojiFreq).take 3).map fun q => q.1
    { name := p.1, total_words := acc.totalWords,
      longest_message_words := acc.longest, unique_words := uniqueWords,
      average_message_length := avgLen, top_emojis := topEmoji : FunFact }
  List.insertionSort (fun a b : FunFact => b.total_words ≤ a.total_words) facts

/-- Per-sender statistics (`person_stats`). -/
structure PersonStat where
  name : String
  total_words : Nat
  unique_words : Nat
  longest_message_words : Nat
  average_words_per_message : ℚ
  top_emojis : List Count
  dominant_color : Option String
  deriving DecidableEq, Repr

/-- `person_stats` from `metrics.rs`, sorted by total words descending. -/
def person_stats (messages : List Message) : List PersonStat :=
  let grouped := messages.foldl (fun g m => hashAppend m.sender m g) []
  let stats := grouped.map fun p =>
    let acc := p.2.foldl (wordAccStep true) {}
    let avg : ℚ := if acc.counted = 0 then 0 else (acc.totalWords : ℚ) / (acc.counted : ℚ)
    let topEmoji := ((List.insertionSort (fun a b : String × Nat => b.2 ≤ a.2) acc.emojiFreq).take 10).map fun q =>
      { label := q.1, value := q.2 : Count }
    { name := p.1, total_words := acc.totalWords, unique_words := acc.freq.length,
      longest_message_words := acc.longest, average_words_per_message := avg,
      top_emojis := topEmoji, dominant_color := pick_dominant_color acc.colorFreq : PersonStat }
  List.insertionSort (fun a b : PersonStat => b.total_words ≤ a.total_words) stats

/-! ## Sentiment (`sentiment.rs`)

`f32` sentiment arithmetic uses only integer accumulation, one division, and
a clamp; it is modelled exactly over `ℚ` (the rational value is the real
number the `f32` code approximates; all classification constants are exact
decimals here). -/

/-- `POSITIVE_WORDS` from `sentiment.rs`. -/
def positiveWords : List String :=
  ["love", "loving", "loved", "like", "great", "good", "amazing", "awesome",
   "fantastic", "nice", "cool", "fun", "yay", "happy", "glad", "thanks",
   "thank", "thx", "congrats", "winner", "win", "excited", "sweet", "wow",
   "perfect", "best", "brilliant", "enjoy", "enjoying", "haha", "lol", "lmao",
   "pls", "plz", "support", "proud", "celebrate"]

/-- `NEGATIVE_WORDS` from `sentiment.rs` (the apostrophe of the 36th entry is
assembled by code point). -/
def negativeWords : List String :=
  ["hate", "hating", "hated", "bad", "terrible", "awful", "horrible", "worst",
   "sad", "angry", "mad", "upset", "tired", "annoyed", "pain", "hurt",
   "broken", "break", "breakup", "cry", "crying", "sucks", "suck", "wtf",
   "meh", "lame", "loser", "lost", "problem", "issues", "issue", "never",
   "nope", "cannot", "can" ++ apos ++ "t", "sorry", "ugh"]

/-- `POSITIVE_EMOJIS` from `sentiment.rs`. -/
def positiveEmojis : List String :=
  ["😀", "😃", "😄", "😁", "😆", "😍", "😊", "😂", "🤣", "👍", "🙏", "❤️"]

/-- `NEGATIVE_EMOJIS` from `sentiment.rs`. -/
def negativeEmojis : List String :=
  ["😢", "😭", "😡", "😠", "👎", "💔", "😞", "😔", "🙁", "☹️"]

/-- Sentiment classification of one message. -/
inductive SentimentClass where
  | positive
  | neutral
  | negative
  deriving DecidableEq, Repr

/-- `classify_sentiment` from `sentiment.rs`: thresholds at ±0.05. -/
def classify_sentiment (compound : ℚ) : SentimentClass :=
  if 0.05 < compound then .positive
  else if compound < -0.05 then .negative
  else .neutral

/-- The cleaned word tokens a message is scored on: `unicode_words`, trimmed
of non-alphanumerics, lower-cased, empties dropped. -/
def sentimentTokens (text : String) : List String :=
  (unicodeWords text).filterMap fun token =>
    let cleaned := String.mk
      ((trimMatchesList (fun c => !rustIsAlphanumeric c) token.data).map rustToLowerChar)
    if cleaned.isEmpty then none else some cleaned

/-- The word scoring step of `sentiment_score`. -/
def sentWordStep (acc : Int × Nat) (w : String) : Int × Nat :=
  if positiveWords.contains w then (acc.1 + 2, acc.2 + 1)
  else if negativeWords.contains w then (acc.1 - 2, acc.2 + 1)
  else acc

/-- The emoji scoring step of `sentiment_score`. -/
def sentEmojiStep (acc : Int × Nat) (g : String) : Int × Nat :=
  if positiveEmojis.contains g then (acc.1 + 2, acc.2 + 1)
  else if negativeEmojis.contains g then (acc.1 - 2, acc.2 + 1)
  else acc

/-- Raw score and hit count of `sentiment_score`: each lexicon or emoji hit
contributes ±2 and one hit. -/
def sentimentRaw (text : String) : Int × Nat :=
  let acc := (sentimentTokens text).foldl sentWordStep ((0 : Int), (0 : Nat))
  (extract_emojis text).foldl sentEmojiStep acc

/-- `sentiment_score` from `sentiment.rs`: compound score and class. -/
def sentiment_score (text : String) : ℚ × SentimentClass :=
  let raw := sentimentRaw text
  let compound : ℚ :=
    max (-1) (min 1 (if raw.2 = 0 then 0 else (raw.1 : ℚ) / ((raw.2 : ℚ) * 2)))
  (compound, classify_sentiment compound)

/-- Per-key sentiment aggregation (`SentimentAgg`). -/
structure SentimentAgg where
  sum : ℚ := 0
  count : Nat := 0
  pos : Nat := 0
  neu : Nat := 0
  neg : Nat := 0
  deriving DecidableEq, Repr

/-- `SentimentAgg::push`. -/
def sentimentPush (agg : SentimentAgg) (compound : ℚ) (class_ : SentimentClass) :
    SentimentAgg :=
  { agg with
    sum := agg.sum + compound,
    count := agg.count + 1,
    pos := agg.pos + if class_ = .positive then 1 else 0,
    neu := agg.neu + if class_ = .neutral then 1 else 0,
    neg := agg.neg + if class_ = .negative then 1 else 0 }

/-- `SentimentAgg::mean`. -/
def sentimentMean (agg : SentimentAgg) : ℚ :=
  if agg.count = 0 then 0 else agg.sum / (agg.count : ℚ)

/-- One `(sender, day)` sentiment record. -/
structure SentimentDay where
  name : String
  day : String
  mean : ℚ
  pos : Nat
  neu : Nat
  neg : Nat
  deriving DecidableEq, Repr

/-- One per-sender sentiment record. -/
structure SentimentOverall where
  name : String
  mean : ℚ
  pos : Nat
  neu : Nat
  neg : Nat
  deriving DecidableEq, Repr

/-- `sentiment_breakdown` from `sentiment.rs`: aggregate per `(sender, day)`
and per sender; by-day results sorted by day then sender, overall results by
mean descending then sender ascending. -/
def sentiment_breakdown (messages : List Message) :
    List SentimentDay × List SentimentOverall :=
  if messages.isEmpty then ([], [])
  else
    let acc := messages.foldl
      (fun (acc : List ((String × String) × SentimentAgg) × List (String × SentimentAgg)) m =>
        let s := sentiment_score m.text
        let day := formatDateISO m.dt.date
        (hashUpdate (m.sender, day) (fun a => sentimentPush a s.1 s.2) {} acc.1,
         hashUpdate m.sender (fun a => sentimentPush a s.1 s.2) {} acc.2))
      ([], [])
    let byDay := List.insertionSort
      (fun a b : SentimentDay =>
        rustStrLt a.day b.day = true ∨ (a.day = b.day ∧ rustStrLe a.name b.name = true))
      (acc.1.map fun p =>
        { name := p.1.1, day := p.1.2, mean := sentimentMean p.2,
          pos := p.2.pos, neu := p.2.neu, neg := p.2.neg : SentimentDay })
    let overall := List.insertionSort
      (fun a b : SentimentOverall =>
        b.mean < a.mean ∨ (a.mean = b.mean ∧ rustStrLe a.name b.name = true))
      (acc.2.map fun p =>
        { name := p.1, mean := sentimentMean p.2,
          pos := p.2.pos, neu := p.2.neu, neg := p.2.neg : SentimentOverall })
    (byDay, overall)

/-! ## Journey (`journey.rs` and its `lib.rs` duplicate) -/

/-- The fixed conversation gap (`CONVERSATION_GAP_MINUTES`). -/
def conversationGapMinutes : Int := 30

/-- A message as rendered in the journey section. -/
structure JourneyMessage where
  sender : String
  text : String
  timestamp : String
  is_you : Bool
  deriving DecidableEq, Repr

/-- A selected journey moment with context. -/
structure JourneyMoment where
  title : String
  description : String
  date : String
  messages : List JourneyMessage
  sentiment_score : ℚ
  deriving DecidableEq, Repr

/-- The journey object. -/
structure Journey where
  first_day : String
  last_day : String
  total_days : Nat
  total_messages : Nat
  first_messages : List JourneyMessage
  last_messages : List JourneyMessage
  interesting_moments : List JourneyMoment
  deriving DecidableEq, Repr

instance : Inhabited Message := ⟨{ dt := { days := 0, secs := 0 }, sender := "", text := "" }⟩

/-- `to_journey_message`. -/
def to_journey_message (msg : Message) (likelyYou : String) : JourneyMessage :=
  { sender := msg.sender, text := msg.text,
    timestamp := formatDateTimeISO msg.dt, is_you := msg.sender = likelyYou }

/-- Interest scoring of one indexed message (the loop body of
`find_interesting_moments`): short, media-omitted-like, or deletion-marker
texts are skipped; otherwise the interest combines sentiment magnitude,
normalized byte length, punctuation counts, emoji count, and the
uppercase-per-byte ratio. -/
def scoreMessage (p : Nat × Message) : Option (Nat × ℚ × ℚ) :=
  let msg := p.2
  let sentiment := (sentiment_score msg.text).1
  let textLen : ℚ := (strUtf8Len msg.text : ℚ)
  if textLen < 10 || containsSubstr msg.text "omitted" || containsSubstr msg.text "deleted" then
    none
  else
    let exclamationCount : ℚ := ((msg.text.data.filter fun c => c = '!').length : ℚ)
    let questionCount : ℚ := ((msg.text.data.filter fun c => c = '?').length : ℚ)
    let emojiCount : ℚ := ((extract_emojis msg.text).length : ℚ)
    let capsCount : ℚ := ((msg.text.data.filter fun c => 'A' ≤ c && c ≤ 'Z').length : ℚ)
    let capsRatioQ : ℚ := if msg.text.data.isEmpty then 0 else capsCount / textLen
    let interest := abs sentiment * 2 + min (textLen / 100) 3 + exclamationCount * 0.5 +
      questionCount * 0.3 + emojiCount * 0.3 + capsRatioQ * 2
    some (p.1, interest, sentiment)

/-- Rust `Iterator::max_by` over interest: the last maximal element wins. -/
def maxByInterest (l : List (Nat × ℚ × ℚ)) : Option (Nat × ℚ × ℚ) :=
  l.foldl (fun best x =>
    match best with
    | none => some x
    | some b => if x.2.1 < b.2.1 then some b else some x) none

/-- Whether an index is within `minGap` of an already selected one. -/
def tooClose (selected : List (Nat × ℚ)) (minGap : Nat) (idx : Nat) : Bool :=
  selected.any fun s => (Int.ofNat idx - Int.ofNat s.1).natAbs < minGap

/-- Advance one candidate iterator until a selectable candidate is found
(the inner `for … break` loops of the alternating selection). -/
def pickFrom (minGap : Nat) (selected : List (Nat × ℚ)) :
    List (Nat × ℚ × ℚ) → Option (Nat × ℚ) × List (Nat × ℚ × ℚ)
  | [] => (none, [])
  | x :: rest =>
    if tooClose selected minGap x.1 then pickFrom minGap selected rest
    else (some (x.1, x.2.2), rest)

/-- The alternating positive/negative selection loop. -/
def selectLoop (maxMoments minGap : Nat) :
    Nat → List (Nat × ℚ × ℚ) → List (Nat × ℚ × ℚ) → List (Nat × ℚ) → List (Nat × ℚ)
  | 0, _, _, selected => selected
  | fuel + 1, pos, neg, selected =>
    if maxMoments ≤ selected.length then selected
    else
      let pr := pickFrom minGap selected pos
      let selected := selected ++ pr.1.toList
      if maxMoments ≤ selected.length then selected
      else
        let nr := pickFrom minGap selected neg
        let selected := selected ++ nr.1.toList
        if pr.2.isEmpty && nr.2.isEmpty then selected
        else selectLoop maxMoments minGap fuel pr.2 nr.2 selected

/-- `find_interesting_moments`: requires at least 10 messages, scores and
segments the list, alternately picks high-interest positive and negative
candidates respecting the index gap, falls back to the global ranking, and
renders the chronologically sorted selection with two context messages on
each side. -/
def find_interesting_moments (messages : List Message) (likelyYou : String)
    (maxMoments : Nat) : List JourneyMoment :=
  if messages.length < 10 then []
  else
    let scored := messages.enum.filterMap scoreMessage
    if scored.isEmpty then []
    else
      let numSegments := max maxMoments 3
      let segmentSize := messages.length / numSegments
      let candidates := (List.range numSegments).foldl
        (fun (acc : List (Nat × ℚ × ℚ) × List (Nat × ℚ × ℚ)) seg =>
          let segStart := seg * segmentSize
          let segEnd := if seg = numSegments - 1 then messages.length else (seg + 1) * segmentSize
          let inSeg := fun (x : Nat × ℚ × ℚ) => segStart ≤ x.1 && x.1 < segEnd
          let bestPos := maxByInterest (scored.filter fun x => inSeg x && 0.1 < x.2.2)
          let bestNeg := maxByInterest (scored.filter fun x => inSeg x && x.2.2 < -0.1)
          (acc.1 ++ bestPos.toList, acc.2 ++ bestNeg.toList)) ([], [])
      let posC := List.insertionSort (fun a b : Nat × ℚ × ℚ => b.2.1 ≤ a.2.1) candidates.1
      let negC := List.insertionSort (fun a b : Nat × ℚ × ℚ => b.2.1 ≤ a.2.1) candidates.2
      let minGap := max (messages.length / (maxMoments + 1)) 30
      let selected := selectLoop maxMoments minGap (posC.length + negC.length + 1) posC negC []
      let selected :=
        if selected.length < maxMoments then
          let sortedScored := List.insertionSort (fun a b : Nat × ℚ × ℚ => b.2.1 ≤ a.2.1) scored
          sortedScored.foldl (fun sel x =>
            if sel.length < maxMoments && !tooClose sel minGap x.1 then sel ++ [(x.1, x.2.2)]
            else sel) selected
        else selected
      let selected := List.insertionSort (fun a b : Nat × ℚ => a.1 ≤ b.1) selected
      selected.map fun s =>
        let idx := s.1
        let sentiment := s.2
        let start := idx - 2
        let stop := min (idx + 3) messages.length
        let context := ((messages.drop start).take (stop - start)).map fun m =>
          to_journey_message m likelyYou
        let mainMsg := (messages.get? idx).getD default
        let title :=
          if 0.3 < sentiment then "A joyful moment"
          else if sentiment < -0.3 then "A heartfelt exchange"
          else if mainMsg.text.data.contains '?' then "A curious conversation"
          else if 200 < strUtf8Len mainMsg.text then "A meaningful message"
          else "A memorable moment"
        { title := title, description := formatMomentDescription mainMsg.dt,
          date := formatDateISO mainMsg.dt.date, messages := context,
          sentiment_score := sentiment : JourneyMoment }

/-- The forward walk collecting the first conversation: up to five messages,
stopping before a gap above the threshold. -/
def firstConvGo : Nat → List Message → List Message
  | _, [] => []
  | cnt, m :: rest =>
    m ::
      (if 5 ≤ cnt + 1 then []
       else
         match rest with
         | next :: _ =>
           if conversationGapMinutes < next.dt.minutesDiff m.dt then []
           else firstConvGo (cnt + 1) rest
         | [] => [])

/-- The backward walk collecting the last conversation (over the reversed
list; the gap is from the previous message to the current one). -/
def lastConvGo : Nat → List Message → List Message
  | _, [] => []
  | cnt, m :: rest =>
    m ::
      (if 5 ≤ cnt + 1 then []
       else
         match rest with
         | prev :: _ =>
           if conversationGapMinutes < m.dt.minutesDiff prev.dt then []
           else lastConvGo (cnt + 1) rest
         | [] => [])

/-- Rust `Iterator::min_by_key` over an association list of counters: the
first minimal element wins. -/
def minByCount (l : List (String × Nat)) : Option String :=
  (l.foldl (fun best x =>
    match best with
    | none => some x
    | some b => if x.2 < b.2 then some x else some b) none).map fun p => p.1

/-- `build_journey`: `None` exactly on an empty list; otherwise sorts
chronologically, infers the "you" participant from the deleted-marker sender
or the smallest message count, collects first/last conversation snippets, and
attaches the interesting moments. -/
def build_journey (messages : List Message) : Option Journey :=
  if messages.isEmpty then none
  else
    match sortByDt messages with
    | [] => none
    | sorted@(firstMsg :: _) =>
      let lastMsg := sorted.getLast?.getD firstMsg
      let firstDay := firstMsg.dt.date
      let lastDay := lastMsg.dt.date
      let totalDays := (max (lastDay - firstDay) 1).toNat
      let senderCounts := sorted.foldl (fun m msg => hashAdd msg.sender 1 m) []
      let deletedYouSender := (sorted.find? fun msg =>
        containsSubstr msg.text "You deleted this message").map fun m => m.sender
      let likelyYou := deletedYouSender.getD ((minByCount senderCounts).getD "")
      let firstMessages := (firstConvGo 0 sorted).map fun m => to_journey_message m likelyYou
      let lastMessages := ((lastConvGo 0 sorted.reverse).map fun m =>
        to_journey_message m likelyYou).reverse
      some
        { first_day := formatDateLong firstDay, last_day := formatDateLong lastDay,
          total_days := totalDays, total_messages := sorted.length,
          first_messages := firstMessages, last_messages := lastMessages,
          interesting_moments := find_interesting_moments sorted likelyYou 4 }

/-! ## Word and emoji tables (`phrases.rs`)

The functions below take the stopword set as an explicit argument; in the
source it is the lazily initialized global `stopwords_set()`. -/

/-- The descending emoji frequency table shared by `top_emojis` and
`emoji_cloud` (the latter is `top_emojis(messages, usize::MAX)` re-truncated,
so both are prefixes of this list). -/
def topEmojisSorted (messages : List Message) : List Count :=
  sortCountsDesc ((messages.foldl (fun m msg =>
    (extract_emojis msg.text).foldl (fun m2 e => hashAdd e 1 m2) m) []).map fun p =>
    { label := p.1, value := p.2 })

/-- `top_emojis` from `phrases.rs`. -/
def top_emojis (messages : List Message) (take : Nat) : List Count :=
  (topEmojisSorted messages).take take

/-- `emoji_cloud` from `phrases.rs`. -/
def emoji_cloud (messages : List Message) (take : Nat) : List Count :=
  (topEmojisSorted messages).take take

/-- The short-token exclusion of `top_words`: byte length below 3 and every
character alphanumeric. -/
def shortAlnumToken (token : String) : Bool :=
  strUtf8Len token < 3 && token.data.all rustIsAlphanumeric

/-- `top_words` from `phrases.rs`: tokenized word frequencies over non-media
messages, excluding short purely alphanumeric tokens, sorted descending and
truncated. -/
def top_words (messages : List Message) (take : Nat) (filterStop : Bool)
    (stop : List String) : List Count :=
  let map := messages.foldl (fun m msg =>
    if is_media_omitted_message msg.text then m
    else
      (tokenize msg.text filterStop stop).foldl (fun m2 token =>
        if shortAlnumToken token then m2 else hashAdd token 1 m2) m) []
  (sortCountsDesc (map.map fun p => { label := p.1, value := p.2 })).take take

/-- `word_cloud` from `phrases.rs`: like `top_words` but keeping every
non-empty token. -/
def word_cloud (messages : List Message) (take : Nat) (filterStop : Bool)
    (stop : List String) : List Count :=
  let map := messages.foldl (fun m msg =>
    if is_media_omitted_message msg.text then m
    else
      (tokenize msg.text filterStop stop).foldl (fun m2 token =>
        if token.isEmpty then m2 else hashAdd token 1 m2) m) []
  (sortCountsDesc (map.map fun p => { label := p.1, value := p.2 })).take take

/-! ## Subphrase suppression (`phrases.rs`)

`PhraseRecord.score` is an `f64` ranking score in the source (PMI-based,
hence transcendental); the suppression pass never reads it, so it is carried
here as an opaque `ℚ`. -/

/-- A phrase candidate (`PhraseRecord`). -/
structure PhraseRecord where
  phrase : String
  count : Nat
  len : Nat
  tokens : List String
  score : ℚ
  deriving DecidableEq, Repr

/-- `contains_subsequence` from `phrases.rs`: `short` occurs as a contiguous
token subsequence of `long` (false for an empty or longer `short`). -/
def contains_subsequence (long short : List String) : Bool :=
  if short.isEmpty || long.length < short.length then false
  else listContainsSub long short

/-- The drop condition of the suppression scan: a strictly longer already
kept phrase with count at least 2 contains the candidate. -/
def suppressDrop (existing rec : PhraseRecord) : Bool :=
  rec.len < existing.len && 2 ≤ existing.count &&
    contains_subsequence existing.tokens rec.tokens

/-- The replacement condition of the suppression scan: the candidate is
strictly longer, has count at least 2, contains the kept phrase, the kept
phrase spans at least half the candidate's length, and the candidate's count
is at least 60% of the kept one's. -/
def suppressReplace (rec existing : PhraseRecord) : Bool :=
  existing.len < rec.len && 2 ≤ rec.count &&
    contains_subsequence rec.tokens existing.tokens &&
    0.5 ≤ ((existing.len : ℚ) / (rec.len : ℚ)) &&
    existing.count * 6 ≤ rec.count * 10

/-- Scan the kept list for the first entry triggering the drop or the
replacement condition; `none` when no entry triggers. -/
def suppressScan (rec : PhraseRecord) : List PhraseRecord → Option (List PhraseRecord)
  | [] => none
  | e :: rest =>
    if suppressDrop e rec then some (e :: rest)
    else if suppressReplace rec e then some (rec :: rest)
    else (suppressScan rec rest).map fun tl => e :: tl

/-- One candidate step of `suppress_subphrases`: drop, replace in place, or
append. -/
def suppressStep (kept : List PhraseRecord) (rec : PhraseRecord) : List PhraseRecord :=
  (suppressScan rec kept).getD (kept ++ [rec])

/-- `suppress_subphrases` from `phrases.rs`: cap the candidate list, then
greedily keep/drop/replace. -/
def suppress_subphrases (records : List PhraseRecord) (maxInput : Nat) :
    List PhraseRecord :=
  let records := if maxInput < records.length then records.take maxInput else records
  records.foldl suppressStep []

/-! ## The summary (`lib.rs`) -/

/-- The root summary aggregate.  The three PMI-ranked phrase tables of the
source (`salient_phrases`, `top_phrases`/`top_phrases_no_stop`,
`per_person_phrases`/`per_person_phrases_no_stop`) are ranked by `f64`
logarithm-based scores and are outside the exact executable model; their
construction is total (pure folds over the same message list), and no claim
depends on their values, so the field set here omits them. -/
structure Summary where
  total_messages : Nat
  by_sender : List Count
  daily : List Count
  hourly : List HourCount
  top_emojis : List Count
  top_words : List Count
  top_words_no_stop : List Count
  deleted_you : Nat
  deleted_others : Nat
  timeline : List Count
  weekly : List Count
  monthly : List Count
  share_of_speech : List Count
  buckets_by_person : List PersonBuckets
  word_cloud : List Count
  word_cloud_no_stop : List Count
  emoji_cloud : List Count
  fun_facts : List FunFact
  person_stats : List PersonStat
  per_person_daily : List PersonDaily
  sentiment_by_day : List SentimentDay
  sentiment_overall : List SentimentOverall
  conversation_starters : List Count
  conversation_count : Nat
  journey : Option Journey
  deriving Repr

/-- `summarize` from `lib.rs`: parse and filter; with no messages left the
single error `"No messages parsed"` is returned, otherwise every aggregation
runs and the summary is assembled. -/
def summarize (raw : String) (topWordsN topEmojisN : Nat) : Except String Summary :=
  let messages := parse_messages raw
  if messages.isEmpty then .error "No messages parsed"
  else
    let deleted := deleted_counts messages
    let convo := conversation_initiations messages
    let sentiments := sentiment_breakdown messages
    .ok
      { total_messages := messages.length
        by_sender := count_by_sender messages
        daily := daily_counts messages
        hourly := hourly_counts messages
        top_emojis := top_emojis messages topEmojisN
        top_words := top_words messages topWordsN true stopwordsSet
        top_words_no_stop := top_words messages topWordsN false stopwordsSet
        deleted_you := deleted.1
        deleted_others := deleted.2
        timeline := timeline messages
        weekly := weekly_counts messages
        monthly := monthly_counts messages
        share_of_speech := count_by_sender messages
        buckets_by_person := buckets_by_person messages
        word_cloud := word_cloud messages 150 true stopwordsSet
        word_cloud_no_stop := word_cloud messages 150 false stopwordsSet
        emoji_cloud := emoji_cloud messages 1000
        fun_facts := fun_facts messages
        person_stats := person_stats messages
        per_person_daily := per_person_daily messages
        sentiment_by_day := sentiments.1
        sentiment_overall := sentiments.2
        conversation_starters := convo.1
        conversation_count := convo.2
        journey := build_journey messages }

/-! ## Specification-side definitions

Independent restatements used by the claim theorems; each is compared against
the embedded source functions by the theorems below. -/

/-- Positive word hits of a message: cleaned tokens found in the positive
lexicon. -/
def posWordHits (text : String) : Nat :=
  ((sentimentTokens text).filter fun w => positiveWords.contains w).length

/-- Negative word hits: cleaned tokens found in the negative lexicon only
(the scorer checks the positive lexicon first). -/
def negWordHits (text : String) : Nat :=
  ((sentimentTokens text).filter fun w =>
    !positiveWords.contains w && negativeWords.contains w).length

/-- Positive emoji hits. -/
def posEmojiHits (text : String) : Nat :=
  ((extract_emojis text).filter fun g => positiveEmojis.contains g).length

/-- Negative emoji hits (the positive set is checked first). -/
def negEmojiHits (text : String) : Nat :=
  ((extract_emojis text).filter fun g =>
    !positiveEmojis.contains g && negativeEmojis.contains g).length

/-- All positive hits of a message. -/
def posHits (text : String) : Nat := posWordHits text + posEmojiHits text

/-- All negative hits of a message. -/
def negHits (text : String) : Nat := negWordHits text + negEmojiHits text

/-- Chronologically adjacent pairs of the sorted message list. -/
def gapPairs (sorted : List Message) : List (Message × Message) :=
  sorted.zip sorted.tail

/-- The number of adjacent gaps strictly above the threshold. -/
def countGapsOver (sorted : List Message) (gapMinutes : Int) : Nat :=
  ((gapPairs sorted).filter fun pr => gapMinutes < pr.2.dt.minutesDiff pr.1.dt).length

/-- The number of initiations a claim credits to a sender: one for the first
message plus one per message that directly follows an above-threshold gap. -/
def creditedInitiations (sorted : List Message) (gapMinutes : Int) (s : String) : Nat :=
  ((gapPairs sorted).filter fun pr =>
    gapMinutes < pr.2.dt.minutesDiff pr.1.dt && pr.2.sender = s).length

/-- Total value credited to a label in a count table (labels are unique in
every table produced here, so this is that label's value). -/
def sumValues (items : List Count) (s : String) : Nat :=
  ((items.filter fun c => c.label = s).map fun c => c.value).sum

/-- Total value credited to a key in a raw association list of counters. -/
def sumPairs (l : List (String × Nat)) (s : String) : Nat :=
  ((l.filter fun p => p.1 = s).map fun p => p.2).sum

/-- The earliest message date (day number), independent of the sort used by
the implementation. -/
def minDays (messages : List Message) : Int :=
  match messages with
  | [] => 0
  | m :: tl => tl.foldl (fun acc x => min acc x.dt.days) m.dt.days

/-- The latest message date (day number). -/
def maxDays (messages : List Message) : Int :=
  match messages with
  | [] => 0
  | m :: tl => tl.foldl (fun acc x => max acc x.dt.days) m.dt.days

/-- Header-line timestamps of the raw input, in line order: the date of every
line that matches a header pattern and whose timestamp parses. -/
def hdrDates (lines : List String) : List Int :=
  lines.filterMap fun line =>
    (headerCaptures line).bind fun caps =>
      (parse_timestamp caps.date caps.time).map fun dt => dt.date

/-- The year normalization the specification describes: years below 100 get
2000 added. -/
def normYearVal (yv : Nat) : Int :=
  if yv < 100 then Int.ofNat (2000 + yv) else Int.ofNat yv

attribute [local semireducible] Rat.mul Rat.add Rat.sub

/-! # Helper lemmas -/

theorem scan_none_iff (rec : PhraseRecord) (kept : List PhraseRecord) :
    suppressScan rec kept = none ↔
      ∀ x ∈ kept, suppressDrop x rec = false ∧ suppressReplace rec x = false := by
  induction kept with
  | nil => simp [suppressScan]
  | cons e rest ih =>
    by_cases hd : suppressDrop e rec
    · simp [suppressScan, hd]
    · by_cases hr : suppressReplace rec e
      · simp [suppressScan, hd, hr]
      · simp only [suppressScan, hd, hr, Bool.false_eq_true, if_false,
          Option.map_eq_none', List.mem_cons]
        rw [ih]
        constructor
        · intro h x hx
          rcases hx with rfl | hx2
          · exact ⟨by simp [hd], by simp [hr]⟩
          · exact h x hx2
        · intro h x hx
          exact h x (Or.inr hx)

theorem scan_first_drop (rec : PhraseRecord) (pre : List PhraseRecord)
    (e : PhraseRecord) (post : List PhraseRecord)
    (hpre : ∀ x ∈ pre, suppressDrop x rec = false ∧ suppressReplace rec x = false)
    (hd : suppressDrop e rec = true) :
    suppressScan rec (pre ++ e :: post) = some (pre ++ e :: post) := by
  induction pre with
  | nil => simp [suppressScan, hd]
  | cons x xs ih =>
    have hx := hpre x (by simp)
    have hxs : ∀ y ∈ xs, suppressDrop y rec = false ∧ suppressReplace rec y = false :=
      fun y hy => hpre y (by simp [hy])
    simp [suppressScan, hx.1, hx.2, ih hxs]

theorem scan_first_repl (rec : PhraseRecord) (pre : List PhraseRecord)
    (e : PhraseRecord) (post : List PhraseRecord)
    (hpre : ∀ x ∈ pre, suppressDrop x rec = false ∧ suppressReplace rec x = false)
    (hd : suppressDrop e rec = false) (hr : suppressReplace rec e = true) :
    suppressScan rec (pre ++ e :: post) = some (pre ++ rec :: post) := by
  induction pre with
  | nil => simp [suppressScan, hd, hr]
  | cons x xs ih =>
    have hx := hpre x (by simp)
    have hxs : ∀ y ∈ xs, suppressDrop y rec = false ∧ suppressReplace rec y = false :=
      fun y hy => hpre y (by simp [hy])
    simp [suppressScan, hx.1, hx.2, ih hxs]

theorem scan_some_charact (rec : PhraseRecord) (kept l : List PhraseRecord)
    (h : suppressScan rec kept = some l) :
    ∃ pre e post, kept = pre ++ e :: post ∧
      (∀ x ∈ pre, suppressDrop x rec = false ∧ suppressReplace rec x = false) ∧
      ((suppressDrop e rec = true ∧ l = kept) ∨
        (suppressDrop e rec = false ∧ suppressReplace rec e = true ∧
          l = pre ++ rec :: post)) := by
  induction kept generalizing l with
  | nil => simp [suppressScan] at h
  | cons e rest ih =>
    by_cases hd : suppressDrop e rec
    · refine ⟨[], e, rest, by simp, by simp, Or.inl ⟨hd, ?_⟩⟩
      simp [suppressScan, hd] at h
      exact h.symm
    · by_cases hr : suppressReplace rec e
      · refine ⟨[], e, rest, by simp, by simp, Or.inr ⟨by simp [hd], hr, ?_⟩⟩
        simp [suppressScan, hd, hr] at h
        exact h.symm
      · have heq : suppressScan rec (e :: rest) = (suppressScan rec rest).map fun tl => e :: tl := by
          simp [suppressScan, hd, hr]
        rw [heq] at h
        cases hsub : suppressScan rec rest with
        | none =>
          rw [hsub] at h
          exact absurd h (by simp)
        | some l2 =>
          rw [hsub] at h
          have h2 : e :: l2 = l := by
            simpa using h
          subst h2
          obtain ⟨pre, e2, post, hsplit, hpre, hcase⟩ := ih l2 hsub
          refine ⟨e :: pre, e2, post, by simp [hsplit], ?_, ?_⟩
          · intro x hx
            rcases List.mem_cons.mp hx with rfl | hx2
            · exact ⟨by simp [hd], by simp [hr]⟩
            · exact hpre x hx2
          · rcases hcase with ⟨h1, rfl⟩ | ⟨h1, h2, rfl⟩
            · exact Or.inl ⟨h1, by simp [hsplit]⟩
            · exact Or.inr ⟨h1, h2, by simp⟩

theorem replace_ne (rec e : PhraseRecord) (hr : suppressReplace rec e = true) :
    rec ≠ e := by
  intro h
  subst h
  simp [suppressReplace] at hr

/-- Word-scoring fold of `sentiment_score` in terms of filtered hit
counts. -/
theorem sentWordFold (l : List String) (acc : Int × Nat) :
    l.foldl sentWordStep acc =
      (acc.1 + 2 * ((l.filter fun w => positiveWords.contains w).length : Int)
             - 2 * ((l.filter fun w => !positiveWords.contains w && negativeWords.contains w).length : Int),
       acc.2 + (l.filter fun w => positiveWords.contains w).length
             + (l.filter fun w => !positiveWords.contains w && negativeWords.contains w).length) := by
  induction l generalizing acc with
  | nil => simp
  | cons w tl ih =>
    rw [List.foldl_cons, ih]
    cases hp : positiveWords.contains w with
    | true =>
      simp only [sentWordStep, List.filter_cons, hp, Bool.not_true, Bool.false_and,
        if_true, if_false, List.length_cons, Bool.false_eq_true, reduceIte]
      refine Prod.ext ?_ ?_
      · simp only
        push_cast
        ring
      · simp only
        omega
    | false =>
      cases hn : negativeWords.contains w with
      | true =>
        simp only [sentWordStep, List.filter_cons, hp, hn, Bool.not_false, Bool.true_and,
          if_true, if_false, List.length_cons, Bool.false_eq_true, reduceIte]
        refine Prod.ext ?_ ?_
        · simp only
          push_cast
          ring
        · simp only
          omega
      | false =>
        simp only [sentWordStep, List.filter_cons, hp, hn, Bool.not_false, Bool.true_and,
          if_true, if_false, Bool.false_eq_true, reduceIte]

/-- Emoji-scoring fold of `sentiment_score` in terms of filtered hit
counts. -/
theorem sentEmojiFold (l : List String) (acc : Int × Nat) :
    l.foldl sentEmojiStep acc =
      (acc.1 + 2 * ((l.filter fun g => positiveEmojis.contains g).length : Int)
             - 2 * ((l.filter fun g => !positiveEmojis.contains g && negativeEmojis.contains g).length : Int),
       acc.2 + (l.filter fun g => positiveEmojis.contains g).length
             + (l.filter fun g => !positiveEmojis.contains g && negativeEmojis.contains g).length) := by
  induction l generalizing acc with
  | nil => simp
  | cons w tl ih =>
    rw [List.foldl_cons, ih]
    cases hp : positiveEmojis.contains w with
    | true =>
      simp only [sentEmojiStep, List.filter_cons, hp, Bool.not_true, Bool.false_and,
        if_true, if_false, List.length_cons, Bool.false_eq_true, reduceIte]
      refine Prod.ext ?_ ?_
      · simp only
        push_cast
        ring
      · simp only
        omega
    | false =>
      cases hn : negativeEmojis.contains w with
      | true =>
        simp only [sentEmojiStep, List.filter_cons, hp, hn, Bool.not_false, Bool.true_and,
          if_true, if_false, List.length_cons, Bool.false_eq_true, reduceIte]
        refine Prod.ext ?_ ?_
        · simp only
          push_cast
          ring
        · simp only
          omega
      | false =>
        simp only [sentEmojiStep, List.filter_cons, hp, hn, Bool.not_false, Bool.true_and,
          if_true, if_false, Bool.false_eq_true, reduceIte]

/-- `sentimentRaw` equals the hit-count decomposition. -/
theorem sentimentRaw_eq (text : String) :
    sentimentRaw text =
      (2 * (posHits text : Int) - 2 * (negHits text : Int), posHits text + negHits text) := by
  unfold sentimentRaw
  rw [sentWordFold, sentEmojiFold]
  unfold posHits negHits posWordHits negWordHits posEmojiHits negEmojiHits
  refine Prod.ext ?_ ?_
  · simp only
    push_cast
    ring
  · simp only
    omega

/-- The classification thresholds of `classify_sentiment`. -/
theorem classify_iff (c : ℚ) :
    (classify_sentiment c = .positive ↔ (0.05 : ℚ) < c) ∧
    (classify_sentiment c = .negative ↔ c < -0.05) ∧
    (classify_sentiment c = .neutral ↔ ¬((0.05 : ℚ) < c) ∧ ¬(c < -0.05)) := by
  refine ⟨?_, ?_, ?_⟩ <;> unfold classify_sentiment <;>
    split_ifs with h1 h2 <;> simp_all <;> linarith

/-! # Claim theorems -/

/-- C1: `summarize` returns the error "No messages parsed" exactly when
parsing followed by system-message filtering leaves no messages; this is its
only error, and any input with at least one remaining message produces a
summary. -/
theorem claim1_no_messages_error (raw : String) (a b : Nat) :
    (summarize raw a b = .error "No messages parsed" ↔ parse_messages raw = []) ∧
    (∀ e, summarize raw a b = .error e → e = "No messages parsed") ∧
    (parse_messages raw ≠ [] → ∃ s, summarize raw a b = .ok s) := by
  by_cases hc : parse_messages raw = []
  · have h : summarize raw a b = .error "No messages parsed" := by
      simp [summarize, hc]
    refine ⟨⟨fun _ => hc, fun _ => h⟩, fun e he => ?_, fun hne => absurd hc hne⟩
    rw [h] at he
    injection he with h2
    exact h2.symm
  · have hIsEmpty : (parse_messages raw).isEmpty = false := by
      simpa [List.isEmpty_iff] using hc
    have h : ∃ s, summarize raw a b = .ok s := by
      simp only [summarize, hIsEmpty, Bool.false_eq_true, if_false]
      exact ⟨_, rfl⟩
    obtain ⟨s, hs⟩ := h
    refine ⟨⟨fun he => ?_, fun hcc => absurd hcc hc⟩, fun e he => ?_, fun _ => ⟨s, hs⟩⟩
    · rw [hs] at he; cases he
    · rw [hs] at he; cases he

/-- C1 witness: a concrete chat produces a summary, and the empty input
produces the documented error. -/
theorem claim1_witness :
    (∃ s, summarize "[1/1/24, 1:00:00 PM] A: hello there" 5 5 = .ok s) ∧
    (summarize "" 5 5 = .error "No messages parsed") := by
  constructor
  · exact (claim1_no_messages_error "[1/1/24, 1:00:00 PM] A: hello there" 5 5).2.2
      (by decide)
  · exact (claim1_no_messages_error "" 5 5).1.mpr (by decide)

/-- C10: a line matching neither header pattern, or matching one with an
unparseable timestamp, contributes nothing when no message is in progress:
the parse loop's result on the remaining lines is unchanged, so leading junk
lines are silently discarded by `parse_messages`. -/
theorem claim10_leading_junk_dropped (line : String) (lines : List String) :
    (headerCaptures line = none →
      parseMessagesLoop (line :: lines) = parseMessagesLoop lines) ∧
    (∀ caps, headerCaptures line = some caps →
      parse_timestamp caps.date caps.time = none →
      parseMessagesLoop (line :: lines) = parseMessagesLoop lines) := by
  constructor
  · intro h
    simp [parseMessagesLoop, parseStep, h]
  · intro caps hc ht
    simp [parseMessagesLoop, parseStep, hc, ht]

/-- C10 witness: a concrete junk line ahead of a header changes nothing. -/
theorem claim10_witness :
    parseMessagesLoop ["this line is junk", "[1/1/24, 1:00:00 PM] A: hello"] =
      parseMessagesLoop ["[1/1/24, 1:00:00 PM] A: hello"] :=
  (claim10_leading_junk_dropped "this line is junk"
    ["[1/1/24, 1:00:00 PM] A: hello"]).1 (by decide)

/-- C8 counterexample: a longer candidate of count 1 containing an already
kept shorter phrase, with the spanning condition and the count-ratio
condition both satisfied, does not replace it — the code additionally
requires the longer candidate's count to be at least 2, so both phrases
stay. -/
theorem claim8_counterexample :
    suppress_subphrases
      [{ phrase := "a b", count := 1, len := 2, tokens := ["a", "b"], score := 0 },
       { phrase := "a b c", count := 1, len := 3, tokens := ["a", "b", "c"], score := 0 }] 100 =
      [{ phrase := "a b", count := 1, len := 2, tokens := ["a", "b"], score := 0 },
       { phrase := "a b c", count := 1, len := 3, tokens := ["a", "b", "c"], score := 0 }] ∧
    contains_subsequence ["a", "b", "c"] ["a", "b"] = true ∧
    (0.5 : ℚ) ≤ (2 : ℚ) / (3 : ℚ) ∧
    1 * 6 ≤ 1 * 10 := by
  refine ⟨by decide, by decide, by norm_num, by norm_num⟩

/-- C8 (amended): scanning the kept list in order, a candidate is dropped
exactly when the first kept phrase triggering either condition is a strictly
longer phrase with count at least 2 containing it; it replaces a kept phrase
in place when the first trigger is the replacement condition — the candidate
is strictly longer, contains the kept phrase, the kept phrase spans at least
half its length, its count is at least 60% of the kept one's, and
additionally its count is at least 2; with no trigger it is appended.
`suppress_subphrases` is the fold of this step over the capped candidate
list. -/
theorem claim8_amended (kept : List PhraseRecord) (rec : PhraseRecord)
    (records : List PhraseRecord) (maxInput : Nat) :
    suppress_subphrases records maxInput = (records.take maxInput).foldl suppressStep [] ∧
    (suppressStep kept rec = kept ↔
      ∃ pre e post, kept = pre ++ e :: post ∧ suppressDrop e rec = true ∧
        ∀ x ∈ pre, suppressDrop x rec = false ∧ suppressReplace rec x = false) ∧
    (∀ pre e post, kept = pre ++ e :: post →
      (∀ x ∈ pre, suppressDrop x rec = false ∧ suppressReplace rec x = false) →
      suppressDrop e rec = false → suppressReplace rec e = true →
      suppressStep kept rec = pre ++ rec :: post) ∧
    ((∀ x ∈ kept, suppressDrop x rec = false ∧ suppressReplace rec x = false) →
      suppressStep kept rec = kept ++ [rec]) := by
  refine ⟨?_, ⟨?_, ?_⟩, ?_, ?_⟩
  · unfold suppress_subphrases
    by_cases h : maxInput < records.length
    · simp [h]
    · simp [h, List.take_of_length_le (Nat.le_of_not_lt h)]
  · intro heq
    unfold suppressStep at heq
    cases hscan : suppressScan rec kept with
    | none =>
      rw [hscan] at heq
      simp only [Option.getD_none] at heq
      have hlen := congrArg List.length heq
      simp at hlen
    | some l =>
      rw [hscan] at heq
      simp only [Option.getD_some] at heq
      obtain ⟨pre, e, post, hsplit, hpre, hcase⟩ := scan_some_charact rec kept l hscan
      rcases hcase with ⟨h1, _⟩ | ⟨_, h2, h3⟩
      · exact ⟨pre, e, post, hsplit, h1, hpre⟩
      · exfalso
        rw [heq, hsplit] at h3
        have h4 := List.append_cancel_left h3
        injection h4 with h5
        exact replace_ne rec e h2 h5.symm
  · rintro ⟨pre, e, post, rfl, hd, hpre⟩
    unfold suppressStep
    rw [scan_first_drop rec pre e post hpre hd]
    rfl
  · intro pre e post hsplit hpre hd hr
    unfold suppressStep
    rw [hsplit, scan_first_repl rec pre e post hpre hd hr]
    rfl
  · intro hclean
    unfold suppressStep
    rw [(scan_none_iff rec kept).mpr hclean]
    rfl

/-- C8 witness: a concrete run where a short candidate is dropped because a
longer kept phrase with count 2 contains it. -/
theorem claim8_witness :
    suppressStep
      [{ phrase := "a b c", count := 2, len := 3, tokens := ["a", "b", "c"], score := 0 }]
      { phrase := "a b", count := 5, len := 2, tokens := ["a", "b"], score := 0 } =
      [{ phrase := "a b c", count := 2, len := 3, tokens := ["a", "b", "c"], score := 0 }] :=
  (claim8_amended
    [{ phrase := "a b c", count := 2, len := 3, tokens := ["a", "b", "c"], score := 0 }]
    { phrase := "a b", count := 5, len := 2, tokens := ["a", "b"], score := 0 } [] 0).2.1.mpr
    ⟨[], { phrase := "a b c", count := 2, len := 3, tokens := ["a", "b", "c"], score := 0 },
      [], by decide, by decide, by simp⟩

/-- C6: the per-message sentiment score counts every positive hit as +2 and
every negative hit as -2, the compound score is the raw score over twice the
hit count, clamped to [-1, 1] and exactly 0 with no hits, and the class
thresholds are ±0.05. -/
theorem claim6_sentiment_score (text : String) :
    ((sentiment_score text).1 =
      max (-1) (min 1 (if posHits text + negHits text = 0 then (0 : ℚ)
        else (2 * (posHits text : ℚ) - 2 * (negHits text : ℚ)) /
          (((posHits text + negHits text : Nat) : ℚ) * 2)))) ∧
    (posHits text + negHits text = 0 → (sentiment_score text).1 = 0) ∧
    (-1 ≤ (sentiment_score text).1 ∧ (sentiment_score text).1 ≤ 1) ∧
    ((sentiment_score text).2 = .positive ↔ (0.05 : ℚ) < (sentiment_score text).1) ∧
    ((sentiment_score text).2 = .negative ↔ (sentiment_score text).1 < -0.05) ∧
    ((sentiment_score text).2 = .neutral ↔
      ¬((0.05 : ℚ) < (sentiment_score text).1) ∧ ¬((sentiment_score text).1 < -0.05)) := by
  have hraw := sentimentRaw_eq text
  have hval : (sentiment_score text).1 =
      max (-1) (min 1 (if posHits text + negHits text = 0 then (0 : ℚ)
        else (2 * (posHits text : ℚ) - 2 * (negHits text : ℚ)) /
          (((posHits text + negHits text : Nat) : ℚ) * 2))) := by
    simp only [sentiment_score, hraw]
    by_cases h0 : posHits text + negHits text = 0
    · simp [h0]
    · simp only [h0, if_false]
      congr 2
      push_cast
      ring
  have hclass : (sentiment_score text).2 = classify_sentiment ((sentiment_score text).1) := by
    simp [sentiment_score]
  refine ⟨hval, ?_, ?_, ?_, ?_, ?_⟩
  · intro h0
    rw [hval, h0]
    simp
  · constructor
    · rw [hval]; exact le_max_left _ _
    · rw [hval]; exact max_le (by norm_num) (min_le_left _ _)
  · rw [hclass]; exact (classify_iff _).1
  · rw [hclass]; exact (classify_iff _).2.1
  · rw [hclass]; exact (classify_iff _).2.2

/-- C6 witness: concrete scores for a fully positive and a hit-free
message. -/
theorem claim6_witness :
    posHits "i love this great day" = 2 ∧
    (sentiment_score "i love this great day").1 = 1 ∧
    (sentiment_score "no hits here at all").1 = 0 := by
  refine ⟨by decide, ?_, (claim6_sentiment_score "no hits here at all").2.1 (by decide)⟩
  have h := (claim6_sentiment_score "i love this great day").1
  rw [h]
  rw [show posHits "i love this great day" = 2 from by decide,
    show negHits "i love this great day" = 0 from by decide]
  norm_num

/-- The line loop preserves header dates: the dates of all accumulated and
in-progress messages after folding are the starting ones plus the parseable
header-line dates, in order. -/
theorem loopDates (lines : List String) (st : List Message × Option Message) :
    ((lines.foldl parseStep st).1 ++ (lines.foldl parseStep st).2.toList).map
        (fun m => m.dt.date) =
      ((st.1 ++ st.2.toList).map fun m => m.dt.date) ++ hdrDates lines := by
  induction lines generalizing st with
  | nil => simp [hdrDates]
  | cons line rest ih =>
    rw [List.foldl_cons, ih]
    cases hc : headerCaptures line with
    | none =>
      cases hcur : st.2 with
      | none => simp [parseStep, hc, hcur, hdrDates]
      | some m => simp [parseStep, hc, hcur, hdrDates]
    | some caps =>
      cases ht : parse_timestamp caps.date caps.time with
      | none => simp [parseStep, hc, ht, hdrDates]
      | some dt => simp [parseStep, hc, ht, hdrDates]

/-- The per-day map of the raw fast path is the `sortedAdd` fold over the
header dates. -/
theorem rawDailyMap_eq_foldDates (lines : List String) (m0 : List (Int × Nat)) :
    lines.foldl (fun m line =>
      match headerCaptures line with
      | some caps =>
        match parse_timestamp caps.date caps.time with
        | some dt => sortedAdd dt.date 1 m
        | none => m
      | none => m) m0 =
    (hdrDates lines).foldl (fun m d => sortedAdd d 1 m) m0 := by
  induction lines generalizing m0 with
  | nil => simp [hdrDates]
  | cons line rest ih =>
    rw [List.foldl_cons, ih]
    cases hc : headerCaptures line with
    | none => simp [hdrDates, hc]
    | some caps =>
      cases ht : parse_timestamp caps.date caps.time with
      | none => simp [hdrDates, hc, ht]
      | some dt => simp [hdrDates, hc, ht]

/-- C2 counterexample: on a chat whose only message is a system banner, the
fast path counts the header line while the parsed-and-filtered path has no
messages, so the two disagree. -/
theorem claim2_counterexample :
    longest_streak_from_raw "[1/1/24, 1:00:00 PM] A: created group" ≠
      longest_streak (daily_counts
        (parse_messages "[1/1/24, 1:00:00 PM] A: created group")) ∧
    longest_streak_from_raw "[1/1/24, 1:00:00 PM] A: created group" =
      some (1, "2024-01-01", "2024-01-01") ∧
    longest_streak (daily_counts
      (parse_messages "[1/1/24, 1:00:00 PM] A: created group")) = none := by
  refine ⟨by decide, by decide, by decide⟩

/-- C2 (amended): the fast path agrees exactly with `longest_streak` over the
`daily_counts` of the parsed message list before system-message filtering
(the fast path counts every parseable header line, including system
banners). -/
theorem claim2_amended (raw : String) :
    longest_streak_from_raw raw =
      longest_streak (daily_counts (parseMessagesLoop (rustLines raw))) := by
  have hmap : rawDailyMap raw =
      (parseMessagesLoop (rustLines raw)).foldl
        (fun m msg => sortedAdd msg.dt.date 1 m) [] := by
    unfold rawDailyMap
    rw [rawDailyMap_eq_foldDates]
    have hdates := loopDates (rustLines raw) ([], none)
    simp only [List.append_nil, List.map_nil, List.nil_append] at hdates
    have hfold :
        (parseMessagesLoop (rustLines raw)).foldl
          (fun m msg => sortedAdd msg.dt.date 1 m) [] =
        ((parseMessagesLoop (rustLines raw)).map fun m => m.dt.date).foldl
          (fun m d => sortedAdd d 1 m) [] := by
      rw [List.foldl_map]
    rw [hfold]
    unfold parseMessagesLoop
    rw [hdates]
    simp
  unfold longest_streak_from_raw
  rw [hmap]
  by_cases hemp :
      (parseMessagesLoop (rustLines raw)).foldl
        (fun m msg => sortedAdd msg.dt.date 1 m) [] = []
  · rw [hemp]
    simp only [List.isEmpty_nil, if_true]
    have hdc : daily_counts (parseMessagesLoop (rustLines raw)) = [] := by
      unfold daily_counts
      rw [hemp]
      rfl
    rw [hdc]
    simp [longest_streak]
  · have hne : ((parseMessagesLoop (rustLines raw)).foldl
        (fun m msg => sortedAdd msg.dt.date 1 m) []).isEmpty = false := by
      simpa [List.isEmpty_iff] using hemp
    simp only [hne, Bool.false_eq_true, if_false]
    rfl

/-- `build_journey` returns `some` on every non-empty message list. -/
theorem build_journey_of_ne (msgs : List Message) (h : msgs ≠ []) :
    (build_journey msgs).isSome = true := by
  unfold build_journey
  have hemp : msgs.isEmpty = false := by simpa [List.isEmpty_iff] using h
  rw [hemp]
  simp only [Bool.false_eq_true, if_false]
  cases hs : sortByDt msgs with
  | nil =>
    exfalso
    apply h
    unfold sortByDt at hs
    have hperm := List.perm_insertionSort
      (fun a b : Message => NaiveDateTime.le a.dt b.dt = true) msgs
    rw [hs] at hperm
    exact hperm.symm.eq_nil
  | cons a t => rfl

/-- C3 counterexample: a chat with exactly two parsed messages — far fewer
than 10 — still gets a journey in its summary. -/
theorem claim3_counterexample :
    (parse_messages
      "[1/1/24, 1:00:00 PM] Alice: hi\n[1/1/24, 1:01:00 PM] Bob: hello").length
      = 2 ∧
    ((summarize
        "[1/1/24, 1:00:00 PM] Alice: hi\n[1/1/24, 1:01:00 PM] Bob: hello" 5
        5).toOption.map fun s => s.journey.isSome) = some true := by
  refine ⟨by decide, by decide⟩

/-- C3 (amended): the summary's journey field is present whenever `summarize`
succeeds at all — `build_journey` yields `some` on every non-empty message
list; the 10-message threshold governs only the `interesting_moments` list
inside the journey, which is empty below 10 messages. -/
theorem claim3_amended :
    (∀ raw nW nE s, summarize raw nW nE = Except.ok s →
      s.journey.isSome = true) ∧
    (∀ (messages : List Message) (likelyYou : String) (maxMoments : Nat),
      messages.length < 10 →
      find_interesting_moments messages likelyYou maxMoments = []) := by
  constructor
  · intro raw nW nE s h
    by_cases hemp : (parse_messages raw).isEmpty = true
    · simp [summarize, hemp] at h
    · have hemp2 : (parse_messages raw).isEmpty = false := by
        simpa using hemp
      simp only [summarize, hemp2, Bool.false_eq_true, if_false,
        Except.ok.injEq] at h
      rw [← h]
      exact build_journey_of_ne _ (by simpa [List.isEmpty_iff] using hemp2)
  · intro messages likelyYou maxMoments h
    unfold find_interesting_moments
    rw [if_pos h]

/-- C3 witness: at a concrete one-message chat the summary succeeds and its
journey is present; the empty list is below the 10-message threshold and has
no interesting moments. -/
theorem claim3_witness :
    ((summarize "[1/1/24, 1:00:00 PM] A: hi" 5 5).toOption.map
      fun s => s.journey.isSome) = some true ∧
    find_interesting_moments [] "" 4 = [] := by
  refine ⟨?_, claim3_amended.2 [] "" 4 (by decide)⟩
  have hsome : (summarize "[1/1/24, 1:00:00 PM] A: hi" 5 5).toOption.isSome
      = true := by decide
  cases h : summarize "[1/1/24, 1:00:00 PM] A: hi" 5 5 with
  | error e =>
    rw [h] at hsome
    simp [Except.toOption] at hsome
  | ok s =>
    have hj := claim3_amended.1 "[1/1/24, 1:00:00 PM] A: hi" 5 5 s h
    simp [Except.toOption, hj]

/-- `hashAdd` adds exactly `n` to the total of its key and nothing to any
other key. -/
theorem sumPairs_hashAdd (k : String) (n : Nat) (l : List (String × Nat))
    (s : String) :
    sumPairs (hashAdd k n l) s = sumPairs l s + (if k = s then n else 0) := by
  induction l with
  | nil =>
    by_cases h : k = s <;> simp [hashAdd, sumPairs, List.filter_cons, h]
  | cons p tl ih =>
    obtain ⟨k2, v⟩ := p
    by_cases h : k = k2
    · subst h
      by_cases h2 : k = s
      · subst h2
        simp [hashAdd, sumPairs, List.filter_cons]
        omega
      · simp [hashAdd, sumPairs, List.filter_cons, h2]
    · by_cases h2 : k2 = s
      · simp only [hashAdd, if_neg h]
        simp [sumPairs, List.filter_cons, h2] at ih ⊢
        omega
      · simp only [hashAdd, if_neg h]
        simp [sumPairs, List.filter_cons, h2] at ih ⊢
        omega

/-- `sumValues` only depends on the multiset of entries. -/
theorem sumValues_perm (l1 l2 : List Count) (hp : l1.Perm l2) (s : String) :
    sumValues l1 s = sumValues l2 s := by
  unfold sumValues
  exact List.Perm.sum_eq ((hp.filter _).map _)

/-- `sumValues` over the labelled copy of a raw counter list is `sumPairs`. -/
theorem sumValues_map (l : List (String × Nat)) (s : String) :
    sumValues (l.map fun p => { label := p.1, value := p.2 : Count }) s =
      sumPairs l s := by
  induction l with
  | nil => simp [sumValues, sumPairs]
  | cons p tl ih =>
    by_cases h : p.1 = s <;>
      simp [sumValues, sumPairs, List.filter_cons, h] at ih ⊢ <;> omega

/-- Decomposing the gap count at the head pair. -/
theorem countGapsOver_cons (m0 m : Message) (rest : List Message) (g : Int) :
    countGapsOver (m0 :: m :: rest) g =
      (if g < m.dt.minutesDiff m0.dt then 1 else 0) +
        countGapsOver (m :: rest) g := by
  by_cases h : g < m.dt.minutesDiff m0.dt <;>
    simp [countGapsOver, gapPairs, List.filter_cons, h] <;> omega

/-- Decomposing the credited initiations at the head pair. -/
theorem creditedInitiations_cons (m0 m : Message) (rest : List Message)
    (g : Int) (s : String) :
    creditedInitiations (m0 :: m :: rest) g s =
      (if g < m.dt.minutesDiff m0.dt ∧ m.sender = s then 1 else 0) +
        creditedInitiations (m :: rest) g s := by
  by_cases h1 : g < m.dt.minutesDiff m0.dt <;> by_cases h2 : m.sender = s <;>
    simp [creditedInitiations, gapPairs, List.filter_cons, h1, h2] <;> omega

/-- The initiation walk invariant: starting from a recorded state whose
previous timestamp is that of `m0`, the walk stays recorded, adds one to the
count per above-threshold gap, and credits exactly the senders that follow an
above-threshold gap. -/
theorem initWalk (g : Int) (rest : List Message) : ∀ (m0 : Message)
    (st : InitState), st.recorded = true → st.prevDt = m0.dt →
    ((rest.foldl (initStep g) st).recorded = true) ∧
    ((rest.foldl (initStep g) st).count =
      st.count + countGapsOver (m0 :: rest) g) ∧
    (∀ s, sumPairs (rest.foldl (initStep g) st).inits s =
      sumPairs st.inits s + creditedInitiations (m0 :: rest) g s) := by
  induction rest with
  | nil =>
    intro m0 st hrec hprev
    simp [hrec, countGapsOver, creditedInitiations, gapPairs]
  | cons m rest2 ih =>
    intro m0 st hrec hprev
    rw [List.foldl_cons]
    by_cases hgap : g < m.dt.minutesDiff st.prevDt
    · have hstep : initStep g st m =
          { inits := hashAdd m.sender 1 st.inits, count := st.count + 1,
            prevDt := m.dt, recorded := true } := by
        simp [initStep, hgap, hrec]
      rw [hstep]
      obtain ⟨h1, h2, h3⟩ := ih m
        { inits := hashAdd m.sender 1 st.inits, count := st.count + 1,
          prevDt := m.dt, recorded := true } rfl rfl
      replace h2 : (List.foldl (initStep g)
          { inits := hashAdd m.sender 1 st.inits, count := st.count + 1,
            prevDt := m.dt, recorded := true } rest2).count =
          st.count + 1 + countGapsOver (m :: rest2) g := h2
      replace h3 : ∀ s, sumPairs (List.foldl (initStep g)
          { inits := hashAdd m.sender 1 st.inits, count := st.count + 1,
            prevDt := m.dt, recorded := true } rest2).inits s =
          sumPairs (hashAdd m.sender 1 st.inits) s +
            creditedInitiations (m :: rest2) g s := h3
      rw [hprev] at hgap
      refine ⟨h1, ?_, ?_⟩
      · rw [h2, countGapsOver_cons, if_pos hgap]
        omega
      · intro s
        rw [h3 s, creditedInitiations_cons, sumPairs_hashAdd]
        by_cases hs : m.sender = s
        · have hc : g < m.dt.minutesDiff m0.dt ∧ m.sender = s := ⟨hgap, hs⟩
          rw [if_pos hc, if_pos hs]
          omega
        · have hc : ¬(g < m.dt.minutesDiff m0.dt ∧ m.sender = s) :=
            fun x => hs x.2
          rw [if_neg hc, if_neg hs]
          omega
    · have hstep : initStep g st m = { st with prevDt := m.dt } := by
        simp [initStep, hgap, hrec]
      rw [hstep]
      obtain ⟨h1, h2, h3⟩ := ih m { st with prevDt := m.dt } hrec rfl
      replace h2 : (List.foldl (initStep g) { st with prevDt := m.dt }
          rest2).count = st.count + countGapsOver (m :: rest2) g := h2
      replace h3 : ∀ s, sumPairs (List.foldl (initStep g)
          { st with prevDt := m.dt } rest2).inits s =
          sumPairs st.inits s + creditedInitiations (m :: rest2) g s := h3
      rw [hprev] at hgap
      refine ⟨h1, ?_, ?_⟩
      · rw [h2, countGapsOver_cons, if_neg hgap]
        omega
      · intro s
        have hc : ¬(g < m.dt.minutesDiff m0.dt ∧ m.sender = s) :=
          fun x => hgap x.1
        rw [h3 s, creditedInitiations_cons, if_neg hc]
        omega

/-- C5: for every non-empty message list and every gap threshold, the
conversation count is one plus the number of above-threshold gaps of the
chronologically sorted list, and each sender's initiation total is one for
the chronologically first message if it is theirs plus one per message of
theirs directly following an above-threshold gap. -/
theorem claim5_initiations (messages : List Message) (g : Int)
    (h : messages ≠ []) :
    (conversation_initiations_with_gap messages g).2 =
      1 + countGapsOver (sortByDt messages) g ∧
    ∀ s, sumValues (conversation_initiations_with_gap messages g).1 s =
      (if (sortByDt messages).head?.map (fun m => m.sender) = some s then 1
        else 0) +
        creditedInitiations (sortByDt messages) g s := by
  cases hs : sortByDt messages with
  | nil =>
    exfalso
    apply h
    unfold sortByDt at hs
    have hperm := List.perm_insertionSort
      (fun a b : Message => NaiveDateTime.le a.dt b.dt = true) messages
    rw [hs] at hperm
    exact hperm.symm.eq_nil
  | cons first rest =>
    unfold conversation_initiations_with_gap
    rw [hs]
    obtain ⟨h1, h2, h3⟩ := initWalk g rest first
      { inits := hashAdd first.sender 1 [], count := 1, prevDt := first.dt,
        recorded := true } rfl rfl
    replace h2 : (List.foldl (initStep g)
        { inits := hashAdd first.sender 1 [], count := 1, prevDt := first.dt,
          recorded := true } rest).count =
        1 + countGapsOver (first :: rest) g := h2
    replace h3 : ∀ s, sumPairs (List.foldl (initStep g)
        { inits := hashAdd first.sender 1 [], count := 1, prevDt := first.dt,
          recorded := true } rest).inits s =
        sumPairs (hashAdd first.sender 1 []) s +
          creditedInitiations (first :: rest) g s := h3
    constructor
    · exact h2
    · intro s
      show sumValues (sortCountsDesc (((List.foldl (initStep g)
          { inits := hashAdd first.sender 1 [], count := 1, prevDt := first.dt,
            recorded := true } rest).inits).map fun p =>
          { label := p.1, value := p.2 : Count })) s = _
      have hperm : (sortCountsDesc (((List.foldl (initStep g)
          { inits := hashAdd first.sender 1 [], count := 1, prevDt := first.dt,
            recorded := true } rest).inits).map fun p =>
          { label := p.1, value := p.2 : Count })).Perm
          (((List.foldl (initStep g)
          { inits := hashAdd first.sender 1 [], count := 1, prevDt := first.dt,
            recorded := true } rest).inits).map fun p =>
          { label := p.1, value := p.2 : Count }) := by
        unfold sortCountsDesc
        exact List.perm_insertionSort _ _
      rw [sumValues_perm _ _ hperm s, sumValues_map, h3 s, sumPairs_hashAdd]
      have hhead : ((first :: rest).head?.map fun m => m.sender) =
          some first.sender := rfl
      rw [hhead]
      by_cases hfs : first.sender = s
      · have ho : some first.sender = some s := by rw [hfs]
        rw [if_pos hfs, if_pos ho]
        simp [sumPairs]
      · have ho : ¬(some first.sender = some s) :=
          fun hc => hfs (Option.some.inj hc)
        rw [if_neg hfs, if_neg ho]
        simp [sumPairs]

/-- C5 witness: two two-message clusters 32 minutes apart give conversation
count 2, with Bob — sender of the first message after the gap — credited one
initiation. -/
theorem claim5_witness :
    ((conversation_initiations_with_gap
        [⟨⟨19723, 0⟩, "Alice", "hi"⟩, ⟨⟨19723, 60⟩, "Bob", "hey"⟩,
         ⟨⟨19723, 2000⟩, "Bob", "back"⟩, ⟨⟨19723, 2060⟩, "Alice", "yo"⟩]
        30).2 =
      1 + countGapsOver (sortByDt
        [⟨⟨19723, 0⟩, "Alice", "hi"⟩, ⟨⟨19723, 60⟩, "Bob", "hey"⟩,
         ⟨⟨19723, 2000⟩, "Bob", "back"⟩, ⟨⟨19723, 2060⟩, "Alice", "yo"⟩]) 30) ∧
    sumValues (conversation_initiations_with_gap
        [⟨⟨19723, 0⟩, "Alice", "hi"⟩, ⟨⟨19723, 60⟩, "Bob", "hey"⟩,
         ⟨⟨19723, 2000⟩, "Bob", "back"⟩, ⟨⟨19723, 2060⟩, "Alice", "yo"⟩]
        30).1 "Bob" =
      (if (sortByDt
        [⟨⟨19723, 0⟩, "Alice", "hi"⟩, ⟨⟨19723, 60⟩, "Bob", "hey"⟩,
         ⟨⟨19723, 2000⟩, "Bob", "back"⟩, ⟨⟨19723, 2060⟩, "Alice", "yo"⟩]).head?.map
          (fun m => m.sender) = some "Bob" then 1 else 0) +
        creditedInitiations (sortByDt
        [⟨⟨19723, 0⟩, "Alice", "hi"⟩, ⟨⟨19723, 60⟩, "Bob", "hey"⟩,
         ⟨⟨19723, 2000⟩, "Bob", "back"⟩, ⟨⟨19723, 2060⟩, "Alice", "yo"⟩]) 30
          "Bob" ∧
    (conversation_initiations_with_gap
        [⟨⟨19723, 0⟩, "Alice", "hi"⟩, ⟨⟨19723, 60⟩, "Bob", "hey"⟩,
         ⟨⟨19723, 2000⟩, "Bob", "back"⟩, ⟨⟨19723, 2060⟩, "Alice", "yo"⟩]
        30).2 = 2 := by
  refine ⟨(claim5_initiations _ 30 (List.cons_ne_nil _ _)).1,
    (claim5_initiations _ 30 (List.cons_ne_nil _ _)).2 "Bob", by decide⟩

/-- The chrono order on naive datetimes is total. -/
theorem le_total_dt (a b : NaiveDateTime) :
    NaiveDateTime.le a b = true ∨ NaiveDateTime.le b a = true := by
  simp [NaiveDateTime.le]
  omega

/-- The chrono order on naive datetimes is transitive. -/
theorem le_trans_dt (a b c : NaiveDateTime) :
    NaiveDateTime.le a b = true → NaiveDateTime.le b c = true →
    NaiveDateTime.le a c = true := by
  simp [NaiveDateTime.le]
  omega

/-- The chrono order refines the day order. -/
theorem le_days_mono (a b : NaiveDateTime) :
    NaiveDateTime.le a b = true → a.days ≤ b.days := by
  simp [NaiveDateTime.le]
  omega

/-- The last element of a chronologically sorted non-empty message list
exists, belongs to the list, and has the largest day number. -/
theorem last_bound_msg : ∀ (l : List Message) (d : Message),
    ∃ L, (d :: l).getLast? = some L ∧ L ∈ d :: l ∧
      (List.Pairwise (fun a b : Message => NaiveDateTime.le a.dt b.dt = true)
          (d :: l) →
        ∀ x ∈ d :: l, x.dt.days ≤ L.dt.days) := by
  intro l
  induction l with
  | nil =>
    intro d
    refine ⟨d, rfl, List.mem_cons_self d [], fun _ x hx => ?_⟩
    rcases List.mem_cons.mp hx with h1 | h1
    · rw [h1]
    · cases h1
  | cons e tl ih =>
    intro d
    obtain ⟨L, h1, h2, h3⟩ := ih e
    refine ⟨L, ?_, List.mem_cons_of_mem d h2, ?_⟩
    · rw [List.getLast?_cons_cons]
      exact h1
    · intro hp x hx
      have hp2 := List.pairwise_cons.mp hp
      rcases List.mem_cons.mp hx with h4 | h4
      · rw [h4]
        exact le_days_mono _ _ (hp2.1 L h2)
      · exact h3 hp2.2 x h4

/-- Folding `min` returns the least element when one is designated. -/
theorem foldl_min_eq : ∀ (ds : List Int) (d L : Int), (d = L ∨ L ∈ ds) →
    (∀ x ∈ ds, L ≤ x) → L ≤ d → ds.foldl min d = L := by
  intro ds
  induction ds with
  | nil =>
    intro d L hmem _ hle
    rcases hmem with h1 | h1
    · exact h1
    · cases h1
  | cons e tl ih =>
    intro d L hmem hb hle
    rw [List.foldl_cons]
    have he : L ≤ e := hb e (List.mem_cons_self e tl)
    rcases hmem with h1 | h1
    · exact ih (min d e) L (Or.inl (by omega))
        (fun x hx => hb x (List.mem_cons_of_mem _ hx)) (by omega)
    · rcases List.mem_cons.mp h1 with h2 | h2
      · exact ih (min d e) L (Or.inl (by omega))
          (fun x hx => hb x (List.mem_cons_of_mem _ hx)) (by omega)
      · exact ih (min d e) L (Or.inr h2)
          (fun x hx => hb x (List.mem_cons_of_mem _ hx)) (by omega)

/-- Folding `max` returns the greatest element when one is designated. -/
theorem foldl_max_eq : ∀ (ds : List Int) (d L : Int), (d = L ∨ L ∈ ds) →
    (∀ x ∈ ds, x ≤ L) → d ≤ L → ds.foldl max d = L := by
  intro ds
  induction ds with
  | nil =>
    intro d L hmem _ hle
    rcases hmem with h1 | h1
    · exact h1
    · cases h1
  | cons e tl ih =>
    intro d L hmem hb hle
    rw [List.foldl_cons]
    have he : e ≤ L := hb e (List.mem_cons_self e tl)
    rcases hmem with h1 | h1
    · exact ih (max d e) L (Or.inl (by omega))
        (fun x hx => hb x (List.mem_cons_of_mem _ hx)) (by omega)
    · rcases List.mem_cons.mp h1 with h2 | h2
      · exact ih (max d e) L (Or.inl (by omega))
          (fun x hx => hb x (List.mem_cons_of_mem _ hx)) (by omega)
      · exact ih (max d e) L (Or.inr h2)
          (fun x hx => hb x (List.mem_cons_of_mem _ hx)) (by omega)

/-- `dateRangeGo` is empty past the end of the range. -/
theorem dateRangeGo_nil (fuel : Nat) (cursor endD : Int) (h : endD < cursor) :
    dateRangeGo fuel cursor endD = [] := by
  cases fuel with
  | zero => rfl
  | succ f =>
    unfold dateRangeGo
    rw [if_neg (by omega)]

/-- With enough fuel, `dateRangeGo` enumerates the whole inclusive range. -/
theorem dateRangeGo_len : ∀ (fuel : Nat) (cursor endD : Int),
    cursor ≤ endD → (endD - cursor).toNat + 1 ≤ fuel →
    (dateRangeGo fuel cursor endD).length = (endD - cursor).toNat + 1 := by
  intro fuel
  induction fuel with
  | zero =>
    intro c e h1 h2
    omega
  | succ f ih =>
    intro c e h1 h2
    unfold dateRangeGo
    rw [if_pos h1, List.length_cons]
    by_cases h3 : c + 1 ≤ e
    · rw [ih (c + 1) e h3 (by omega)]
      omega
    · rw [dateRangeGo_nil f (c + 1) e (by omega)]
      simp only [List.length_nil]
      omega

/-- `addIfPresent` never changes the length of the map. -/
theorem addIfPresent_length {K : Type} [DecidableEq K] (k : K) (n : Nat) :
    ∀ (l : List (K × Nat)), (addIfPresent k n l).length = l.length := by
  intro l
  induction l with
  | nil => rfl
  | cons p tl ih =>
    obtain ⟨k2, v⟩ := p
    by_cases h : k = k2 <;> simp [addIfPresent, h, ih]

/-- The `timeline` count-adding pass preserves the length of the base. -/
theorem foldl_addIfPresent_length (msgs : List Message) :
    ∀ (base : List (Int × Nat)),
    (msgs.foldl (fun m msg => addIfPresent msg.dt.date 1 m) base).length =
      base.length := by
  induction msgs with
  | nil => intro base; rfl
  | cons m tl ih =>
    intro base
    rw [List.foldl_cons, ih, addIfPresent_length]

/-- Keys of `sortedAdd` are the old keys plus possibly the new one. -/
theorem sortedAdd_keys_sub {K : Type} [LinearOrder K] (k : K) (n : Nat) :
    ∀ (l : List (K × Nat)) (x : K), x ∈ (sortedAdd k n l).map Prod.fst →
      x = k ∨ x ∈ l.map Prod.fst := by
  intro l
  induction l with
  | nil =>
    intro x hx
    simp [sortedAdd] at hx
    exact Or.inl hx
  | cons p tl ih =>
    obtain ⟨k2, v⟩ := p
    intro x hx
    unfold sortedAdd at hx
    by_cases h1 : k < k2
    · rw [if_pos h1] at hx
      simp at hx ⊢
      tauto
    · rw [if_neg h1] at hx
      by_cases h2 : k = k2
      · rw [if_pos h2] at hx
        simp at hx ⊢
        rcases hx with h3 | h3
        · exact Or.inr (Or.inl h3)
        · exact Or.inr (Or.inr h3)
      · rw [if_neg h2] at hx
        simp at hx ⊢
        rcases hx with h3 | h3
        · exact Or.inr (Or.inl h3)
        · rcases ih x (by simpa using h3) with h4 | h4
          · exact Or.inl h4
          · exact Or.inr (Or.inr (by simpa using h4))

/-- `sortedAdd` keeps the key list strictly sorted. -/
theorem sortedAdd_pairwise {K : Type} [LinearOrder K] (k : K) (n : Nat) :
    ∀ (l : List (K × Nat)),
      List.Pairwise (fun a b : K => a < b) (l.map Prod.fst) →
      List.Pairwise (fun a b : K => a < b)
        ((sortedAdd k n l).map Prod.fst) := by
  intro l
  induction l with
  | nil =>
    intro _
    simp [sortedAdd]
  | cons p tl ih =>
    obtain ⟨k2, v⟩ := p
    intro hp
    simp only [List.map_cons] at hp
    have hp2 := List.pairwise_cons.mp hp
    unfold sortedAdd
    by_cases h1 : k < k2
    · rw [if_pos h1]
      simp only [List.map_cons]
      refine List.pairwise_cons.mpr ⟨?_, hp⟩
      intro y hy
      rcases List.mem_cons.mp hy with h3 | h3
      · rw [h3]; exact h1
      · exact lt_trans h1 (hp2.1 y h3)
    · rw [if_neg h1]
      by_cases h2 : k = k2
      · rw [if_pos h2]
        simpa using hp
      · rw [if_neg h2]
        simp only [List.map_cons]
        refine List.pairwise_cons.mpr ⟨?_, ih hp2.2⟩
        intro y hy
        rcases sortedAdd_keys_sub k n tl y hy with h3 | h3
        · rw [h3]
          rcases lt_trichotomy k k2 with h4 | h4 | h4
          · exact absurd h4 h1
          · exact absurd h4 h2
          · exact h4
        · exact hp2.1 y h3

/-- A strictly increasing integer list inside an inclusive interval is no
longer than the interval. -/
theorem strictIncr_length_le : ∀ (l : List Int) (lo hi : Int),
    List.Pairwise (fun a b : Int => a < b) l →
    (∀ x ∈ l, lo ≤ x ∧ x ≤ hi) → l.length ≤ (hi - lo + 1).toNat := by
  intro l
  induction l with
  | nil =>
    intro lo hi _ _
    simp
  | cons k tl ih =>
    intro lo hi hp hb
    have hk := hb k (List.mem_cons_self k tl)
    have hp2 := List.pairwise_cons.mp hp
    have htl := ih (k + 1) hi hp2.2
      (fun x hx => ⟨by have := hp2.1 x hx; omega,
        (hb x (List.mem_cons_of_mem _ hx)).2⟩)
    simp only [List.length_cons]
    omega

/-- The daily-count fold keeps its keys strictly sorted, and every key comes
from the accumulator or from some message date. -/
theorem daily_fold_keys (msgs : List Message) : ∀ (acc : List (Int × Nat)),
    List.Pairwise (fun a b : Int => a < b) (acc.map Prod.fst) →
    List.Pairwise (fun a b : Int => a < b)
      ((msgs.foldl (fun m msg => sortedAdd msg.dt.date 1 m) acc).map
        Prod.fst) ∧
    ∀ x ∈ (msgs.foldl (fun m msg => sortedAdd msg.dt.date 1 m) acc).map
        Prod.fst,
      x ∈ acc.map Prod.fst ∨ ∃ mm ∈ msgs, x = mm.dt.date := by
  induction msgs with
  | nil =>
    intro acc hp
    exact ⟨hp, fun x hx => Or.inl hx⟩
  | cons m tl ih =>
    intro acc hp
    rw [List.foldl_cons]
    obtain ⟨h1, h2⟩ := ih (sortedAdd m.dt.date 1 acc)
      (sortedAdd_pairwise _ _ _ hp)
    refine ⟨h1, fun x hx => ?_⟩
    rcases h2 x hx with h3 | h3
    · rcases sortedAdd_keys_sub _ _ _ _ h3 with h4 | h4
      · exact Or.inr ⟨m, List.mem_cons_self m tl, h4⟩
      · exact Or.inl h4
    · obtain ⟨mm, hmm, he⟩ := h3
      exact Or.inr ⟨mm, List.mem_cons_of_mem _ hmm, he⟩

/-- C7: for every non-empty message list the timeline has exactly one entry
per calendar day of the inclusive span between the earliest and latest
message dates, and the daily table — which only has entries for days with
messages — is never longer. -/
theorem claim7_timeline (messages : List Message) (h : messages ≠ []) :
    (timeline messages).length =
      (maxDays messages - minDays messages).toNat + 1 ∧
    (daily_counts messages).length ≤ (timeline messages).length := by
  cases hs : sortByDt messages with
  | nil =>
    exfalso
    apply h
    unfold sortByDt at hs
    have hperm := List.perm_insertionSort
      (fun a b : Message => NaiveDateTime.le a.dt b.dt = true) messages
    rw [hs] at hperm
    exact hperm.symm.eq_nil
  | cons first rest =>
    have hsorted : List.Pairwise
        (fun a b : Message => NaiveDateTime.le a.dt b.dt = true)
        (first :: rest) := by
      rw [← hs]
      unfold sortByDt
      haveI : IsTotal Message
          (fun a b : Message => NaiveDateTime.le a.dt b.dt = true) :=
        ⟨fun a b => le_total_dt a.dt b.dt⟩
      haveI : IsTrans Message
          (fun a b : Message => NaiveDateTime.le a.dt b.dt = true) :=
        ⟨fun a b c => le_trans_dt a.dt b.dt c.dt⟩
      exact List.sorted_insertionSort _ _
    have hperm : (first :: rest).Perm messages := by
      rw [← hs]
      unfold sortByDt
      exact List.perm_insertionSort _ _
    obtain ⟨Lm, hL, hLmem, hLbound⟩ := last_bound_msg rest first
    have hLb := hLbound hsorted
    have hheadb : ∀ x ∈ first :: rest, first.dt.days ≤ x.dt.days := by
      intro x hx
      rcases List.mem_cons.mp hx with h1 | h1
      · rw [h1]
      · exact le_days_mono _ _ ((List.pairwise_cons.mp hsorted).1 x h1)
    have hss : first.dt.days ≤ Lm.dt.days := hheadb Lm hLmem
    have hmb : ∀ x ∈ messages, first.dt.days ≤ x.dt.days ∧
        x.dt.days ≤ Lm.dt.days := by
      intro x hx
      have hx2 : x ∈ first :: rest := hperm.mem_iff.mpr hx
      exact ⟨hheadb x hx2, hLb x hx2⟩
    have hmin : minDays messages = first.dt.days := by
      cases hm : messages with
      | nil => exact absurd hm h
      | cons m0 tl =>
        show tl.foldl (fun acc x => min acc x.dt.days) m0.dt.days =
          first.dt.days
        rw [← List.foldl_map (fun x : Message => x.dt.days) min]
        apply foldl_min_eq
        · have hfm : first ∈ m0 :: tl := by
            rw [← hm]
            exact hperm.subset (List.mem_cons_self first rest)
          rcases List.mem_cons.mp hfm with h1 | h1
          · exact Or.inl (by rw [h1])
          · exact Or.inr (List.mem_map.mpr ⟨first, h1, rfl⟩)
        · intro x hx
          obtain ⟨y, hy, rfl⟩ := List.mem_map.mp hx
          exact (hmb y (by rw [hm]; exact List.mem_cons_of_mem _ hy)).1
        · exact (hmb m0 (by rw [hm]; exact List.mem_cons_self m0 tl)).1
    have hmax : maxDays messages = Lm.dt.days := by
      cases hm : messages with
      | nil => exact absurd hm h
      | cons m0 tl =>
        show tl.foldl (fun acc x => max acc x.dt.days) m0.dt.days =
          Lm.dt.days
        rw [← List.foldl_map (fun x : Message => x.dt.days) max]
        apply foldl_max_eq
        · have hfm : Lm ∈ m0 :: tl := by
            rw [← hm]
            exact hperm.subset hLmem
          rcases List.mem_cons.mp hfm with h1 | h1
          · exact Or.inl (by rw [h1])
          · exact Or.inr (List.mem_map.mpr ⟨Lm, h1, rfl⟩)
        · intro x hx
          obtain ⟨y, hy, rfl⟩ := List.mem_map.mp hx
          exact (hmb y (by rw [hm]; exact List.mem_cons_of_mem _ hy)).2
        · exact (hmb m0 (by rw [hm]; exact List.mem_cons_self m0 tl)).2
    have htl : timeline messages = (((first :: rest).foldl
        (fun m msg => addIfPresent msg.dt.date 1 m)
        (dateRangeGo ((Lm.dt.date - first.dt.date).toNat + 1) first.dt.date
          Lm.dt.date)).map
        fun p => { label := formatDateISO p.1, value := p.2 : Count }) := by
      unfold timeline
      rw [hs]
      show (((first :: rest).foldl (fun m msg => addIfPresent msg.dt.date 1 m)
        (dateRangeGo
          ((((first :: rest).getLast?.map fun m => m.dt.date).getD
              first.dt.date - first.dt.date).toNat + 1) first.dt.date
          (((first :: rest).getLast?.map fun m => m.dt.date).getD
            first.dt.date))).map
        fun p => { label := formatDateISO p.1, value := p.2 : Count }) = _
      rw [hL]
      rfl
    have hlen : (timeline messages).length =
        (Lm.dt.days - first.dt.days).toNat + 1 := by
      rw [htl, List.length_map, foldl_addIfPresent_length]
      have hss2 : first.dt.date ≤ Lm.dt.date := hss
      rw [dateRangeGo_len _ _ _ hss2 (le_refl _)]
      rfl
    constructor
    · rw [hlen, hmin, hmax]
    · rw [hlen]
      have hkeys := daily_fold_keys messages [] (by simp)
      have hdcl : (daily_counts messages).length =
          ((messages.foldl (fun m msg => sortedAdd msg.dt.date 1 m) []).map
            Prod.fst).length := by
        unfold daily_counts
        rw [List.length_map, List.length_map]
      rw [hdcl]
      have hb := strictIncr_length_le _ first.dt.days Lm.dt.days hkeys.1
        (fun x hx => by
          rcases hkeys.2 x hx with h1 | h1
          · simp at h1
          · obtain ⟨mm, hmm, rfl⟩ := h1
            exact hmb mm hmm)
      omega

/-- C7 witness: two messages three days apart give a four-day timeline and a
two-entry daily table. -/
theorem claim7_witness :
    (timeline [⟨⟨100, 0⟩, "A", "x"⟩, ⟨⟨103, 5⟩, "B", "y"⟩]).length =
      (maxDays [⟨⟨100, 0⟩, "A", "x"⟩, ⟨⟨103, 5⟩, "B", "y"⟩] -
        minDays [⟨⟨100, 0⟩, "A", "x"⟩, ⟨⟨103, 5⟩, "B", "y"⟩]).toNat + 1 ∧
    (daily_counts [⟨⟨100, 0⟩, "A", "x"⟩, ⟨⟨103, 5⟩, "B", "y"⟩]).length ≤
      (timeline [⟨⟨100, 0⟩, "A", "x"⟩, ⟨⟨103, 5⟩, "B", "y"⟩]).length :=
  claim7_timeline [⟨⟨100, 0⟩, "A", "x"⟩, ⟨⟨103, 5⟩, "B", "y"⟩]
    (List.cons_ne_nil _ _)

/-- Keys of `hashAdd` are the old keys plus possibly the new one. -/
theorem hashAdd_keys_sub {K : Type} [DecidableEq K] (k : K) (n : Nat) :
    ∀ (l : List (K × Nat)) (x : K), x ∈ (hashAdd k n l).map Prod.fst →
      x = k ∨ x ∈ l.map Prod.fst := by
  intro l
  induction l with
  | nil =>
    intro x hx
    simp [hashAdd] at hx
    exact Or.inl hx
  | cons p tl ih =>
    obtain ⟨k2, v⟩ := p
    intro x hx
    unfold hashAdd at hx
    by_cases h : k = k2
    · rw [if_pos h] at hx
      simp at hx ⊢
      tauto
    · rw [if_neg h] at hx
      simp at hx ⊢
      rcases hx with h1 | h1
      · tauto
      · rcases ih x (by simpa using h1) with h2 | h2
        · tauto
        · exact Or.inr (Or.inr (by simpa using h2))

/-- The per-token fold of `top_words` never introduces a short purely
alphanumeric key. -/
theorem wordFoldInv (tokens : List String) : ∀ (m2 : List (String × Nat)),
    (∀ k ∈ m2.map Prod.fst, shortAlnumToken k = false) →
    ∀ k ∈ (tokens.foldl (fun m2 token =>
      if shortAlnumToken token then m2 else hashAdd token 1 m2) m2).map
        Prod.fst,
      shortAlnumToken k = false := by
  induction tokens with
  | nil =>
    intro m2 hm
    exact hm
  | cons t ts ih =>
    intro m2 hm
    rw [List.foldl_cons]
    by_cases h : shortAlnumToken t = true
    · rw [if_pos h]
      exact ih m2 hm
    · rw [if_neg h]
      apply ih
      intro k hk
      rcases hashAdd_keys_sub t 1 m2 k hk with h1 | h1
      · rw [h1]
        simpa using h
      · exact hm k h1

/-- The per-message fold of `top_words` never introduces a short purely
alphanumeric key. -/
theorem msgWordFoldInv (messages : List Message) (filterStop : Bool)
    (stop : List String) : ∀ (m : List (String × Nat)),
    (∀ k ∈ m.map Prod.fst, shortAlnumToken k = false) →
    ∀ k ∈ (messages.foldl (fun m msg =>
        if is_media_omitted_message msg.text then m
        else (tokenize msg.text filterStop stop).foldl (fun m2 token =>
          if shortAlnumToken token then m2 else hashAdd token 1 m2) m)
        m).map Prod.fst,
      shortAlnumToken k = false := by
  induction messages with
  | nil =>
    intro m hm
    exact hm
  | cons msg tl ih =>
    intro m hm
    rw [List.foldl_cons]
    by_cases h : is_media_omitted_message msg.text = true
    · rw [if_pos h]
      exact ih m hm
    · rw [if_neg h]
      exact ih _ (wordFoldInv _ m hm)

/-- C9: `top_words` never emits a token shorter than three bytes whose
characters are all alphanumeric, whatever the stopword flag; `word_cloud`
keeps every non-empty token, so the same chat yields "hi" in the word cloud
but nothing in the word table. -/
theorem claim9_short_tokens :
    (∀ (messages : List Message) (tk : Nat) (filterStop : Bool)
        (stop : List String) (c : Count),
        c ∈ top_words messages tk filterStop stop →
        shortAlnumToken c.label = false) ∧
    word_cloud [⟨⟨0, 0⟩, "A", "hi hi"⟩] 10 false [] =
      [{ label := "hi", value := 2 }] ∧
    top_words [⟨⟨0, 0⟩, "A", "hi hi"⟩] 10 false [] = [] := by
  refine ⟨?_, by decide, by decide⟩
  intro messages tk filterStop stop c hc
  simp only [top_words] at hc
  have hc2 := List.take_subset tk _ hc
  have hc3 : c ∈ (messages.foldl (fun m msg =>
      if is_media_omitted_message msg.text then m
      else (tokenize msg.text filterStop stop).foldl (fun m2 token =>
        if shortAlnumToken token then m2 else hashAdd token 1 m2) m)
      []).map (fun p => { label := p.1, value := p.2 : Count }) := by
    unfold sortCountsDesc at hc2
    exact (List.perm_insertionSort _ _).subset hc2
  obtain ⟨p, hp, he⟩ := List.mem_map.mp hc3
  have hl : c.label = p.1 := by rw [← he]
  rw [hl]
  exact msgWordFoldInv messages filterStop stop [] (by simp) p.1
    (List.mem_map.mpr ⟨p, hp, rfl⟩)

/-- C9 witness: a concrete chat whose only token is five bytes long keeps it
in `top_words`, and the theorem certifies it is not a short alphanumeric
token. -/
theorem claim9_witness :
    shortAlnumToken ({ label := "hello", value := 2 : Count }).label =
      false :=
  claim9_short_tokens.1 [⟨⟨0, 0⟩, "A", "hello hello"⟩] 10 false []
    { label := "hello", value := 2 } (by decide)


/-! ## Claim C4: date disambiguation in `parse_timestamp`

The development below proves, for every date token of the header shape
(two one-or-two-digit runs and a two-to-four-digit year run joined by a
single separator), that the separator and the month-first heuristic decide
the civil month and day of the parsed timestamp exactly as the source's
format-list order does, and that the year normalization adds 2000 to any
chrono-parsed year below 100.  The calendar algorithms are verified by a
full round-trip theorem. -/

set_option maxHeartbeats 4000000 in
theorem yoe_ident (yoe doy : Int) (h1 : 0 ≤ yoe) (h2 : yoe ≤ 399) (h3 : 0 ≤ doy)
    (h4 : doy ≤ 364 ∨ (doy = 365 ∧ ((yoe + 1) % 4 = 0 ∧ (yoe + 1) % 100 ≠ 0 ∨ yoe = 399))) :
    (365 * yoe + yoe / 4 - yoe / 100 + doy
      - (365 * yoe + yoe / 4 - yoe / 100 + doy) / 1460
      + (365 * yoe + yoe / 4 - yoe / 100 + doy) / 36524
      - (365 * yoe + yoe / 4 - yoe / 100 + doy) / 146096) / 365 = yoe := by
  interval_cases yoe <;> omega

set_option maxHeartbeats 2000000 in
theorem civilFromDays_of_parts (era yoe mp dd : Int)
    (h1 : 0 ≤ yoe) (h2 : yoe ≤ 399) (h3 : 0 ≤ mp) (h4 : mp ≤ 11) (h5 : 1 ≤ dd)
    (h6 : (153 * mp + 2) / 5 + dd - 1 ≤ 364 ∨
      ((153 * mp + 2) / 5 + dd - 1 = 365 ∧
        ((yoe + 1) % 4 = 0 ∧ (yoe + 1) % 100 ≠ 0 ∨ yoe = 399)))
    (h7 : (mp ≤ 10 → dd ≤ (153 * (mp + 1) + 2) / 5 - (153 * mp + 2) / 5) ∧
      (mp = 11 → dd ≤ 29)) :
    civilFromDays (146097 * era +
        (365 * yoe + yoe / 4 - yoe / 100 + ((153 * mp + 2) / 5 + dd - 1))
        - 719468) =
      (if 10 ≤ mp then era * 400 + yoe + 1 else era * 400 + yoe,
       (if mp < 10 then mp + 3 else mp - 9).toNat, dd.toNat) := by
  have f146097 : ∀ a : Int, a.fdiv 146097 = a / 146097 := fun a => Int.fdiv_eq_ediv a (by norm_num)
  have f5 : ∀ a : Int, a.fdiv 5 = a / 5 := fun a => Int.fdiv_eq_ediv a (by norm_num)
  have f4 : ∀ a : Int, a.fdiv 4 = a / 4 := fun a => Int.fdiv_eq_ediv a (by norm_num)
  have f100 : ∀ a : Int, a.fdiv 100 = a / 100 := fun a => Int.fdiv_eq_ediv a (by norm_num)
  have f1460 : ∀ a : Int, a.fdiv 1460 = a / 1460 := fun a => Int.fdiv_eq_ediv a (by norm_num)
  have f36524 : ∀ a : Int, a.fdiv 36524 = a / 36524 := fun a => Int.fdiv_eq_ediv a (by norm_num)
  have f146096 : ∀ a : Int, a.fdiv 146096 = a / 146096 := fun a => Int.fdiv_eq_ediv a (by norm_num)
  have f153 : ∀ a : Int, a.fdiv 153 = a / 153 := fun a => Int.fdiv_eq_ediv a (by norm_num)
  have f365 : ∀ a : Int, a.fdiv 365 = a / 365 := fun a => Int.fdiv_eq_ediv a (by norm_num)
  have hyi := yoe_ident yoe ((153 * mp + 2) / 5 + dd - 1) h1 h2 (by omega) h6
  unfold civilFromDays
  simp only [f146097, f5, f4, f100, f1460, f36524, f146096, f153, f365, Prod.mk.injEq]
  have hz : 146097 * era +
      (365 * yoe + yoe / 4 - yoe / 100 + ((153 * mp + 2) / 5 + dd - 1))
      - 719468 + 719468 =
      146097 * era + (365 * yoe + yoe / 4 - yoe / 100 + ((153 * mp + 2) / 5 + dd - 1)) := by
    omega
  rw [hz]
  have hera : (146097 * era +
      (365 * yoe + yoe / 4 - yoe / 100 + ((153 * mp + 2) / 5 + dd - 1))) / 146097 = era := by
    omega
  rw [hera]
  have hdoe : 146097 * era +
      (365 * yoe + yoe / 4 - yoe / 100 + ((153 * mp + 2) / 5 + dd - 1)) - era * 146097 =
      365 * yoe + yoe / 4 - yoe / 100 + ((153 * mp + 2) / 5 + dd - 1) := by
    omega
  rw [hdoe, hyi]
  have hdoy : 365 * yoe + yoe / 4 - yoe / 100 + ((153 * mp + 2) / 5 + dd - 1) -
      (365 * yoe + yoe / 4 - yoe / 100) = (153 * mp + 2) / 5 + dd - 1 := by
    omega
  rw [hdoy]
  have hmp2 : (5 * ((153 * mp + 2) / 5 + dd - 1) + 2) / 153 = mp := by
    interval_cases mp <;> omega
  rw [hmp2]
  have hdd : (153 * mp + 2) / 5 + dd - 1 - (153 * mp + 2) / 5 + 1 = dd := by
    omega
  rw [hdd]
  refine ⟨?_, ?_, ?_⟩ <;> (try split_ifs) <;> omega

theorem daysFromCivil_parts (y : Int) (m d : Nat) :
    daysFromCivil y m d =
      146097 * ((if m ≤ 2 then y - 1 else y) / 400) +
        (365 * ((if m ≤ 2 then y - 1 else y) -
            ((if m ≤ 2 then y - 1 else y) / 400) * 400)
          + ((if m ≤ 2 then y - 1 else y) -
            ((if m ≤ 2 then y - 1 else y) / 400) * 400) / 4
          - ((if m ≤ 2 then y - 1 else y) -
            ((if m ≤ 2 then y - 1 else y) / 400) * 400) / 100
          + ((153 * (((m : Int) + 9) % 12) + 2) / 5 + (d : Int) - 1))
        - 719468 := by
  have f400 : ∀ a : Int, a.fdiv 400 = a / 400 := fun a => Int.fdiv_eq_ediv a (by norm_num)
  have f5 : ∀ a : Int, a.fdiv 5 = a / 5 := fun a => Int.fdiv_eq_ediv a (by norm_num)
  have f4 : ∀ a : Int, a.fdiv 4 = a / 4 := fun a => Int.fdiv_eq_ediv a (by norm_num)
  have f100 : ∀ a : Int, a.fdiv 100 = a / 100 := fun a => Int.fdiv_eq_ediv a (by norm_num)
  unfold daysFromCivil
  simp only [f400, f5, f4, f100, Int.ofNat_eq_natCast]
  split_ifs <;> omega

set_option maxHeartbeats 4000000 in
theorem civil_days_roundtrip (y : Int) (m d : Nat) (hm1 : 1 ≤ m) (hm2 : m ≤ 12)
    (hd1 : 1 ≤ d) (hd2 : d ≤ daysInMonth y m) :
    civilFromDays (daysFromCivil y m d) = (y, m, d) := by
  have hleap : isLeap y = true ↔ ((y % 4 = 0 ∧ ¬(y % 100 = 0)) ∨ y % 400 = 0) := by
    simp [isLeap]
  rw [daysFromCivil_parts y m d]
  by_cases hmle : m ≤ 2
  · simp only [if_pos hmle]
    rw [civilFromDays_of_parts ((y - 1) / 400) ((y - 1) - ((y - 1) / 400) * 400)
      (((m : Int) + 9) % 12) ((d : Int)) (by omega) (by omega) (by omega)
      (by omega) (by omega)
      (by
        interval_cases m
        · simp [daysInMonth] at hd2
          omega
        · by_cases hly : isLeap y = true
          · simp [daysInMonth, hly] at hd2
            rw [hleap] at hly
            omega
          · have hly2 : isLeap y = false := by simpa using hly
            simp [daysInMonth, hly2] at hd2
            rw [Bool.eq_false_iff, Ne, hleap] at hly2
            omega)
      (by
        constructor
        · intro hmp
          interval_cases m
          · simp [daysInMonth] at hd2
            omega
          · omega
        · intro hmp
          interval_cases m
          · omega
          · by_cases hly : isLeap y = true
            · simp [daysInMonth, hly] at hd2
              omega
            · have hly2 : isLeap y = false := by simpa using hly
              simp [daysInMonth, hly2] at hd2
              omega)]
    interval_cases m <;> simp only [Prod.mk.injEq] <;> refine ⟨?_, ?_, ?_⟩ <;>
      (try split_ifs) <;> omega
  · simp only [if_neg hmle]
    rw [civilFromDays_of_parts (y / 400) (y - (y / 400) * 400)
      (((m : Int) + 9) % 12) ((d : Int)) (by omega) (by omega) (by omega)
      (by omega) (by omega)
      (by
        interval_cases m <;> simp [daysInMonth] at hd2 <;> omega)
      (by
        constructor
        · intro hmp
          interval_cases m <;> simp [daysInMonth] at hd2 <;> omega
        · intro hmp
          interval_cases m <;> omega)]
    interval_cases m <;> simp only [Prod.mk.injEq] <;> refine ⟨?_, ?_, ?_⟩ <;>
      (try split_ifs) <;> omega
/-! ### Claim C4 infrastructure -/

theorem isLeap_iff (y : Int) :
    isLeap y = true ↔ ((y % 4 = 0 ∧ ¬(y % 100 = 0)) ∨ y % 400 = 0) := by
  simp [isLeap]

theorem bool_eq_of_iff {a b : Bool} (h : (a = true) ↔ (b = true)) : a = b := by
  cases a <;> cases b <;> simp_all

theorem isLeap_add2000 (y : Int) : isLeap (y + 2000) = isLeap y := by
  apply bool_eq_of_iff
  rw [isLeap_iff, isLeap_iff]
  omega

theorem daysInMonth_add2000 (y : Int) (m : Nat) :
    daysInMonth (y + 2000) m = daysInMonth y m := by
  simp [daysInMonth, isLeap_add2000]

theorem daysInMonth_ge_28 (y : Int) (m : Nat) : 28 ≤ daysInMonth y m := by
  unfold daysInMonth
  split_ifs <;> omega

theorem mkDate_some_bounds (y : Int) (m d : Nat) (ds : Int)
    (h : mkDate y m d = some ds) :
    1 ≤ m ∧ m ≤ 12 ∧ 1 ≤ d ∧ d ≤ daysInMonth y m ∧ ds = daysFromCivil y m d := by
  unfold mkDate at h
  by_cases hc : (1 ≤ m && m ≤ 12 && 1 ≤ d && d ≤ daysInMonth y m) = true
  · simp [hc] at h
    simp at hc
    exact ⟨hc.1.1.1, hc.1.1.2, hc.1.2, hc.2, h.symm⟩
  · simp [hc] at h

theorem mkDate_isSome_of_bounds (y : Int) (m d : Nat) (h1 : 1 ≤ m) (h2 : m ≤ 12)
    (h3 : 1 ≤ d) (h4 : d ≤ daysInMonth y m) : (mkDate y m d).isSome = true := by
  unfold mkDate
  rw [if_pos (by simp [h1, h2, h3, h4])]
  rfl

theorem digit_toNat (c : Char) (h : isDigitChar c = true) :
    48 ≤ c.toNat ∧ c.toNat ≤ 57 := by
  simp [isDigitChar] at h
  obtain ⟨h1, h2⟩ := h
  constructor
  · exact h1
  · exact h2

theorem digit_not_ws (c : Char) (h : isDigitChar c = true) :
    rustWhitespace c = false := by
  obtain ⟨h1, h2⟩ := digit_toNat c h
  simp [rustWhitespace]
  omega

theorem dropWhileChar_head_false (p : Char → Bool) (c : Char) (cs : List Char)
    (h : p c = false) : dropWhileChar p (c :: cs) = c :: cs := by
  simp [dropWhileChar, h]

theorem takeWhile_digit_run (run : List Char) (x : Char) (rest : List Char)
    (hall : ∀ c ∈ run, isDigitChar c = true) (hx : isDigitChar x = false) :
    (run ++ x :: rest).takeWhile isDigitChar = run := by
  induction run with
  | nil => simp [List.takeWhile_cons, hx]
  | cons c cs ih =>
    rw [List.cons_append, List.takeWhile_cons,
      if_pos (hall c (List.mem_cons_self c cs)),
      ih (fun c2 h2 => hall c2 (List.mem_cons_of_mem c h2))]

theorem dropWhile_digit_run (run : List Char) (x : Char) (rest : List Char)
    (hall : ∀ c ∈ run, isDigitChar c = true) (hx : isDigitChar x = false) :
    (run ++ x :: rest).dropWhile isDigitChar = x :: rest := by
  induction run with
  | nil => simp [List.dropWhile_cons, hx]
  | cons c cs ih =>
    rw [List.cons_append, List.dropWhile_cons,
      if_pos (hall c (List.mem_cons_self c cs)),
      ih (fun c2 h2 => hall c2 (List.mem_cons_of_mem c h2))]

theorem scanNumber_run (width : Nat) (run : List Char) (x : Char)
    (rest : List Char) (hne : run ≠ [])
    (hall : ∀ c ∈ run, isDigitChar c = true) (hx : isDigitChar x = false) :
    scanNumber width (run ++ x :: rest) =
      some (natOfDigits (run.take width), run.drop width ++ x :: rest) := by
  have hdrop : dropWhileChar rustWhitespace (run ++ x :: rest) =
      run ++ x :: rest := by
    cases run with
    | nil => exact absurd rfl hne
    | cons c cs =>
      rw [List.cons_append]
      exact dropWhileChar_head_false _ c _
        (digit_not_ws c (hall c (List.mem_cons_self c cs)))
  have hie : run.isEmpty = false := by simpa [List.isEmpty_iff] using hne
  have h1 := takeWhile_digit_run run x rest hall hx
  have h2 := dropWhile_digit_run run x rest hall hx
  simp only [scanNumber, hdrop, List.span_eq_take_drop, h1, h2, hie]
  simp

theorem splitOnChar_ne_nil (sep : Char) (xs : List Char) :
    splitOnChar sep xs ≠ [] := by
  induction xs with
  | nil => simp [splitOnChar]
  | cons c cs ih =>
    unfold splitOnChar
    cases h2 : splitOnChar sep cs with
    | nil => simp
    | cons a b => by_cases hr : c = sep <;> simp [hr]

theorem splitOnChar_no_sep (sep : Char) (xs : List Char)
    (h : ∀ c ∈ xs, c ≠ sep) : splitOnChar sep xs = [xs] := by
  induction xs with
  | nil => rfl
  | cons c cs ih =>
    unfold splitOnChar
    rw [ih (fun c2 h2 => h c2 (List.mem_cons_of_mem c h2))]
    show (if c = sep then [[], cs] else [c :: cs]) = [c :: cs]
    rw [if_neg (h c (List.mem_cons_self c cs))]

theorem splitOnChar_cons_ne (sep c : Char) (cs : List Char) (hc : c ≠ sep)
    (a : List Char) (b : List (List Char)) (hs : splitOnChar sep cs = a :: b) :
    splitOnChar sep (c :: cs) = (c :: a) :: b := by
  unfold splitOnChar
  rw [hs]
  show (if c = sep then [] :: a :: b else (c :: a) :: b) = (c :: a) :: b
  rw [if_neg hc]

theorem splitOnChar_cons_sep (sep : Char) (cs : List Char)
    (a : List Char) (b : List (List Char)) (hs : splitOnChar sep cs = a :: b) :
    splitOnChar sep (sep :: cs) = [] :: a :: b := by
  unfold splitOnChar
  rw [hs]
  show (if sep = sep then [] :: a :: b else (sep :: a) :: b) = [] :: a :: b
  rw [if_pos rfl]

theorem splitOnChar_piece (sep : Char) (xs rest : List Char)
    (h : ∀ c ∈ xs, c ≠ sep) (a : List Char) (b : List (List Char))
    (hs : splitOnChar sep rest = a :: b) :
    splitOnChar sep (xs ++ sep :: rest) = xs :: a :: b := by
  induction xs with
  | nil =>
    show splitOnChar sep (sep :: rest) = [] :: a :: b
    exact splitOnChar_cons_sep sep rest a b hs
  | cons c cs ih =>
    rw [List.cons_append]
    exact splitOnChar_cons_ne sep c _ (h c (List.mem_cons_self c cs)) _ _
      (ih (fun c2 h2 => h c2 (List.mem_cons_of_mem c h2)))

theorem runItems_numDay (items : List FmtItem) (l : List Char) (f : ParsedFields) :
    runItems (FmtItem.numDay :: items) l f =
      (scanNumber 2 l).bind fun p => runItems items p.2 { f with day := p.1 } := rfl

theorem runItems_numMonth (items : List FmtItem) (l : List Char) (f : ParsedFields) :
    runItems (FmtItem.numMonth :: items) l f =
      (scanNumber 2 l).bind fun p => runItems items p.2 { f with month := p.1 } := rfl

theorem runItems_numYear4 (items : List FmtItem) (l : List Char) (f : ParsedFields) :
    runItems (FmtItem.numYear4 :: items) l f =
      (scanNumber 4 l).bind fun p => runItems items p.2 { f with year4 := some p.1 } := rfl

theorem runItems_numYear2 (items : List FmtItem) (l : List Char) (f : ParsedFields) :
    runItems (FmtItem.numYear2 :: items) l f =
      (scanNumber 2 l).bind fun p => runItems items p.2 { f with year2 := some p.1 } := rfl

theorem runItems_lit_eq (c : Char) (items : List FmtItem) (tl : List Char)
    (f : ParsedFields) :
    runItems (FmtItem.lit c :: items) (c :: tl) f = runItems items tl f := by
  show (if c = c then runItems items tl f else none) = runItems items tl f
  rw [if_pos rfl]

theorem runItems_lit_ne (c c2 : Char) (items : List FmtItem) (tl : List Char)
    (f : ParsedFields) (h : c2 ≠ c) :
    runItems (FmtItem.lit c :: items) (c2 :: tl) f = none := by
  show (if c2 = c then runItems items tl f else none) = none
  rw [if_neg h]

theorem runItems_sp (items : List FmtItem) (l : List Char) (f : ParsedFields) :
    runItems (FmtItem.sp :: items) l f =
      runItems items (dropWhileChar rustWhitespace l) f := rfl

theorem digit_ne_comma (c : Char) (h : isDigitChar c = true) : c ≠ ',' := by
  intro hc
  rw [hc] at h
  simp [isDigitChar] at h

set_option maxHeartbeats 1000000 in
theorem runItems_datePart (sep : Char) (df y4 : Bool) (T : List FmtItem)
    (ds1 ds2 ds3 tail : List Char) (f : ParsedFields)
    (h1ne : ds1 ≠ []) (h1d : ∀ c ∈ ds1, isDigitChar c = true)
    (h1len : ds1.length ≤ 2)
    (h2ne : ds2 ≠ []) (h2d : ∀ c ∈ ds2, isDigitChar c = true)
    (h2len : ds2.length ≤ 2)
    (h3ne : ds3 ≠ []) (h3d : ∀ c ∈ ds3, isDigitChar c = true)
    (h3len : ds3.length ≤ 4)
    (hsep : isDigitChar sep = false) :
    runItems (dateItems sep df y4 ++ [FmtItem.lit ',', FmtItem.sp] ++ T)
      (ds1 ++ sep :: (ds2 ++ sep :: (ds3 ++ ',' :: tail))) f =
      if y4 = false ∧ 2 < ds3.length then none
      else
        runItems T (dropWhileChar rustWhitespace tail)
          { f with
            day := if df then natOfDigits ds1 else natOfDigits ds2,
            month := if df then natOfDigits ds2 else natOfDigits ds1,
            year4 := if y4 then some (natOfDigits ds3) else f.year4,
            year2 := if y4 then f.year2 else some (natOfDigits (ds3.take 2)) } := by
  have hcomma : isDigitChar ',' = false := by decide
  have hd1t : ds1.take 2 = ds1 := List.take_of_length_le h1len
  have hd1r : ds1.drop 2 = [] := List.drop_eq_nil_of_le h1len
  have hd2t : ds2.take 2 = ds2 := List.take_of_length_le h2len
  have hd2r : ds2.drop 2 = [] := List.drop_eq_nil_of_le h2len
  cases df <;> cases y4 <;>
    simp only [dateItems, Bool.false_eq_true, if_false, if_true,
      List.cons_append, List.nil_append, List.append_assoc]
  all_goals (
    first
    | (rw [runItems_numDay, scanNumber_run 2 ds1 sep _ h1ne h1d hsep]
       simp only [Option.some_bind]
       rw [hd1t, hd1r, List.nil_append, runItems_lit_eq,
         runItems_numMonth, scanNumber_run 2 ds2 sep _ h2ne h2d hsep]
       simp only [Option.some_bind]
       rw [hd2t, hd2r, List.nil_append, runItems_lit_eq])
    | (rw [runItems_numMonth, scanNumber_run 2 ds1 sep _ h1ne h1d hsep]
       simp only [Option.some_bind]
       rw [hd1t, hd1r, List.nil_append, runItems_lit_eq,
         runItems_numDay, scanNumber_run 2 ds2 sep _ h2ne h2d hsep]
       simp only [Option.some_bind]
       rw [hd2t, hd2r, List.nil_append, runItems_lit_eq]))
  -- year item and the rest, per y4
  all_goals (
    first
    | (rw [runItems_numYear4, scanNumber_run 4 ds3 ',' _ h3ne h3d hcomma]
       simp only [Option.some_bind]
       rw [List.take_of_length_le h3len, List.drop_eq_nil_of_le h3len,
         List.nil_append, runItems_lit_eq, runItems_sp]
       simp)
    | (rw [runItems_numYear2, scanNumber_run 2 ds3 ',' _ h3ne h3d hcomma]
       simp only [Option.some_bind]
       by_cases hlen : 2 < ds3.length
       · have hdr : ds3.drop 2 ≠ [] := by
           intro hc
           have := congrArg List.length hc
           simp at this
           omega
         cases hdrc : ds3.drop 2 with
         | nil => exact absurd hdrc hdr
         | cons e er =>
           rw [List.cons_append,
             runItems_lit_ne ',' e _ _ _
               (digit_ne_comma e (h3d e (List.drop_subset 2 ds3
                 (hdrc ▸ List.mem_cons_self e er))))]
           simp [hlen]
       · have hd3r : ds3.drop 2 = [] := List.drop_eq_nil_of_le (by omega)
         rw [hd3r, List.nil_append, runItems_lit_eq, runItems_sp]
         simp [hlen]))

set_option maxHeartbeats 1000000 in
theorem runItems_timeCongr :
    ∀ (items : List FmtItem),
      (∀ i ∈ items, i ≠ FmtItem.numDay ∧ i ≠ FmtItem.numMonth ∧
        i ≠ FmtItem.numYear4 ∧ i ≠ FmtItem.numYear2) →
      ∀ (l : List Char) (f g : ParsedFields),
      f.hour = g.hour → f.hour12 = g.hour12 → f.minute = g.minute →
      f.second = g.second → f.pm = g.pm →
      ∀ f2, runItems items l f = some f2 →
      ∃ g2, runItems items l g = some g2 ∧
        g2.hour = f2.hour ∧ g2.hour12 = f2.hour12 ∧ g2.minute = f2.minute ∧
        g2.second = f2.second ∧ g2.pm = f2.pm ∧
        g2.day = g.day ∧ g2.month = g.month ∧ g2.year4 = g.year4 ∧
        g2.year2 = g.year2 ∧
        f2.day = f.day ∧ f2.month = f.month ∧ f2.year4 = f.year4 ∧
        f2.year2 = f.year2 := by
  intro items
  induction items with
  | nil =>
    intro _ l f g hh hh12 hm hs hp f2 hrun
    by_cases hl : l.isEmpty = true
    · rw [show runItems [] l f = if l.isEmpty then some f else none from rfl,
        if_pos hl] at hrun
      obtain rfl : f = f2 := Option.some.inj hrun
      exact ⟨g, by rw [show runItems [] l g =
          if l.isEmpty then some g else none from rfl, if_pos hl],
        hh.symm, hh12.symm, hm.symm, hs.symm, hp.symm,
        rfl, rfl, rfl, rfl, rfl, rfl, rfl, rfl⟩
    · rw [show runItems [] l f = if l.isEmpty then some f else none from rfl,
        if_neg hl] at hrun
      cases hrun
  | cons i rest ih =>
    intro hto l f g hh hh12 hm hs hp f2 hrun
    have hto2 : ∀ j ∈ rest, j ≠ FmtItem.numDay ∧ j ≠ FmtItem.numMonth ∧
        j ≠ FmtItem.numYear4 ∧ j ≠ FmtItem.numYear2 :=
      fun j hj => hto j (List.mem_cons_of_mem _ hj)
    have hi := hto i (List.mem_cons_self i rest)
    cases i with
    | numDay => exact absurd rfl hi.1
    | numMonth => exact absurd rfl hi.2.1
    | numYear4 => exact absurd rfl hi.2.2.1
    | numYear2 => exact absurd rfl hi.2.2.2
    | numHour =>
      rw [show runItems (FmtItem.numHour :: rest) l f = (scanNumber 2 l).bind
          fun p => runItems rest p.2 { f with hour := some p.1 } from rfl] at hrun
      rcases Option.bind_eq_some.mp hrun with ⟨p, hscan, hrec⟩
      obtain ⟨g2, hg2, hrest⟩ := ih hto2 p.2 { f with hour := some p.1 }
        { g with hour := some p.1 } rfl hh12 hm hs hp f2 hrec
      refine ⟨g2, ?_, hrest⟩
      rw [show runItems (FmtItem.numHour :: rest) l g = (scanNumber 2 l).bind
          fun p => runItems rest p.2 { g with hour := some p.1 } from rfl,
        hscan, Option.some_bind]
      exact hg2
    | numHour12 =>
      rw [show runItems (FmtItem.numHour12 :: rest) l f = (scanNumber 2 l).bind
          fun p => runItems rest p.2 { f with hour12 := some p.1 } from rfl] at hrun
      rcases Option.bind_eq_some.mp hrun with ⟨p, hscan, hrec⟩
      obtain ⟨g2, hg2, hrest⟩ := ih hto2 p.2 { f with hour12 := some p.1 }
        { g with hour12 := some p.1 } hh rfl hm hs hp f2 hrec
      refine ⟨g2, ?_, hrest⟩
      rw [show runItems (FmtItem.numHour12 :: rest) l g = (scanNumber 2 l).bind
          fun p => runItems rest p.2 { g with hour12 := some p.1 } from rfl,
        hscan, Option.some_bind]
      exact hg2
    | numMin =>
      rw [show runItems (FmtItem.numMin :: rest) l f = (scanNumber 2 l).bind
          fun p => runItems rest p.2 { f with minute := p.1 } from rfl] at hrun
      rcases Option.bind_eq_some.mp hrun with ⟨p, hscan, hrec⟩
      obtain ⟨g2, hg2, hrest⟩ := ih hto2 p.2 { f with minute := p.1 }
        { g with minute := p.1 } hh hh12 rfl hs hp f2 hrec
      refine ⟨g2, ?_, hrest⟩
      rw [show runItems (FmtItem.numMin :: rest) l g = (scanNumber 2 l).bind
          fun p => runItems rest p.2 { g with minute := p.1 } from rfl,
        hscan, Option.some_bind]
      exact hg2
    | numSec =>
      rw [show runItems (FmtItem.numSec :: rest) l f = (scanNumber 2 l).bind
          fun p => runItems rest p.2 { f with second := some p.1 } from rfl] at hrun
      rcases Option.bind_eq_some.mp hrun with ⟨p, hscan, hrec⟩
      obtain ⟨g2, hg2, hrest⟩ := ih hto2 p.2 { f with second := some p.1 }
        { g with second := some p.1 } hh hh12 hm rfl hp f2 hrec
      refine ⟨g2, ?_, hrest⟩
      rw [show runItems (FmtItem.numSec :: rest) l g = (scanNumber 2 l).bind
          fun p => runItems rest p.2 { g with second := some p.1 } from rfl,
        hscan, Option.some_bind]
      exact hg2
    | lit c =>
      cases l with
      | nil =>
        rw [show runItems (FmtItem.lit c :: rest) [] f = none from rfl] at hrun
        cases hrun
      | cons c2 tl =>
        by_cases hc : c2 = c
        · rw [show runItems (FmtItem.lit c :: rest) (c2 :: tl) f =
              if c2 = c then runItems rest tl f else none from rfl,
            if_pos hc] at hrun
          obtain ⟨g2, hg2, hrest⟩ := ih hto2 tl f g hh hh12 hm hs hp f2 hrun
          refine ⟨g2, ?_, hrest⟩
          rw [show runItems (FmtItem.lit c :: rest) (c2 :: tl) g =
              if c2 = c then runItems rest tl g else none from rfl, if_pos hc]
          exact hg2
        · rw [show runItems (FmtItem.lit c :: rest) (c2 :: tl) f =
              if c2 = c then runItems rest tl f else none from rfl,
            if_neg hc] at hrun
          cases hrun
    | sp =>
      rw [runItems_sp] at hrun
      obtain ⟨g2, hg2, hrest⟩ := ih hto2 _ f g hh hh12 hm hs hp f2 hrun
      refine ⟨g2, ?_, hrest⟩
      rw [runItems_sp]
      exact hg2
    | ampm =>
      cases l with
      | nil =>
        rw [show runItems (FmtItem.ampm :: rest) [] f = none from rfl] at hrun
        cases hrun
      | cons a tl0 =>
        cases tl0 with
        | nil =>
          rw [show runItems (FmtItem.ampm :: rest) [a] f = none from rfl] at hrun
          cases hrun
        | cons b tl =>
          have hshape : ∀ h : ParsedFields,
              runItems (FmtItem.ampm :: rest) (a :: b :: tl) h =
              if rustToLowerChar b = 'm' then
                (if rustToLowerChar a = 'a' then
                  runItems rest tl { h with pm := some false }
                else if rustToLowerChar a = 'p' then
                  runItems rest tl { h with pm := some true }
                else none)
              else none := fun h => rfl
          by_cases hb : rustToLowerChar b = 'm'
          · by_cases ha : rustToLowerChar a = 'a'
            · rw [hshape, if_pos hb, if_pos ha] at hrun
              obtain ⟨g2, hg2, hrest⟩ := ih hto2 tl { f with pm := some false }
                { g with pm := some false } hh hh12 hm hs rfl f2 hrun
              refine ⟨g2, ?_, hrest⟩
              rw [hshape, if_pos hb, if_pos ha]
              exact hg2
            · by_cases hpp : rustToLowerChar a = 'p'
              · rw [hshape, if_pos hb, if_neg ha, if_pos hpp] at hrun
                obtain ⟨g2, hg2, hrest⟩ := ih hto2 tl { f with pm := some true }
                  { g with pm := some true } hh hh12 hm hs rfl f2 hrun
                refine ⟨g2, ?_, hrest⟩
                rw [hshape, if_pos hb, if_neg ha, if_pos hpp]
                exact hg2
              · rw [hshape, if_pos hb, if_neg ha, if_neg hpp] at hrun
                cases hrun
          · rw [hshape, if_neg hb] at hrun
            cases hrun

theorem timeItems_timeOnly (h12 ws : Bool) :
    ∀ i ∈ timeItems h12 ws, i ≠ FmtItem.numDay ∧ i ≠ FmtItem.numMonth ∧
      i ≠ FmtItem.numYear4 ∧ i ≠ FmtItem.numYear2 := by
  cases h12 <;> cases ws <;> decide

theorem mkDate_civil (y : Int) (m d : Nat) (ds : Int) (h : mkDate y m d = some ds) :
    civilFromDays ds = (y, m, d) := by
  obtain ⟨h1, h2, h3, h4, h5⟩ := mkDate_some_bounds y m d ds h
  rw [h5]
  exact civil_days_roundtrip y m d h1 h2 h3 h4

theorem resolveFields_info (f : ParsedFields) (dt0 : NaiveDateTime)
    (h : resolveFields f = some dt0) :
    ∃ (y : Int) (ds : Int) (hr : Nat),
      mkDate y f.month f.day = some ds ∧
      dt0 = { days := ds, secs := hr * 3600 + f.minute * 60 + f.second.getD 0 } ∧
      (∀ yy, f.year4 = some yy → y = Int.ofNat yy) ∧
      (f.year4 = none → ∃ y2, f.year2 = some y2 ∧ y2 ≤ 99 ∧
        y = if 69 ≤ y2 then Int.ofNat (1900 + y2) else Int.ofNat (2000 + y2)) := by
  simp only [resolveFields] at h
  rcases Option.bind_eq_some.mp h with ⟨y, hy, h2⟩
  rcases Option.bind_eq_some.mp h2 with ⟨hr, hhr, h3⟩
  by_cases hms : (f.minute ≤ 59 && (f.second.getD 0) ≤ 59) = true
  · rw [if_pos hms] at h3
    cases hmk : mkDate y f.month f.day with
    | none =>
      rw [hmk] at h3
      cases h3
    | some ds =>
      rw [hmk] at h3
      refine ⟨y, ds, hr, hmk, (Option.some.inj h3).symm, ?_, ?_⟩
      · intro yy hyy
        rw [hyy] at hy
        exact (Option.some.inj hy).symm
      · intro hy4
        rw [hy4] at hy
        cases hy2c : f.year2 with
        | none =>
          rw [hy2c] at hy
          cases hy
        | some y2 =>
          rw [hy2c] at hy
          by_cases h99 : y2 ≤ 99
          · rw [show (match some y2 with
                | some y2 => if y2 ≤ 99 then
                    some (if 69 ≤ y2 then Int.ofNat (1900 + y2)
                      else Int.ofNat (2000 + y2))
                  else none
                | none => none) =
                if y2 ≤ 99 then
                  some (if 69 ≤ y2 then Int.ofNat (1900 + y2)
                    else Int.ofNat (2000 + y2))
                else none from rfl, if_pos h99] at hy
            exact ⟨y2, rfl, h99, (Option.some.inj hy).symm⟩
          · rw [show (match some y2 with
                | some y2 => if y2 ≤ 99 then
                    some (if 69 ≤ y2 then Int.ofNat (1900 + y2)
                      else Int.ofNat (2000 + y2))
                  else none
                | none => none) =
                if y2 ≤ 99 then
                  some (if 69 ≤ y2 then Int.ofNat (1900 + y2)
                    else Int.ofNat (2000 + y2))
                else none from rfl, if_neg h99] at hy
            cases hy
  · rw [if_neg hms] at h3
    cases h3

theorem resolveFields_transfer (f g : ParsedFields) (dt0 : NaiveDateTime)
    (hh : g.hour = f.hour) (hh12 : g.hour12 = f.hour12)
    (hm : g.minute = f.minute) (hs : g.second = f.second) (hp : g.pm = f.pm)
    (hy4 : g.year4 = f.year4) (hy2 : g.year2 = f.year2)
    (hmk : ∀ (y : Int) (ds : Int), mkDate y f.month f.day = some ds →
      (mkDate y g.month g.day).isSome = true)
    (h : resolveFields f = some dt0) :
    (resolveFields g).isSome = true := by
  simp only [resolveFields] at h ⊢
  rw [hy4, hy2, hh, hh12, hm, hs, hp]
  rcases Option.bind_eq_some.mp h with ⟨y, hy, h2⟩
  rw [hy, Option.some_bind]
  rcases Option.bind_eq_some.mp h2 with ⟨hr, hhr, h3⟩
  rw [hhr, Option.some_bind]
  by_cases hms : (f.minute ≤ 59 && (f.second.getD 0) ≤ 59) = true
  · rw [if_pos hms]
    rw [if_pos hms] at h3
    cases hmkf : mkDate y f.month f.day with
    | none =>
      rw [hmkf] at h3
      cases h3
    | some ds =>
      have hg := hmk y ds hmkf
      cases hmkg : mkDate y g.month g.day with
      | none =>
        rw [hmkg] at hg
        cases hg
      | some ds2 => rfl
  · rw [if_neg hms] at h3
    cases h3

theorem normalizeYear_fields (y : Int) (m d : Nat) (ds : Int) (secs : Nat)
    (hmk : mkDate y m d = some ds) :
    ∃ dt1, normalizeYear { days := ds, secs := secs } = some dt1 ∧
      dt1.month = m ∧ dt1.dayOfMonth = d ∧
      dt1.year = (if y < 100 then y + 2000 else y) ∧ dt1.secs = secs := by
  obtain ⟨h1, h2, h3, h4, _⟩ := mkDate_some_bounds y m d ds hmk
  have hciv : civilFromDays ds = (y, m, d) := mkDate_civil y m d ds hmk
  have hyear : ({ days := ds, secs := secs } : NaiveDateTime).year = y := by
    unfold NaiveDateTime.year
    rw [hciv]
  simp only [normalizeYear, hyear]
  by_cases hy100 : y < 100
  · rw [if_pos hy100, if_pos hy100]
    simp only [NaiveDateTime.withYear, hciv]
    have hmk2 : mkDate (y + 2000) m d = some (daysFromCivil (y + 2000) m d) := by
      unfold mkDate
      rw [if_pos]
      simp only [daysInMonth_add2000]
      simp [h1, h2, h3, h4]
    rw [hmk2]
    have hrt := civil_days_roundtrip (y + 2000) m d h1 h2 h3
      (by rw [daysInMonth_add2000]; exact h4)
    refine ⟨_, rfl, ?_, ?_, ?_, rfl⟩
    · unfold NaiveDateTime.month
      rw [hrt]
    · unfold NaiveDateTime.dayOfMonth
      rw [hrt]
    · unfold NaiveDateTime.year
      rw [hrt]
  · rw [if_neg hy100, if_neg hy100]
    refine ⟨_, rfl, ?_, ?_, hyear, rfl⟩
    · unfold NaiveDateTime.month
      rw [hciv]
    · unfold NaiveDateTime.dayOfMonth
      rw [hciv]

theorem normalizeYear_isSome (y : Int) (m d : Nat) (ds : Int) (secs : Nat)
    (hmk : mkDate y m d = some ds) :
    (normalizeYear { days := ds, secs := secs }).isSome = true := by
  obtain ⟨dt1, hn, _⟩ := normalizeYear_fields y m d ds secs hmk
  rw [hn]
  rfl

theorem normalizeYear_adds_2000 (d0 d1 : NaiveDateTime)
    (h : normalizeYear d0 = some d1) :
    d1.year = if d0.year < 100 then d0.year + 2000 else d0.year := by
  simp only [normalizeYear] at h
  by_cases hy : d0.year < 100
  · rw [if_pos hy] at h
    rw [if_pos hy]
    simp only [NaiveDateTime.withYear] at h
    cases hmk : mkDate (d0.year + 2000) (civilFromDays d0.days).2.1
        (civilFromDays d0.days).2.2 with
    | none =>
      rw [hmk] at h
      cases h
    | some ds2 =>
      rw [hmk] at h
      have hd1 : d1 = { d0 with days := ds2 } := (Option.some.inj h).symm
      rw [hd1]
      show (civilFromDays ds2).1 = d0.year + 2000
      rw [mkDate_civil _ _ _ _ hmk]
  · rw [if_neg hy] at h
    rw [if_neg hy, ← Option.some.inj h]

theorem findSome?_isSome_of_mem {α β : Type} (f : α → Option β) :
    ∀ (l : List α) (x : α), x ∈ l → (f x).isSome = true →
      (l.findSome? f).isSome = true := by
  intro l
  induction l with
  | nil =>
    intro x hx _
    cases hx
  | cons a as ih =>
    intro x hx hfx
    rw [List.findSome?_cons]
    cases hfa : f a with
    | some b => rfl
    | none =>
      rcases List.mem_cons.mp hx with h1 | h1
      · rw [h1, hfa] at hfx
        cases hfx
      · exact ih x h1 hfx

set_option maxHeartbeats 1000000 in
theorem fmt_success_info (sep : Char) (df y4 h12 ws : Bool)
    (ds1 ds2 ds3 tail : List Char) (dt0 : NaiveDateTime)
    (h1ne : ds1 ≠ []) (h1d : ∀ c ∈ ds1, isDigitChar c = true)
    (h1len : ds1.length ≤ 2)
    (h2ne : ds2 ≠ []) (h2d : ∀ c ∈ ds2, isDigitChar c = true)
    (h2len : ds2.length ≤ 2)
    (h3ne : ds3 ≠ []) (h3d : ∀ c ∈ ds3, isDigitChar c = true)
    (h3len : ds3.length ≤ 4)
    (hsep : isDigitChar sep = false)
    (h : (parseWithFmt (fullFmt sep df y4 h12 ws)
        (ds1 ++ sep :: (ds2 ++ sep :: (ds3 ++ ',' :: tail)))).bind
        normalizeYear = some dt0) :
    dt0.month = (if df then natOfDigits ds2 else natOfDigits ds1) ∧
    dt0.dayOfMonth = (if df then natOfDigits ds1 else natOfDigits ds2) ∧
    1 ≤ (if df then natOfDigits ds2 else natOfDigits ds1) ∧
    (if df then natOfDigits ds2 else natOfDigits ds1) ≤ 12 ∧
    1 ≤ (if df then natOfDigits ds1 else natOfDigits ds2) := by
  rcases Option.bind_eq_some.mp h with ⟨dt1, hpw, hnorm⟩
  unfold parseWithFmt fullFmt at hpw
  rw [runItems_datePart sep df y4 (timeItems h12 ws) ds1 ds2 ds3 tail {}
    h1ne h1d h1len h2ne h2d h2len h3ne h3d h3len hsep] at hpw
  by_cases hy3 : y4 = false ∧ 2 < ds3.length
  · rw [if_pos hy3] at hpw
    simp at hpw
  · rw [if_neg hy3] at hpw
    rcases Option.bind_eq_some.mp hpw with ⟨f2, hrunT, hres⟩
    obtain ⟨g2, hg2run, hrest⟩ := runItems_timeCongr (timeItems h12 ws)
      (timeItems_timeOnly h12 ws) _ _ _ rfl rfl rfl rfl rfl f2 hrunT
    obtain ⟨_, _, _, _, _, _, _, _, _, hf2d, hf2m, _, _⟩ := hrest
    obtain ⟨y, ds, hr, hmk, hdt1, _, _⟩ := resolveFields_info f2 dt1 hres
    rw [hf2m, hf2d] at hmk
    replace hmk : mkDate y (if df then natOfDigits ds2 else natOfDigits ds1)
        (if df then natOfDigits ds1 else natOfDigits ds2) = some ds := hmk
    obtain ⟨hb1, hb2, hb3, _, _⟩ := mkDate_some_bounds _ _ _ _ hmk
    subst hdt1
    obtain ⟨dt2, hn2, hmo, hda, _, _⟩ :=
      normalizeYear_fields y _ _ ds (hr * 3600 + f2.minute * 60 +
        f2.second.getD 0) hmk
    rw [hn2] at hnorm
    obtain rfl : dt2 = dt0 := Option.some.inj hnorm
    exact ⟨hmo, hda, hb1, hb2, hb3⟩

set_option maxHeartbeats 1000000 in
theorem mf_of_df (sep : Char) (y4 h12 ws : Bool)
    (ds1 ds2 ds3 tail : List Char) (dt0 : NaiveDateTime)
    (h1ne : ds1 ≠ []) (h1d : ∀ c ∈ ds1, isDigitChar c = true)
    (h1len : ds1.length ≤ 2)
    (h2ne : ds2 ≠ []) (h2d : ∀ c ∈ ds2, isDigitChar c = true)
    (h2len : ds2.length ≤ 2)
    (h3ne : ds3 ≠ []) (h3d : ∀ c ∈ ds3, isDigitChar c = true)
    (h3len : ds3.length ≤ 4)
    (hsep : isDigitChar sep = false)
    (ha : natOfDigits ds1 ≤ 12)
    (h : (parseWithFmt (fullFmt sep true y4 h12 ws)
        (ds1 ++ sep :: (ds2 ++ sep :: (ds3 ++ ',' :: tail)))).bind
        normalizeYear = some dt0) :
    ((parseWithFmt (fullFmt sep false y4 h12 ws)
        (ds1 ++ sep :: (ds2 ++ sep :: (ds3 ++ ',' :: tail)))).bind
        normalizeYear).isSome = true := by
  rcases Option.bind_eq_some.mp h with ⟨dt1, hpw, hnorm⟩
  unfold parseWithFmt fullFmt at hpw ⊢
  rw [runItems_datePart sep true y4 (timeItems h12 ws) ds1 ds2 ds3 tail {}
    h1ne h1d h1len h2ne h2d h2len h3ne h3d h3len hsep] at hpw
  rw [runItems_datePart sep false y4 (timeItems h12 ws) ds1 ds2 ds3 tail {}
    h1ne h1d h1len h2ne h2d h2len h3ne h3d h3len hsep]
  by_cases hy3 : y4 = false ∧ 2 < ds3.length
  · rw [if_pos hy3] at hpw
    simp at hpw
  · rw [if_neg hy3] at hpw ⊢
    rcases Option.bind_eq_some.mp hpw with ⟨f2, hrunT, hres⟩
    replace hrunT : runItems (timeItems h12 ws)
        (dropWhileChar rustWhitespace tail)
        { day := natOfDigits ds1, month := natOfDigits ds2,
          year4 := if y4 = true then some (natOfDigits ds3) else none,
          year2 := if y4 = true then none
            else some (natOfDigits (ds3.take 2)) } = some f2 := hrunT
    obtain ⟨g2, hg2run, hrest⟩ := runItems_timeCongr (timeItems h12 ws)
      (timeItems_timeOnly h12 ws) (dropWhileChar rustWhitespace tail)
      ({ day := natOfDigits ds1, month := natOfDigits ds2,
         year4 := if y4 = true then some (natOfDigits ds3) else none,
         year2 := if y4 = true then none
           else some (natOfDigits (ds3.take 2)) })
      ({ day := natOfDigits ds2, month := natOfDigits ds1,
         year4 := if y4 = true then some (natOfDigits ds3) else none,
         year2 := if y4 = true then none
           else some (natOfDigits (ds3.take 2)) })
      rfl rfl rfl rfl rfl f2 hrunT
    obtain ⟨hhour, hhour12, hmin, hsec, hpm, hg2d, hg2m, hg2y4, hg2y2,
      hf2d, hf2m, hf2y4, hf2y2⟩ := hrest
    show (((runItems (timeItems h12 ws) (dropWhileChar rustWhitespace tail)
      { day := natOfDigits ds2, month := natOfDigits ds1,
        year4 := if y4 = true then some (natOfDigits ds3) else none,
        year2 := if y4 = true then none
          else some (natOfDigits (ds3.take 2)) }).bind
      resolveFields).bind normalizeYear).isSome = true
    rw [hg2run, Option.some_bind]
    have htr := resolveFields_transfer f2 g2 dt1 hhour hhour12 hmin hsec hpm
      (by rw [hg2y4, hf2y4]) (by rw [hg2y2, hf2y2])
      (by
        intro y ds hmkf
        rw [hf2m, hf2d] at hmkf
        replace hmkf : mkDate y (natOfDigits ds2) (natOfDigits ds1) =
            some ds := hmkf
        obtain ⟨hb1, hb2, hb3, hb4, _⟩ := mkDate_some_bounds _ _ _ _ hmkf
        replace hg2m : g2.month = natOfDigits ds1 := hg2m
        replace hg2d : g2.day = natOfDigits ds2 := hg2d
        rw [hg2m, hg2d]
        apply mkDate_isSome_of_bounds
        · omega
        · exact ha
        · exact hb1
        · have := daysInMonth_ge_28 y (natOfDigits ds1)
          omega)
      hres
    cases hres2 : resolveFields g2 with
    | none =>
      rw [hres2] at htr
      cases htr
    | some dtg =>
      rw [Option.some_bind]
      obtain ⟨y2, ds2v, hr2, hmk2, hdtg, _, _⟩ :=
        resolveFields_info g2 dtg hres2
      subst hdtg
      exact normalizeYear_isSome y2 _ _ ds2v _ hmk2

theorem parseNatPiece_digits (ds : List Char) (hne : ds ≠ [])
    (hd : ∀ c ∈ ds, isDigitChar c = true) :
    parseNatPiece ds = some (natOfDigits ds) := by
  unfold parseNatPiece
  rw [if_pos]
  simp [hne, List.all_eq_true]
  exact hd

theorem group_success_info (sep : Char) (df h12 : Bool)
    (ds1 ds2 ds3 tail : List Char) (dt0 : NaiveDateTime)
    (h1ne : ds1 ≠ []) (h1d : ∀ c ∈ ds1, isDigitChar c = true)
    (h1len : ds1.length ≤ 2)
    (h2ne : ds2 ≠ []) (h2d : ∀ c ∈ ds2, isDigitChar c = true)
    (h2len : ds2.length ≤ 2)
    (h3ne : ds3 ≠ []) (h3d : ∀ c ∈ ds3, isDigitChar c = true)
    (h3len : ds3.length ≤ 4)
    (hsep : isDigitChar sep = false)
    (h : (fmtGroup sep df h12).findSome? (fun fmt => (parseWithFmt fmt
        (ds1 ++ sep :: (ds2 ++ sep :: (ds3 ++ ',' :: tail)))).bind
        normalizeYear) = some dt0) :
    dt0.month = (if df then natOfDigits ds2 else natOfDigits ds1) ∧
    dt0.dayOfMonth = (if df then natOfDigits ds1 else natOfDigits ds2) ∧
    1 ≤ (if df then natOfDigits ds2 else natOfDigits ds1) ∧
    (if df then natOfDigits ds2 else natOfDigits ds1) ≤ 12 ∧
    1 ≤ (if df then natOfDigits ds1 else natOfDigits ds2) := by
  rcases List.exists_of_findSome?_eq_some h with ⟨fmt, hmem, hfmt⟩
  simp only [fmtGroup, List.mem_cons, List.not_mem_nil, or_false] at hmem
  rcases hmem with h1 | h1 | h1 | h1 <;> subst h1 <;>
    exact fmt_success_info sep df _ h12 _ ds1 ds2 ds3 tail dt0
      h1ne h1d h1len h2ne h2d h2len h3ne h3d h3len hsep hfmt

theorem group_mf_of_df (sep : Char) (h12 : Bool)
    (ds1 ds2 ds3 tail : List Char) (dt0 : NaiveDateTime)
    (h1ne : ds1 ≠ []) (h1d : ∀ c ∈ ds1, isDigitChar c = true)
    (h1len : ds1.length ≤ 2)
    (h2ne : ds2 ≠ []) (h2d : ∀ c ∈ ds2, isDigitChar c = true)
    (h2len : ds2.length ≤ 2)
    (h3ne : ds3 ≠ []) (h3d : ∀ c ∈ ds3, isDigitChar c = true)
    (h3len : ds3.length ≤ 4)
    (hsep : isDigitChar sep = false)
    (ha : natOfDigits ds1 ≤ 12)
    (h : (fmtGroup sep true h12).findSome? (fun fmt => (parseWithFmt fmt
        (ds1 ++ sep :: (ds2 ++ sep :: (ds3 ++ ',' :: tail)))).bind
        normalizeYear) = some dt0) :
    ((fmtGroup sep false h12).findSome? (fun fmt => (parseWithFmt fmt
        (ds1 ++ sep :: (ds2 ++ sep :: (ds3 ++ ',' :: tail)))).bind
        normalizeYear)).isSome = true := by
  rcases List.exists_of_findSome?_eq_some h with ⟨fmt, hmem, hfmt⟩
  simp only [fmtGroup, List.mem_cons, List.not_mem_nil, or_false] at hmem
  rcases hmem with h1 | h1 | h1 | h1 <;> subst h1
  · exact findSome?_isSome_of_mem _ _ (fullFmt sep false true h12 true)
      (by simp [fmtGroup])
      (mf_of_df sep true h12 true ds1 ds2 ds3 tail dt0
        h1ne h1d h1len h2ne h2d h2len h3ne h3d h3len hsep ha hfmt)
  · exact findSome?_isSome_of_mem _ _ (fullFmt sep false true h12 false)
      (by simp [fmtGroup])
      (mf_of_df sep true h12 false ds1 ds2 ds3 tail dt0
        h1ne h1d h1len h2ne h2d h2len h3ne h3d h3len hsep ha hfmt)
  · exact findSome?_isSome_of_mem _ _ (fullFmt sep false false h12 true)
      (by simp [fmtGroup])
      (mf_of_df sep false h12 true ds1 ds2 ds3 tail dt0
        h1ne h1d h1len h2ne h2d h2len h3ne h3d h3len hsep ha hfmt)
  · exact findSome?_isSome_of_mem _ _ (fullFmt sep false false h12 false)
      (by simp [fmtGroup])
      (mf_of_df sep false h12 false ds1 ds2 ds3 tail dt0
        h1ne h1d h1len h2ne h2d h2len h3ne h3d h3len hsep ha hfmt)

theorem no_dot_in_date (sep : Char) (ds1 ds2 ds3 : List Char)
    (h1d : ∀ c ∈ ds1, isDigitChar c = true)
    (h2d : ∀ c ∈ ds2, isDigitChar c = true)
    (h3d : ∀ c ∈ ds3, isDigitChar c = true)
    (hs : sep ≠ '.') :
    (ds1 ++ sep :: (ds2 ++ sep :: ds3)).contains '.' = false := by
  have hnm : '.' ∉ ds1 ++ sep :: (ds2 ++ sep :: ds3) := by
    intro hm
    simp only [List.mem_append, List.mem_cons] at hm
    rcases hm with hm | hm | hm | hm | hm
    · exact absurd (h1d _ hm) (by decide)
    · exact hs hm.symm
    · exact absurd (h2d _ hm) (by decide)
    · exact hs hm.symm
    · exact absurd (h3d _ hm) (by decide)
  cases hcc : (ds1 ++ sep :: (ds2 ++ sep :: ds3)).contains '.' with
  | false => rfl
  | true => exact absurd (List.mem_of_elem_eq_true hcc) hnm

theorem preferMonthFirst_shape (date : String) (ds1 ds2 ds3 : List Char)
    (hdate : date.data = ds1 ++ '/' :: (ds2 ++ '/' :: ds3))
    (h1ne : ds1 ≠ []) (h1d : ∀ c ∈ ds1, isDigitChar c = true)
    (h2ne : ds2 ≠ []) (h2d : ∀ c ∈ ds2, isDigitChar c = true)
    (h3d : ∀ c ∈ ds3, isDigitChar c = true) :
    preferMonthFirst date = (if 12 < natOfDigits ds1 then false else true) := by
  have hc : ((ds1 ++ '/' :: (ds2 ++ '/' :: ds3)).contains '/') = true :=
    List.elem_eq_true_of_mem (by simp)
  have h3s : splitOnChar '/' ds3 = [ds3] :=
    splitOnChar_no_sep _ _ (fun c hc2 => by
      intro he
      have := h3d c hc2
      rw [he] at this
      simp [isDigitChar] at this)
  have h2s : splitOnChar '/' (ds2 ++ '/' :: ds3) = [ds2, ds3] :=
    splitOnChar_piece _ _ _ (fun c hc2 => by
      intro he
      have := h2d c hc2
      rw [he] at this
      simp [isDigitChar] at this) ds3 [] h3s
  have h1s : splitOnChar '/' (ds1 ++ '/' :: (ds2 ++ '/' :: ds3)) =
      [ds1, ds2, ds3] :=
    splitOnChar_piece _ _ _ (fun c hc2 => by
      intro he
      have := h1d c hc2
      rw [he] at this
      simp [isDigitChar] at this) ds2 [ds3] h2s
  simp only [preferMonthFirst, hdate, h1s]
  rw [show ([ds1, ds2, ds3].get? 0) = some ds1 from rfl,
    show ([ds1, ds2, ds3].get? 1) = some ds2 from rfl,
    Option.some_bind, Option.some_bind,
    parseNatPiece_digits ds1 h1ne h1d, parseNatPiece_digits ds2 h2ne h2d]
  simp only [hc, if_true]

set_option maxHeartbeats 1000000 in
theorem slash_mf_winner (ds1 ds2 ds3 tail : List Char) (dt : NaiveDateTime)
    (h1ne : ds1 ≠ []) (h1d : ∀ c ∈ ds1, isDigitChar c = true)
    (h1len : ds1.length ≤ 2)
    (h2ne : ds2 ≠ []) (h2d : ∀ c ∈ ds2, isDigitChar c = true)
    (h2len : ds2.length ≤ 2)
    (h3ne : ds3 ≠ []) (h3d : ∀ c ∈ ds3, isDigitChar c = true)
    (h3len : ds3.length ≤ 4)
    (ha : natOfDigits ds1 ≤ 12)
    (h : List.findSome? (fun fmt => (parseWithFmt fmt
        (ds1 ++ '/' :: (ds2 ++ '/' :: (ds3 ++ ',' :: tail)))).bind
        normalizeYear)
        (fmtGroup '/' false false ++ (fmtGroup '/' true false ++
          (fmtGroup '/' false true ++ fmtGroup '/' true true))) = some dt) :
    dt.month = natOfDigits ds1 ∧ dt.dayOfMonth = natOfDigits ds2 := by
  have hslash : isDigitChar '/' = false := by decide
  rw [List.findSome?_append, List.findSome?_append,
    List.findSome?_append] at h
  generalize hPdef : (fun fmt => (parseWithFmt fmt
      (ds1 ++ '/' :: (ds2 ++ '/' :: (ds3 ++ ',' :: tail)))).bind
      normalizeYear) = P0 at h
  cases hg1 : List.findSome? P0 (fmtGroup '/' false false) with
  | some v =>
    rw [hg1] at h
    have hv : v = dt := Option.some.inj h
    subst hv
    rw [← hPdef] at hg1
    obtain ⟨hm, hd2, _, _, _⟩ := group_success_info '/' false false
      ds1 ds2 ds3 tail v h1ne h1d h1len h2ne h2d h2len h3ne h3d h3len
      hslash hg1
    exact ⟨by simpa using hm, by simpa using hd2⟩
  | none =>
    rw [hg1, Option.none_or] at h
    cases hg2 : List.findSome? P0 (fmtGroup '/' true false) with
    | some v =>
      exfalso
      rw [← hPdef] at hg2 hg1
      have hds := group_mf_of_df '/' false ds1 ds2 ds3 tail v
        h1ne h1d h1len h2ne h2d h2len h3ne h3d h3len hslash ha hg2
      rw [hg1] at hds
      cases hds
    | none =>
      rw [hg2, Option.none_or] at h
      cases hg3 : List.findSome? P0 (fmtGroup '/' false true) with
      | some v =>
        rw [hg3] at h
        have hv : v = dt := Option.some.inj h
        subst hv
        rw [← hPdef] at hg3
        obtain ⟨hm, hd2, _, _, _⟩ := group_success_info '/' false true
          ds1 ds2 ds3 tail v h1ne h1d h1len h2ne h2d h2len h3ne h3d h3len
          hslash hg3
        exact ⟨by simpa using hm, by simpa using hd2⟩
      | none =>
        rw [hg3, Option.none_or] at h
        exfalso
        rw [← hPdef] at h hg3
        have hds := group_mf_of_df '/' true ds1 ds2 ds3 tail dt
          h1ne h1d h1len h2ne h2d h2len h3ne h3d h3len hslash ha h
        rw [hg3] at hds
        cases hds

set_option maxHeartbeats 2000000 in
/-- C4: for every date token `ds1 sep ds2 sep ds3` of digit runs accepted by
the header patterns and every successfully parsed timestamp: with separator
`.` the date is day-first; with separator `/` it is day-first when the first
component exceeds 12 and month-first otherwise (including when both
components are at most 12); and the year normalization step adds 2000 to any
parsed year below 100. -/
theorem claim4_main (date time : String) (sep : Char)
    (ds1 ds2 ds3 : List Char) (dt : NaiveDateTime)
    (hdate : date.data = ds1 ++ sep :: (ds2 ++ sep :: ds3))
    (hsep : sep = '/' ∨ sep = '.')
    (h1ne : ds1 ≠ []) (h1d : ∀ c ∈ ds1, isDigitChar c = true)
    (h1len : ds1.length ≤ 2)
    (h2ne : ds2 ≠ []) (h2d : ∀ c ∈ ds2, isDigitChar c = true)
    (h2len : ds2.length ≤ 2)
    (h3ne : ds3 ≠ []) (h3d : ∀ c ∈ ds3, isDigitChar c = true)
    (h3len : ds3.length ≤ 4)
    (h : parse_timestamp date time = some dt) :
    (sep = '.' → dt.month = natOfDigits ds2 ∧
      dt.dayOfMonth = natOfDigits ds1) ∧
    (sep = '/' → 12 < natOfDigits ds1 →
      dt.month = natOfDigits ds2 ∧ dt.dayOfMonth = natOfDigits ds1) ∧
    (sep = '/' → natOfDigits ds1 ≤ 12 →
      dt.month = natOfDigits ds1 ∧ dt.dayOfMonth = natOfDigits ds2) ∧
    (∀ d0 d1 : NaiveDateTime, normalizeYear d0 = some d1 →
      d1.year = if d0.year < 100 then d0.year + 2000 else d0.year) := by
  simp only [parse_timestamp] at h
  rw [hdate] at h
  simp only [List.cons_append, List.nil_append, List.append_assoc] at h
  rcases hsep with hsl | hsd
  · subst hsl
    have hslash : isDigitChar '/' = false := by decide
    have hnodot2 := no_dot_in_date '/' ds1 ds2 ds3 h1d h2d h3d (by decide)
    by_cases ha : 12 < natOfDigits ds1
    · have hpmf : preferMonthFirst date = false := by
        rw [preferMonthFirst_shape date ds1 ds2 ds3 hdate h1ne h1d h2ne h2d
          h3d, if_pos ha]
      have hfor : formatsFor date =
          fmtGroup '/' true false ++ fmtGroup '/' false false ++
            fmtGroup '/' true true ++ fmtGroup '/' false true := by
        unfold formatsFor
        simp only [hdate]
        rw [if_neg (by intro hc2; rw [hnodot2] at hc2; exact Bool.false_ne_true hc2),
          if_neg (by intro hc2; rw [hpmf] at hc2; exact Bool.false_ne_true hc2)]
      rw [hfor] at h
      rcases List.exists_of_findSome?_eq_some h with ⟨fmt, hmem, hfmt⟩
      simp only [fmtGroup, List.mem_append, List.mem_cons, List.not_mem_nil,
        or_false, or_assoc] at hmem
      have hmain : dt.month = natOfDigits ds2 ∧
          dt.dayOfMonth = natOfDigits ds1 := by
          rcases hmem with h1 | hmem
          · subst h1
            obtain ⟨hm, hd2, _, _, _⟩ := fmt_success_info '/' true true false true
              ds1 ds2 ds3 _ dt h1ne h1d h1len h2ne h2d h2len h3ne h3d h3len
              hslash hfmt
            exact ⟨by simpa using hm, by simpa using hd2⟩
          rcases hmem with h1 | hmem
          · subst h1
            obtain ⟨hm, hd2, _, _, _⟩ := fmt_success_info '/' true true false false
              ds1 ds2 ds3 _ dt h1ne h1d h1len h2ne h2d h2len h3ne h3d h3len
              hslash hfmt
            exact ⟨by simpa using hm, by simpa using hd2⟩
          rcases hmem with h1 | hmem
          · subst h1
            obtain ⟨hm, hd2, _, _, _⟩ := fmt_success_info '/' true false false true
              ds1 ds2 ds3 _ dt h1ne h1d h1len h2ne h2d h2len h3ne h3d h3len
              hslash hfmt
            exact ⟨by simpa using hm, by simpa using hd2⟩
          rcases hmem with h1 | hmem
          · subst h1
            obtain ⟨hm, hd2, _, _, _⟩ := fmt_success_info '/' true false false false
              ds1 ds2 ds3 _ dt h1ne h1d h1len h2ne h2d h2len h3ne h3d h3len
              hslash hfmt
            exact ⟨by simpa using hm, by simpa using hd2⟩
          rcases hmem with h1 | hmem
          · subst h1
            obtain ⟨_, _, _, hble, _⟩ := fmt_success_info '/' false true false true
              ds1 ds2 ds3 _ dt h1ne h1d h1len h2ne h2d h2len h3ne h3d h3len
              hslash hfmt
            exact absurd (show natOfDigits ds1 ≤ 12 by simpa using hble) (by omega)
          rcases hmem with h1 | hmem
          · subst h1
            obtain ⟨_, _, _, hble, _⟩ := fmt_success_info '/' false true false false
              ds1 ds2 ds3 _ dt h1ne h1d h1len h2ne h2d h2len h3ne h3d h3len
              hslash hfmt
            exact absurd (show natOfDigits ds1 ≤ 12 by simpa using hble) (by omega)
          rcases hmem with h1 | hmem
          · subst h1
            obtain ⟨_, _, _, hble, _⟩ := fmt_success_info '/' false false false true
              ds1 ds2 ds3 _ dt h1ne h1d h1len h2ne h2d h2len h3ne h3d h3len
              hslash hfmt
            exact absurd (show natOfDigits ds1 ≤ 12 by simpa using hble) (by omega)
          rcases hmem with h1 | hmem
          · subst h1
            obtain ⟨_, _, _, hble, _⟩ := fmt_success_info '/' false false false false
              ds1 ds2 ds3 _ dt h1ne h1d h1len h2ne h2d h2len h3ne h3d h3len
              hslash hfmt
            exact absurd (show natOfDigits ds1 ≤ 12 by simpa using hble) (by omega)
          rcases hmem with h1 | hmem
          · subst h1
            obtain ⟨hm, hd2, _, _, _⟩ := fmt_success_info '/' true true true true
              ds1 ds2 ds3 _ dt h1ne h1d h1len h2ne h2d h2len h3ne h3d h3len
              hslash hfmt
            exact ⟨by simpa using hm, by simpa using hd2⟩
          rcases hmem with h1 | hmem
          · subst h1
            obtain ⟨hm, hd2, _, _, _⟩ := fmt_success_info '/' true true true false
              ds1 ds2 ds3 _ dt h1ne h1d h1len h2ne h2d h2len h3ne h3d h3len
              hslash hfmt
            exact ⟨by simpa using hm, by simpa using hd2⟩
          rcases hmem with h1 | hmem
          · subst h1
            obtain ⟨hm, hd2, _, _, _⟩ := fmt_success_info '/' true false true true
              ds1 ds2 ds3 _ dt h1ne h1d h1len h2ne h2d h2len h3ne h3d h3len
              hslash hfmt
            exact ⟨by simpa using hm, by simpa using hd2⟩
          rcases hmem with h1 | hmem
          · subst h1
            obtain ⟨hm, hd2, _, _, _⟩ := fmt_success_info '/' true false true false
              ds1 ds2 ds3 _ dt h1ne h1d h1len h2ne h2d h2len h3ne h3d h3len
              hslash hfmt
            exact ⟨by simpa using hm, by simpa using hd2⟩
          rcases hmem with h1 | hmem
          · subst h1
            obtain ⟨_, _, _, hble, _⟩ := fmt_success_info '/' false true true true
              ds1 ds2 ds3 _ dt h1ne h1d h1len h2ne h2d h2len h3ne h3d h3len
              hslash hfmt
            exact absurd (show natOfDigits ds1 ≤ 12 by simpa using hble) (by omega)
          rcases hmem with h1 | hmem
          · subst h1
            obtain ⟨_, _, _, hble, _⟩ := fmt_success_info '/' false true true false
              ds1 ds2 ds3 _ dt h1ne h1d h1len h2ne h2d h2len h3ne h3d h3len
              hslash hfmt
            exact absurd (show natOfDigits ds1 ≤ 12 by simpa using hble) (by omega)
          rcases hmem with h1 | hmem
          · subst h1
            obtain ⟨_, _, _, hble, _⟩ := fmt_success_info '/' false false true true
              ds1 ds2 ds3 _ dt h1ne h1d h1len h2ne h2d h2len h3ne h3d h3len
              hslash hfmt
            exact absurd (show natOfDigits ds1 ≤ 12 by simpa using hble) (by omega)
          subst hmem
          obtain ⟨_, _, _, hble, _⟩ := fmt_success_info '/' false false true false
            ds1 ds2 ds3 _ dt h1ne h1d h1len h2ne h2d h2len h3ne h3d h3len
            hslash hfmt
          exact absurd (show natOfDigits ds1 ≤ 12 by simpa using hble) (by omega)
      exact ⟨fun hdot => absurd hdot (by decide), fun _ _ => hmain,
        fun _ hle => absurd hle (by omega),
        fun d0 d1 hn => normalizeYear_adds_2000 d0 d1 hn⟩
    · have hpmf : preferMonthFirst date = true := by
        rw [preferMonthFirst_shape date ds1 ds2 ds3 hdate h1ne h1d h2ne h2d
          h3d, if_neg ha]
      have hfor : formatsFor date =
          fmtGroup '/' false false ++ fmtGroup '/' true false ++
            fmtGroup '/' false true ++ fmtGroup '/' true true := by
        unfold formatsFor
        simp only [hdate]
        rw [if_neg (by intro hc2; rw [hnodot2] at hc2; exact Bool.false_ne_true hc2),
          if_pos (by rw [hpmf])]
      rw [hfor] at h
      have hmain := slash_mf_winner ds1 ds2 ds3 _ dt h1ne h1d h1len
        h2ne h2d h2len h3ne h3d h3len (by omega) h
      exact ⟨fun hdot => absurd hdot (by decide),
        fun _ hgt => absurd hgt (by omega), fun _ _ => hmain,
        fun d0 d1 hn => normalizeYear_adds_2000 d0 d1 hn⟩
  · subst hsd
    have hdot : isDigitChar '.' = false := by decide
    have hcdot : (date.data.contains '.') = true := by
      rw [hdate]
      exact List.elem_eq_true_of_mem (by simp)
    have hfor : formatsFor date =
        fmtGroup '.' true false ++ fmtGroup '.' true true := by
      unfold formatsFor
      simp only [hdate]
      rw [if_pos (by rw [← hdate]; exact hcdot)]
    rw [hfor] at h
    rcases List.exists_of_findSome?_eq_some h with ⟨fmt, hmem, hfmt⟩
    simp only [fmtGroup, List.mem_append, List.mem_cons, List.not_mem_nil,
      or_false, or_assoc] at hmem
    have hmain : dt.month = natOfDigits ds2 ∧
        dt.dayOfMonth = natOfDigits ds1 := by
        rcases hmem with h1 | hmem
        · subst h1
          obtain ⟨hm, hd2, _, _, _⟩ := fmt_success_info '.' true true false true
            ds1 ds2 ds3 _ dt h1ne h1d h1len h2ne h2d h2len h3ne h3d h3len
            hdot hfmt
          exact ⟨by simpa using hm, by simpa using hd2⟩
        rcases hmem with h1 | hmem
        · subst h1
          obtain ⟨hm, hd2, _, _, _⟩ := fmt_success_info '.' true true false false
            ds1 ds2 ds3 _ dt h1ne h1d h1len h2ne h2d h2len h3ne h3d h3len
            hdot hfmt
          exact ⟨by simpa using hm, by simpa using hd2⟩
        rcases hmem with h1 | hmem
        · subst h1
          obtain ⟨hm, hd2, _, _, _⟩ := fmt_success_info '.' true false false true
            ds1 ds2 ds3 _ dt h1ne h1d h1len h2ne h2d h2len h3ne h3d h3len
            hdot hfmt
          exact ⟨by simpa using hm, by simpa using hd2⟩
        rcases hmem with h1 | hmem
        · subst h1
          obtain ⟨hm, hd2, _, _, _⟩ := fmt_success_info '.' true false false false
            ds1 ds2 ds3 _ dt h1ne h1d h1len h2ne h2d h2len h3ne h3d h3len
            hdot hfmt
          exact ⟨by simpa using hm, by simpa using hd2⟩
        rcases hmem with h1 | hmem
        · subst h1
          obtain ⟨hm, hd2, _, _, _⟩ := fmt_success_info '.' true true true true
            ds1 ds2 ds3 _ dt h1ne h1d h1len h2ne h2d h2len h3ne h3d h3len
            hdot hfmt
          exact ⟨by simpa using hm, by simpa using hd2⟩
        rcases hmem with h1 | hmem
        · subst h1
          obtain ⟨hm, hd2, _, _, _⟩ := fmt_success_info '.' true true true false
            ds1 ds2 ds3 _ dt h1ne h1d h1len h2ne h2d h2len h3ne h3d h3len
            hdot hfmt
          exact ⟨by simpa using hm, by simpa using hd2⟩
        rcases hmem with h1 | hmem
        · subst h1
          obtain ⟨hm, hd2, _, _, _⟩ := fmt_success_info '.' true false true true
            ds1 ds2 ds3 _ dt h1ne h1d h1len h2ne h2d h2len h3ne h3d h3len
            hdot hfmt
          exact ⟨by simpa using hm, by simpa using hd2⟩
        subst hmem
        obtain ⟨hm, hd2, _, _, _⟩ := fmt_success_info '.' true false true false
          ds1 ds2 ds3 _ dt h1ne h1d h1len h2ne h2d h2len h3ne h3d h3len
          hdot hfmt
        exact ⟨by simpa using hm, by simpa using hd2⟩
    exact ⟨fun _ => hmain, fun hsl => absurd hsl (by decide),
      fun hsl => absurd hsl (by decide),
      fun d0 d1 hn => normalizeYear_adds_2000 d0 d1 hn⟩

/-- C4 witness: the concrete header date token `5/13/24` with time
`1:00:00 PM` resolves month-first to 2024-05-13. -/
theorem claim4_witness :
    (⟨19856, 46800⟩ : NaiveDateTime).month = natOfDigits ['5'] ∧
    (⟨19856, 46800⟩ : NaiveDateTime).dayOfMonth = natOfDigits ['1', '3'] :=
  (claim4_main "5/13/24" "1:00:00 PM" '/' ['5'] ['1', '3'] ['2', '4']
    ⟨19856, 46800⟩ (by decide) (Or.inl rfl) (by decide) (by decide)
    (by decide) (by decide) (by decide) (by decide) (by decide) (by decide)
    (by decide) (by decide)).2.2.1 rfl (by decide)

end ChatCore
